import Mathlib

/-!
Shallow embedding of the discrete-event factory simulator from
src/rust-sim/src/lib.rs (crate mft_rust_sim, class FactorySim), together
with theorems settling the frozen claims about its specification.

Modelling conventions:
* f64 time and probability values are modelled as rationals (ℚ); the float
  literals 1e-9, 1e-6, 0.01 become the exact rationals they denote.
* The seeded StdRng is modelled as a deterministic draw stream ℕ → ℚ plus a
  cursor; rng.gen::<f64>() and the [0,1) part of gen_range take the next
  stream value.  gen_range(0.0..x) is modelled as u * x for the next draw u
  (a value in [0, x) whenever u ∈ [0, 1)); it panics (returns none) when the
  range 0.0..x is empty, exactly as rand's UniformSampler::sample_single
  asserts low < high.
* The two transcendental kernels that cannot be rational functions are kept
  as uninterpreted computable parameters in an Oracle record: lnT models
  u ↦ -ln(1-u) used by the Exp sampler, and rpow models f64::powf used by
  the utilization EMA decay.  Neither feeds back into any control-flow or
  discrete quantity the claims are about.
* Rust panics (the empty-range sampler assert) are modelled by Option:
  a public call that would panic returns none.
* The BinaryHeap<Reverse<Event>> is modelled as a list kept sorted by the
  (time, seq) order of impl Ord for Event; since seq values are unique the
  heap's pop order coincides with this sorted order.
-/

set_option maxHeartbeats 1600000

set_option allowUnsafeReducibility true

attribute [local semireducible] Rat.mul Rat.add Rat.sub Rat.neg Rat.div Rat.inv Rat.normalize

namespace MiniFactory

/-- f64::max on the rational model (kept as an explicit if so that concrete
runs reduce inside the kernel). -/
def qmax (a b : ℚ) : ℚ := if a ≤ b then b else a

/-- f64::abs on the rational model. -/
def qabs (a : ℚ) : ℚ := if a < 0 then -a else a

/-- usize::min on naturals. -/
def nmin (a b : ℕ) : ℕ := if a ≤ b then a else b

theorem qmax_eq_max (a b : ℚ) : qmax a b = max a b := by
  unfold qmax
  rcases le_total a b with h | h
  · simp [h, max_eq_right h]
  · by_cases h' : a ≤ b
    · simp [h', max_eq_right h']
    · simp [h', max_eq_left h]

theorem qabs_eq_abs (a : ℚ) : qabs a = |a| := by
  unfold qabs
  by_cases h : a < 0
  · simp [h, abs_of_neg h]
  · simp [h, abs_of_nonneg (not_lt.mp h)]

theorem nmin_eq_min (a b : ℕ) : nmin a b = min a b := by
  unfold nmin
  by_cases h : a ≤ b
  · simp [h, min_eq_left h]
  · simp [h, min_eq_right (le_of_not_le h)]

theorem le_qmax_right (a b : ℚ) : b ≤ qmax a b := by
  rw [qmax_eq_max]; exact le_max_right a b

/-- Station status: the four u8 constants STATUS_IDLE/WORKING/BLOCKED/DOWN. -/
inductive Status where
  | idle
  | working
  | blocked
  | down
deriving DecidableEq

/-- Per-station state, mirroring struct Station. -/
structure Station where
  status : Status
  starved : Bool
  end_time : Option ℚ
  util_ema : ℚ
  has_finished_part : Bool
  job_id : Option ℕ
  repairing : Bool
  repair_eta : Option ℚ
deriving DecidableEq

/-- Station::new(). -/
def Station.new : Station :=
  { status := .idle, starved := false, end_time := none, util_ema := 0,
    has_finished_part := false, job_id := none, repairing := false, repair_eta := none }

/-- enum EventType. -/
inductive EventType where
  | serviceComplete
  | machineFailure
  | repairComplete
deriving DecidableEq

/-- struct Event. -/
structure Event where
  t : ℚ
  seq : ℕ
  etype : EventType
  sid : ℕ
deriving DecidableEq

/-- The strict (time, seq) lexicographic order in which the min-heap pops. -/
def lexLt (a b : Event) : Prop := a.t < b.t ∨ (a.t = b.t ∧ a.seq < b.seq)

/-- Non-strict (time, seq) lexicographic order (impl Ord for Event). -/
def lexLe (a b : Event) : Prop := a.t < b.t ∨ (a.t = b.t ∧ a.seq ≤ b.seq)

instance (a b : Event) : Decidable (lexLt a b) := by unfold lexLt; infer_instance

instance (a b : Event) : Decidable (lexLe a b) := by unfold lexLe; infer_instance

/-- Sorted insertion into the event list: the model of BinaryHeap::push for a
heap read off in pop order. -/
def pushEvent (e : Event) : List Event → List Event
  | [] => [e]
  | x :: xs => if lexLe e x then e :: x :: xs else x :: pushEvent e xs

/-- The seeded pseudorandom source: a draw stream and a cursor. -/
structure Rng where
  stream : ℕ → ℚ
  idx : ℕ

/-- One draw: rng.gen::<f64>() (and the u ∈ [0,1) inside gen_range). -/
def Rng.next (r : Rng) : ℚ × Rng := (r.stream r.idx, ⟨r.stream, r.idx + 1⟩)

/-- The uninterpreted transcendental kernels and the seed-to-stream map of
StdRng::seed_from_u64.  They are parameters of the whole model. -/
structure Oracle where
  seedStream : ℕ → ℕ → ℚ
  lnT : ℚ → ℚ
  rpow : ℚ → ℚ → ℚ

/-- The full mutable engine state: struct FactorySim. -/
structure Sim where
  n_stations : ℕ
  buffer_caps : List ℕ
  proc_means : List ℚ
  proc_dists : List String
  util_alpha : ℚ
  fail_rate : ℚ
  repair_time : ℚ
  workers_total : ℕ
  workers_available : ℕ
  repair_queue : List ℕ
  rng : Rng
  time : ℚ
  event_queue : List Event
  seq : ℕ
  current_speed : ℚ
  jobs_total : ℕ
  jobs_completed : ℕ
  job_queue : List ℕ
  wip_history : List ℕ
  record_history : Bool
  buffers : List ℕ
  stations : List Station
  throughput_total : ℕ
  throughput_since_decision : ℕ
  t_last_decision : ℚ
  last_event_type : Option EventType
  last_event_sid : Option ℕ

/-- self.stations[i] (out of range reads give Station::new; they never occur
on states whose stations list has length n_stations). -/
def stn (s : Sim) (i : ℕ) : Station := s.stations.getD i Station.new

/-- self.buffers[i]. -/
def bufAt (s : Sim) (i : ℕ) : ℕ := s.buffers.getD i 0

/-- self.buffer_caps[i]. -/
def capAt (s : Sim) (i : ℕ) : ℕ := s.buffer_caps.getD i 0

/-- fn schedule: push an event carrying the current seq counter, then
increment the counter. -/
def schedule (t : ℚ) (etype : EventType) (sid : ℕ) (s : Sim) : Sim :=
  { s with event_queue := pushEvent { t := t, seq := s.seq, etype := etype, sid := sid } s.event_queue,
           seq := s.seq + 1 }

/-- fn advance_time: no-op on backward requests, otherwise update each
station's utilization EMA with decay (1-alpha)^dt and set the clock. -/
def advance_time (O : Oracle) (to_time : ℚ) (s : Sim) : Sim :=
  if to_time < s.time then s
  else
    let dt := to_time - s.time
    let s1 :=
      if 0 < dt then
        let decay := O.rpow (1 - s.util_alpha) dt
        { s with stations := s.stations.map fun st =>
            { st with util_ema := st.util_ema * decay +
                (1 - decay) * (if st.status = .working then 1 else 0) } }
      else s
    { s1 with time := to_time }

/-- fn sample_proc_time.  The "exp" branch draws an exponential variate
(modelled as lnT u / lambda); any other dist string draws uniformly from
[0, 2*mean) via gen_range, which panics (none) when the range is empty.
The result is divided by max(speed, 1e-6) and clamped to at least 0.01. -/
def sample_proc_time (O : Oracle) (station_idx : ℕ) (speed : ℚ) (s : Sim) : Option (ℚ × Sim) :=
  let mean := s.proc_means.getD station_idx 0
  let dist := s.proc_dists.getD station_idx ""
  if dist = "exp" then
    let lam : ℚ := if mean ≤ 1 / 1000000000 then 1 else 1 / mean
    let p := s.rng.next
    some (qmax (O.lnT p.1 / lam / qmax speed (1 / 1000000)) (1 / 100), { s with rng := p.2 })
  else if 0 < 2 * mean then
    let p := s.rng.next
    some (qmax (p.1 * (2 * mean) / qmax speed (1 / 1000000)) (1 / 100), { s with rng := p.2 })
  else none

/-- One station of the unblock pass of apply_action. -/
def unblockStep (s : Sim) (prog : Bool) (i : ℕ) : Sim × Bool :=
  let st := stn s i
  if st.status = .blocked ∧ st.has_finished_part then
    if i = s.n_stations - 1 then
      ({ s with stations := s.stations.set i { st with status := .idle, has_finished_part := false },
                throughput_total := s.throughput_total + 1,
                throughput_since_decision := s.throughput_since_decision + 1 }, true)
    else if bufAt s i < capAt s i then
      ({ s with buffers := s.buffers.set i (bufAt s i + 1),
                stations := s.stations.set i { st with status := .idle, has_finished_part := false } },
       true)
    else (s, prog)
  else (s, prog)

/-- One station of the start pass of apply_action: pull input, sample a
duration, go WORKING, schedule ServiceComplete and possibly MachineFailure. -/
def startStep (O : Oracle) (s : Sim) (prog : Bool) (i : ℕ) : Option (Sim × Bool) :=
  let st := stn s i
  if st.status ≠ .idle then some (s, prog)
  else
    let can_pull : Bool := if i = 0 then !s.job_queue.isEmpty else decide (0 < bufAt s (i - 1))
    if can_pull = false then
      some ({ s with stations := s.stations.set i { st with starved := true } }, prog)
    else
      let job_id : Option ℕ := if i = 0 then s.job_queue.head? else none
      let s1 := if i = 0 then { s with job_queue := s.job_queue.tail }
                else { s with buffers := s.buffers.set (i - 1) (bufAt s (i - 1) - 1) }
      match sample_proc_time O i s1.current_speed s1 with
      | none => none
      | some (dur, s2) =>
        let newSt := { st with job_id := job_id, starved := false, status := .working,
                               end_time := some (s2.time + dur) }
        let s3 := { s2 with stations := s2.stations.set i newSt }
        let s4 := schedule (s3.time + dur) .serviceComplete i s3
        let p := s4.rng.next
        let s5 := { s4 with rng := p.2 }
        if p.1 < s5.fail_rate then
          let q := s5.rng.next
          let s6 := { s5 with rng := q.2 }
          some (schedule (s6.time + q.1 * dur) .machineFailure i s6, true)
        else some (s5, true)

/-- The unblock pass over a list of station indices. -/
def unblockGo (s : Sim) (prog : Bool) : List ℕ → Sim × Bool
  | [] => (s, prog)
  | i :: rest =>
    let r := unblockStep s prog i
    unblockGo r.1 r.2 rest

/-- The start pass over a list of station indices. -/
def startGo (O : Oracle) (s : Sim) (prog : Bool) : List ℕ → Option (Sim × Bool)
  | [] => some (s, prog)
  | i :: rest =>
    match startStep O s prog i with
    | none => none
    | some r => startGo O r.1 r.2 rest

/-- One iteration of the apply_action loop body: the unblock pass followed by
the start pass, with the shared progress flag. -/
def passOnce (O : Oracle) (s : Sim) : Option (Sim × Bool) :=
  let r := unblockGo s false (List.range s.n_stations)
  startGo O r.1 r.2 (List.range s.n_stations)

/-- The loop of apply_action, iterated while an iteration reports progress.
Each progressing iteration strictly decreases a measure bounded by twice the
number of stations, so the fuel used by apply_action is never exhausted. -/
def dispatchLoop (O : Oracle) : ℕ → Sim → Option Sim
  | 0, s => some s
  | fuel + 1, s =>
    match passOnce O s with
    | none => none
    | some (s1, true) => dispatchLoop O fuel s1
    | some (s1, false) => some s1

/-- fn apply_action: optionally update current_speed, then run the push-pull
dispatcher to quiescence. -/
def apply_action (O : Oracle) (speed_mult : Option ℚ) (s : Sim) : Option Sim :=
  let s0 := match speed_mult with
    | some v => { s with current_speed := v }
    | none => s
  dispatchLoop O (2 * s0.stations.length + 1) s0

/-- fn assign_repair_worker. -/
def assign_repair_worker (s : Sim) (sid : ℕ) : Sim × Bool :=
  if s.n_stations ≤ sid ∨ s.workers_available = 0 then (s, false)
  else if (stn s sid).status ≠ .down ∨ (stn s sid).repairing then (s, false)
  else
    let s1 := { s with
      stations := s.stations.set sid
        { stn s sid with repairing := true, repair_eta := some (s.time + s.repair_time) },
      workers_available := s.workers_available - 1 }
    (schedule (s1.time + s1.repair_time) .repairComplete sid s1, true)

/-- The BLOCKED transition taken by handle_service_complete when the
downstream buffer is full. -/
def blockSt (st : Station) : Station :=
  { st with status := Status.blocked, has_finished_part := true }

/-- fn handle_service_complete. -/
def handle_service_complete (s : Sim) (sid : ℕ) : Sim × Bool :=
  if s.n_stations ≤ sid then (s, false)
  else
    let st := stn s sid
    let valid : Bool :=
      decide (st.status = .working) &&
        (match st.end_time with
         | some et => decide (qabs (et - s.time) ≤ 1 / 1000000000)
         | none => false)
    if valid = false then (s, false)
    else
      let st1 := { st with status := Status.idle, end_time := some s.time, job_id := none }
      let s1 := { s with stations := s.stations.set sid st1 }
      if sid = s.n_stations - 1 then
        ({ s1 with throughput_total := s1.throughput_total + 1,
                   throughput_since_decision := s1.throughput_since_decision + 1,
                   stations := s1.stations.set sid { stn s1 sid with has_finished_part := false },
                   jobs_completed := s1.jobs_completed + 1 }, true)
      else if bufAt s1 sid < capAt s1 sid then
        ({ s1 with buffers := s1.buffers.set sid (bufAt s1 sid + 1),
                   stations := s1.stations.set sid { stn s1 sid with has_finished_part := false } },
         true)
      else
        ({ s1 with stations := s1.stations.set sid (blockSt (stn s1 sid)) }, true)

/-- fn handle_machine_failure: return the in-progress part upstream (front of
job_queue for station 0, buffers[sid-1] without a capacity check otherwise),
go DOWN, then dispatch or queue a repair worker. -/
def handle_machine_failure (s : Sim) (sid : ℕ) : Sim × Bool :=
  if s.n_stations ≤ sid then (s, false)
  else if (stn s sid).status ≠ .working then (s, false)
  else
    let s1 : Sim :=
      if sid = 0 then
        match (stn s sid).job_id with
        | some j => { s with job_queue := j :: s.job_queue,
                             stations := s.stations.set sid { stn s sid with job_id := none } }
        | none => s
      else { s with buffers := s.buffers.set (sid - 1) (bufAt s (sid - 1) + 1) }
    let stD := { stn s1 sid with status := Status.down, starved := false,
                                 has_finished_part := false, end_time := none,
                                 repairing := false, repair_eta := none }
    let s2 : Sim := { s1 with stations := s1.stations.set sid stD }
    if 0 < s2.workers_available then ((assign_repair_worker s2 sid).1, true)
    else if sid ∈ s2.repair_queue then (s2, true)
    else ({ s2 with repair_queue := s2.repair_queue ++ [sid] }, true)

/-- fn handle_repair_complete: free the station, return the worker (capped at
workers_total), and hand the freed worker to the head of the repair queue. -/
def handle_repair_complete (s : Sim) (sid : ℕ) : Sim × Bool :=
  if s.n_stations ≤ sid then (s, false)
  else if (stn s sid).status ≠ .down then (s, false)
  else
    let stI := { stn s sid with status := Status.idle, starved := false,
                                has_finished_part := false, end_time := none,
                                repairing := false, repair_eta := none }
    let s1 := { s with stations := s.stations.set sid stI }
    let s2 := { s1 with workers_available := nmin (s1.workers_available + 1) s1.workers_total }
    match s2.repair_queue with
    | [] => (s2, true)
    | next_sid :: rest =>
      let s3 := { s2 with repair_queue := rest }
      let r := assign_repair_worker s3 next_sid
      if r.2 then (r.1, true) else ({ r.1 with repair_queue := next_sid :: r.1.repair_queue }, true)

/-- Dispatch one popped event to its handler. -/
def handleEvent (e : Event) (s : Sim) : Sim × Bool :=
  match e.etype with
  | .serviceComplete => handle_service_complete s e.sid
  | .machineFailure => handle_machine_failure s e.sid
  | .repairComplete => handle_repair_complete s e.sid

/-- Boundary view of one station inside a snapshot. -/
structure StationView where
  status : Status
  remaining : ℚ
  util_ema : ℚ
  starved : Bool
  blocked : Bool
  down : Bool
  repairing : Bool
  repair_remaining : ℚ
deriving DecidableEq

/-- The snapshot mapping returned to the caller (buffer levels kept as the
ordered list of values of the "b{i}{i+1}" keys). -/
structure Snapshot where
  t : ℚ
  t_start : ℚ
  t_end : ℚ
  event_type : Option EventType
  event_station : Option ℕ
  buffers : List ℕ
  stations : List StationView
  throughput : ℕ
  wip : ℕ
  blocked : ℕ
  starved : ℕ
  down : ℕ
  workers_available : ℕ
  workers_total : ℕ
  avg_processing_time : ℚ
  avg_processing_speed : ℚ
deriving DecidableEq

/-- The per-station record built inside get_snapshot. -/
def stationView (time : ℚ) (st : Station) : StationView :=
  { status := st.status,
    remaining := if st.status = .working then qmax (st.end_time.getD time - time) 0 else 0,
    util_ema := st.util_ema,
    starved := st.starved,
    blocked := decide (st.status = .blocked),
    down := decide (st.status = .down),
    repairing := st.repairing,
    repair_remaining := if st.status = .down then qmax (st.repair_eta.getD time - time) 0 else 0 }

/-- fn get_snapshot (a pure read: it takes &self and builds a fresh value). -/
def get_snapshot (s : Sim) : Snapshot :=
  let working := s.stations.countP fun st => decide (st.status = .working)
  let blocked := s.stations.countP fun st => decide (st.status = .blocked)
  let starved := s.stations.countP fun st => st.starved
  let down := s.stations.countP fun st => decide (st.status = .down)
  let avg_proc_time : ℚ :=
    if s.proc_means.isEmpty then 0 else s.proc_means.sum / (s.proc_means.length : ℚ)
  { t := s.time,
    t_start := s.t_last_decision,
    t_end := s.time,
    event_type := s.last_event_type,
    event_station := s.last_event_sid,
    buffers := s.buffers,
    stations := s.stations.map (stationView s.time),
    throughput := s.throughput_since_decision,
    wip := s.buffers.sum + working + blocked,
    blocked := blocked,
    starved := starved,
    down := down,
    workers_available := s.workers_available,
    workers_total := s.workers_total,
    avg_processing_time := avg_proc_time,
    avg_processing_speed := if 0 < avg_proc_time then 1 / avg_proc_time else 0 }

/-- The summary mapping returned by run_to_finish / get_summary. -/
structure Summary where
  total_jobs : ℕ
  jobs_completed : ℕ
  makespan : ℚ
  avg_wip : ℚ
  avg_util : ℚ
  throughput_rate : ℚ
  down_stations : ℕ
  workers_available : ℕ
  workers_total : ℕ
deriving DecidableEq

/-- fn get_summary (a pure read). -/
def get_summary (s : Sim) : Summary :=
  { total_jobs := s.jobs_total,
    jobs_completed := s.jobs_completed,
    makespan := s.time,
    avg_wip := if s.wip_history.isEmpty then 0
               else ((s.wip_history.sum : ℚ)) / (s.wip_history.length : ℚ),
    avg_util := if s.stations.isEmpty then 0
                else (s.stations.map Station.util_ema).sum / (s.stations.length : ℚ),
    throughput_rate := if 0 < s.time then (s.jobs_completed : ℚ) / s.time else 0,
    down_stations := s.stations.countP fun st => decide (st.status = .down),
    workers_available := s.workers_available,
    workers_total := s.workers_total }

/-- The WIP value run_to_finish appends to wip_history after a handled event:
sum of buffers plus the number of stations whose status is not IDLE. -/
def historyWip (s : Sim) : ℕ :=
  s.buffers.sum + s.stations.countP fun st => decide (st.status ≠ .idle)

/-- The event-popping loop of run_until_next_decision, with the list of popped
events returned alongside for trace reasoning.  The fuel is instantiated with
the queue length, which suffices: unhandled pops never push. -/
def rundLoop (O : Oracle) : ℕ → Sim → Option (Sim × List Event)
  | 0, s => some (s, [])
  | fuel + 1, s =>
    match s.event_queue with
    | [] => some (s, [])
    | e :: rest =>
      let s1 := advance_time O e.t { s with event_queue := rest }
      let r := handleEvent e s1
      if r.2 then
        match apply_action O none
            { r.1 with last_event_type := some e.etype, last_event_sid := some e.sid } with
        | none => none
        | some s3 => some (s3, [e])
      else
        match rundLoop O fuel r.1 with
        | none => none
        | some (s3, tr) => some (s3, e :: tr)

/-- fn run_until_next_decision: zero throughput_since_decision, pop events
until one is handled (running the dispatcher after it), take a snapshot, then
stamp t_last_decision. -/
def run_until_next_decision (O : Oracle) (s : Sim) : Option (Snapshot × Sim × List Event) :=
  let s0 := { s with throughput_since_decision := 0 }
  match rundLoop O s0.event_queue.length s0 with
  | none => none
  | some (s1, tr) => some (get_snapshot s1, { s1 with t_last_decision := s1.time }, tr)

/-- The loop of run_to_finish, with explicit fuel (the Rust loop need not
terminate, e.g. with fail_rate = 1) and the popped-event trace. -/
def rtfLoop (O : Oracle) : ℕ → Sim → Option (Sim × List Event)
  | 0, s => some (s, [])
  | fuel + 1, s =>
    if s.jobs_completed < s.jobs_total ∧ s.event_queue ≠ [] then
      match s.event_queue with
      | [] => some (s, [])
      | e :: rest =>
        let s1 := advance_time O e.t { s with event_queue := rest }
        let r := handleEvent e s1
        if r.2 then
          let s2 := if r.1.record_history
                    then { r.1 with wip_history := r.1.wip_history ++ [historyWip r.1] }
                    else r.1
          match apply_action O none s2 with
          | none => none
          | some s3 =>
            match rtfLoop O fuel s3 with
            | none => none
            | some (s4, tr) => some (s4, e :: tr)
        else
          match rtfLoop O fuel r.1 with
          | none => none
          | some (s4, tr) => some (s4, e :: tr)
    else some (s, [])

/-- fn run_to_finish (fueled): run the dispatch loop while jobs remain and the
queue is non-empty, appending the WIP measure on each handled event, and
return the summary. -/
def run_to_finish (O : Oracle) (fuel : ℕ) (s : Sim) : Option (Summary × Sim × List Event) :=
  match rtfLoop O fuel s with
  | none => none
  | some (s1, tr) => some (get_summary s1, s1, tr)

/-- fn reset: reseed (seedStream for a seed, the supplied entropy stream
otherwise), zero clock/counters/queues, rebuild stations and jobs, run the
dispatcher once, and return an initial snapshot. -/
def reset (O : Oracle) (ent : ℕ → ℚ) (seed : Option ℕ) (n_jobs : ℕ) (s : Sim) :
    Option (Snapshot × Sim) :=
  let rng : Rng := match seed with
    | some v => ⟨O.seedStream v, 0⟩
    | none => ⟨ent, 0⟩
  let s1 : Sim :=
    { s with rng := rng, time := 0, event_queue := [], seq := 0, current_speed := 1,
             throughput_total := 0, throughput_since_decision := 0,
             workers_available := s.workers_total, repair_queue := [],
             buffers := List.replicate (s.n_stations - 1) 0,
             stations := List.replicate s.n_stations Station.new,
             jobs_total := n_jobs, jobs_completed := 0,
             job_queue := List.range n_jobs,
             wip_history := [], t_last_decision := 0,
             last_event_type := none, last_event_sid := none }
  match apply_action O none s1 with
  | none => none
  | some s2 => some (get_snapshot s2, s2)

/-- FactorySim::new: validate, then build the initial state (rng from
entropy). -/
def FactorySim.new (ent : ℕ → ℚ) (n_stations : ℕ) (buffer_caps : List ℕ)
    (proc_means : List ℚ) (proc_dists : List String)
    (util_alpha fail_rate repair_time : ℚ) (workers : ℕ) : Except String Sim :=
  if n_stations < 1 then .error "Need at least one station"
  else if buffer_caps.length ≠ n_stations - 1 then .error "buffer_caps length must be n_stations-1"
  else if proc_means.length ≠ n_stations then .error "proc_means length must equal n_stations"
  else if proc_dists.length ≠ n_stations then .error "proc_dists length must equal n_stations"
  else .ok
    { n_stations := n_stations, buffer_caps := buffer_caps, proc_means := proc_means,
      proc_dists := proc_dists, util_alpha := util_alpha, fail_rate := fail_rate,
      repair_time := repair_time, workers_total := workers, workers_available := workers,
      repair_queue := [], rng := ⟨ent, 0⟩, time := 0, event_queue := [], seq := 0,
      current_speed := 1, jobs_total := 0, jobs_completed := 0, job_queue := [],
      wip_history := [], record_history := true,
      buffers := List.replicate (n_stations - 1) 0,
      stations := List.replicate n_stations Station.new,
      throughput_total := 0, throughput_since_decision := 0, t_last_decision := 0,
      last_event_type := none, last_event_sid := none }

/-- One public call of the engine, as driven by a caller. -/
inductive Call where
  | reset (seed : Option ℕ) (n_jobs : ℕ)
  | action (speed_mult : Option ℚ)
  | step
  | finish (fuel : ℕ)
  | snapshot
  | summary

/-- A boundary value handed back to the caller. -/
inductive Out where
  | snap (x : Snapshot)
  | summ (x : Summary)
deriving DecidableEq

/-- Apply one public call; ent is the entropy stream an unseeded reset of this
call would draw.  Returns the new state, the outputs produced, and the events
popped from the queue during the call. -/
def applyCall (O : Oracle) (ent : ℕ → ℚ) (c : Call) (s : Sim) :
    Option (Sim × List Out × List Event) :=
  match c with
  | .reset seed n_jobs =>
    match reset O ent seed n_jobs s with
    | none => none
    | some (sn, s') => some (s', [.snap sn], [])
  | .action speed_mult =>
    match apply_action O speed_mult s with
    | none => none
    | some s' => some (s', [], [])
  | .step =>
    match run_until_next_decision O s with
    | none => none
    | some (sn, s', tr) => some (s', [.snap sn], tr)
  | .finish fuel =>
    match run_to_finish O fuel s with
    | none => none
    | some (sm, s', tr) => some (s', [.summ sm], tr)
  | .snapshot => some (s, [.snap (get_snapshot s)], [])
  | .summary => some (s, [.summ (get_summary s)], [])

/-- Run a list of public calls; ent k is the entropy stream available to the
call at position k (consumed only by unseeded resets). -/
def runCallsAux (O : Oracle) (ent : ℕ → ℕ → ℚ) :
    List Call → ℕ → Sim → Option (Sim × List Out × List Event)
  | [], _, s => some (s, [], [])
  | c :: cs, k, s =>
    match applyCall O (ent k) c s with
    | none => none
    | some (s1, outs, tr) =>
      match runCallsAux O ent cs (k + 1) s1 with
      | none => none
      | some (s2, outs2, tr2) => some (s2, outs ++ outs2, tr ++ tr2)

/-- Run a list of public calls from a freshly constructed engine state. -/
def runCalls (O : Oracle) (ent : ℕ → ℕ → ℚ) (calls : List Call) (s : Sim) :
    Option (Sim × List Out × List Event) :=
  runCallsAux O ent calls 0 s

/-! ### Concrete fixtures used by counterexamples and witnesses -/

/-- A fallback state (used only as the impossible error arm of fixture
construction; all fixture constructions validate successfully). -/
def sim0 : Sim :=
  { n_stations := 1, buffer_caps := [], proc_means := [1], proc_dists := ["uniform"],
    util_alpha := 0, fail_rate := 0, repair_time := 1, workers_total := 0,
    workers_available := 0, repair_queue := [], rng := ⟨fun _ => 0, 0⟩, time := 0,
    event_queue := [], seq := 0, current_speed := 1, jobs_total := 0, jobs_completed := 0,
    job_queue := [], wip_history := [], record_history := true, buffers := [],
    stations := [Station.new], throughput_total := 0, throughput_since_decision := 0,
    t_last_decision := 0, last_event_type := none, last_event_sid := none }

/-- A concrete draw stream in [0, 1), the values StdRng is taken to produce
for the fixed seeds of the counterexample runs. -/
def cxStream : ℕ → ℚ :=
  fun i => [(1:ℚ)/4, 3/4, 1/4, 3/4, 9/10, 1/4, 5/6, 9/10, 3/4].getD i (1/2)

/-- A concrete oracle: every seed yields cxStream; the transcendental kernels
are irrelevant to the discrete quantities the counterexamples inspect. -/
def Ocx : Oracle := { seedStream := fun _ => cxStream, lnT := fun _ => 0, rpow := fun _ _ => 0 }

/-- A concrete entropy source (never consumed by the seeded runs below). -/
def entCx : ℕ → ℕ → ℚ := fun _ _ => 0

/-- Two stations, interstage buffer capacity 1, uniform service of mean 1,
fail_rate 1/2, no repair workers. -/
def simC1 : Sim :=
  match FactorySim.new (fun _ => 0) 2 [1] [1, 1] ["uniform", "uniform"] 0 (1/2) 100 0 with
  | .ok s => s
  | .error _ => sim0

/-- One station whose uniform service has mean 0: a valid configuration by the
constructor (and by the spec table, which only demands proc_means ≥ 0). -/
def simC2 : Sim :=
  match FactorySim.new (fun _ => 0) 1 [] [0] ["uniform"] 0 0 1 0 with
  | .ok s => s
  | .error _ => sim0

/-- One station, uniform mean 5, certain failure, repair time 2, one worker:
the spec's scenario S3. -/
def simC3 : Sim :=
  match FactorySim.new (fun _ => 0) 1 [] [5] ["uniform"] 0 1 2 1 with
  | .ok s => s
  | .error _ => sim0

/-- One station, uniform mean 1, no failures, no workers. -/
def simC4 : Sim :=
  match FactorySim.new (fun _ => 0) 1 [] [1] ["uniform"] 0 0 1 0 with
  | .ok s => s
  | .error _ => sim0

/-! ### C9: construction validation -/

/-- C9: FactorySim::new fails (with an invalid-argument error) if and only if
n_stations < 1, or buffer_caps has length other than max(0, n_stations-1), or
proc_means or proc_dists has length other than n_stations; every other
parameter combination (util_alpha, fail_rate, repair_time, workers are never
checked) constructs successfully. -/
theorem c9_construction_validation (ent : ℕ → ℚ) (n : ℕ) (caps : List ℕ)
    (means : List ℚ) (dists : List String) (a f r : ℚ) (w : ℕ) :
    (FactorySim.new ent n caps means dists a f r w).isOk = false ↔
      (n < 1 ∨ caps.length ≠ n - 1 ∨ means.length ≠ n ∨ dists.length ≠ n) := by
  unfold FactorySim.new
  split_ifs with h1 h2 h3 h4 <;> simp [Except.isOk, Except.toBool] <;> omega

/-! ### C2: sample_proc_time -/

/-- C2 (amended): sample_proc_time succeeds whenever the station's
distribution is "exp" or its mean is positive, and the returned duration is
at least 0.01 (the value is divided by max(speed, 1e-6) and then clamped).
For a non-"exp" distribution with mean 0 — which the claim's precondition
"proc_means all ≥ 0" allows — the empty uniform range 0.0..0.0 panics
instead, so the success condition cannot be weakened further. -/
theorem c2_sample_succeeds_and_clamped (O : Oracle) (i : ℕ) (speed : ℚ) (s : Sim)
    (h : s.proc_dists.getD i "" = "exp" ∨ 0 < s.proc_means.getD i 0) :
    ∃ d s2, sample_proc_time O i speed s = some (d, s2) ∧ 1 / 100 ≤ d := by
  unfold sample_proc_time
  by_cases hd : s.proc_dists.getD i "" = "exp"
  · rw [if_pos hd]
    exact ⟨_, _, rfl, le_qmax_right _ _⟩
  · rcases h with h | h
    · exact absurd h hd
    · rw [if_neg hd, if_pos (by linarith : (0:ℚ) < 2 * s.proc_means.getD i 0)]
      exact ⟨_, _, rfl, le_qmax_right _ _⟩

/-- Witness for C2 (amended) at a concrete input: station 0 of sim0 has a
"uniform" distribution with positive mean, and sampling succeeds with a
duration of at least 0.01. -/
theorem c2_sample_succeeds_and_clamped_witness :
    (0 < sim0.proc_means.getD 0 0) ∧
      (∃ d s2, sample_proc_time Ocx 0 1 sim0 = some (d, s2) ∧ 1 / 100 ≤ d) :=
  ⟨by decide, c2_sample_succeeds_and_clamped Ocx 0 1 sim0 (Or.inr (by decide))⟩

/-- C2 counterexample: simC2 is accepted by the constructor and satisfies the
claim's precondition (its single proc_mean is 0, hence ≥ 0, with a "uniform"
dist string), yet sample_proc_time fails on it — rand's
UniformSampler::sample_single asserts low < high for the range 0.0..(2*0) —
so the very first public reset call panics instead of returning. -/
theorem c2_counterexample :
    (FactorySim.new (fun _ => 0) 1 [] [0] ["uniform"] 0 0 1 0).isOk = true ∧
      (0:ℚ) ≤ simC2.proc_means.getD 0 0 ∧
      simC2.proc_dists.getD 0 "" = "uniform" ∧
      (sample_proc_time Ocx 0 1 simC2).isSome = false ∧
      (runCalls Ocx entCx [Call.reset (some 0) 1] simC2).isSome = false := by
  refine ⟨by decide, by decide, by decide, by decide, by decide⟩

/-! ### C3: the WIP measure recorded by run_to_finish -/

/-- Splitting the count of non-IDLE stations into the three non-IDLE
statuses. -/
theorem countP_status_split (l : List Station) :
    (l.countP fun st => decide (st.status ≠ .idle)) =
      (l.countP fun st => decide (st.status = .working)) +
      (l.countP fun st => decide (st.status = .blocked)) +
      (l.countP fun st => decide (st.status = .down)) := by
  induction l with
  | nil => rfl
  | cons st rest ih =>
    rw [List.countP_cons, List.countP_cons, List.countP_cons, List.countP_cons, ih]
    rcases hs : st.status <;> simp [hs] <;> omega

/-- C3 (amended): the value run_to_finish appends to wip_history after a
handled event is the sum of the buffers plus the number of non-IDLE stations;
equivalently it exceeds the snapshot's wip measure (buffers + WORKING +
BLOCKED) by exactly the number of DOWN stations, which the claim said were
not counted. -/
theorem c3_history_wip_counts_down (s : Sim) :
    historyWip s = (get_snapshot s).wip + (get_snapshot s).down := by
  unfold historyWip get_snapshot
  simp only []
  rw [countP_status_split]
  omega

/-- C3 counterexample: in scenario S3 (one station, certain failure), the
first handled event of run_to_finish is the machine failure; the job returns
to the queue and the station goes DOWN, so the claim's measure
sum(buffers) + #WORKING + #BLOCKED — the snapshot wip of the state at the
append, which the subsequent dispatcher invocation leaves unchanged — is 0,
yet the value 1 (counting the DOWN station) is appended to wip_history. -/
theorem c3_counterexample :
    (runCalls Ocx entCx [Call.reset (some 0) 1, Call.finish 1] simC3).map
        (fun r => (r.1.wip_history, (get_snapshot r.1).wip, (get_snapshot r.1).down,
          (stn r.1 0).status, r.1.buffers))
      = some ([1], 0, 1, Status.down, []) := by decide

/-! ### List and event-order helper lemmas -/

theorem getD_set_self {α : Type} (l : List α) (i : ℕ) (a d : α) (h : i < l.length) :
    (l.set i a).getD i d = a := by
  induction l generalizing i with
  | nil => simp at h
  | cons x xs ih =>
    cases i with
    | zero => rfl
    | succ j => exact ih j (by simpa using h)

theorem getD_set_other {α : Type} (l : List α) {i j : ℕ} (a d : α) (h : i ≠ j) :
    (l.set i a).getD j d = l.getD j d := by
  induction l generalizing i j with
  | nil => simp [List.set]
  | cons x xs ih =>
    cases i with
    | zero =>
      cases j with
      | zero => exact absurd rfl h
      | succ k => rfl
    | succ i' =>
      cases j with
      | zero => rfl
      | succ k => exact ih fun hik => h (by rw [hik])

theorem set_oob {α : Type} (l : List α) (i : ℕ) (a : α) (h : l.length ≤ i) :
    l.set i a = l := by
  induction l generalizing i with
  | nil => rfl
  | cons x xs ih =>
    cases i with
    | zero => simp at h
    | succ j => simpa using ih j (by simpa using h)

theorem getD_oob {α : Type} (l : List α) (i : ℕ) (d : α) (h : l.length ≤ i) :
    l.getD i d = d := by
  induction l generalizing i with
  | nil => rfl
  | cons x xs ih =>
    cases i with
    | zero => simp at h
    | succ j => exact ih j (by simpa using h)

theorem getD_set_self_of_lt {α : Type} (l : List α) (i : ℕ) (a d : α) :
    (l.set i a).getD i d = if i < l.length then a else d := by
  by_cases h : i < l.length
  · rw [if_pos h, getD_set_self l i a d h]
  · rw [if_neg h, set_oob l i a (le_of_not_lt h), getD_oob l i d (le_of_not_lt h)]

theorem countP_congr_getD {α : Type} (p : α → Bool) (d : α) :
    ∀ (l m : List α), l.length = m.length →
      (∀ i, i < l.length → p (l.getD i d) = p (m.getD i d)) →
      l.countP p = m.countP p := by
  intro l
  induction l with
  | nil =>
    intro m hlen _
    cases m with
    | nil => rfl
    | cons y ys => simp at hlen
  | cons x xs ih =>
    intro m hlen hpt
    cases m with
    | nil => simp at hlen
    | cons y ys =>
      have h0 : p x = p y := hpt 0 (by simp)
      have hrest : xs.countP p = ys.countP p := by
        refine ih ys (by simpa using hlen) ?_
        intro i hi
        exact hpt (i + 1) (by simpa using Nat.succ_lt_succ hi)
      rw [List.countP_cons, List.countP_cons, h0, hrest]

theorem countP_set_add {α : Type} (p : α → Bool) (a d : α) :
    ∀ (l : List α) (i : ℕ), i < l.length →
      (l.set i a).countP p + (if p (l.getD i d) then 1 else 0)
        = l.countP p + (if p a then 1 else 0) := by
  intro l
  induction l with
  | nil => intro i h; simp at h
  | cons x xs ih =>
    intro i h
    cases i with
    | zero =>
      simp only [List.set, List.countP_cons, List.getD_cons_zero]
      omega
    | succ j =>
      have hj : j < xs.length := by simpa using h
      have hrec := ih j hj
      simp only [List.set, List.countP_cons, List.getD_cons_succ]
      omega

theorem lexLt_trans {a b c : Event} (h1 : lexLt a b) (h2 : lexLt b c) : lexLt a c := by
  unfold lexLt at *
  rcases h1 with h1 | ⟨h1e, h1s⟩ <;> rcases h2 with h2 | ⟨h2e, h2s⟩
  · exact Or.inl (lt_trans h1 h2)
  · exact Or.inl (h2e ▸ h1)
  · exact Or.inl (h1e ▸ h2)
  · exact Or.inr ⟨h1e.trans h2e, lt_trans h1s h2s⟩

theorem lexLt_of_not_lexLe {a b : Event} (h : ¬ lexLe a b) : lexLt b a := by
  unfold lexLe at h
  unfold lexLt
  push_neg at h
  rcases lt_trichotomy b.t a.t with ht | ht | ht
  · exact Or.inl ht
  · exact Or.inr ⟨ht, h.2 ht.symm⟩
  · exact absurd ht (not_lt.mpr h.1)

theorem lexLt_of_lexLe_of_ne {a b : Event} (h : lexLe a b) (hne : a.seq ≠ b.seq) :
    lexLt a b := by
  unfold lexLe at h
  unfold lexLt
  rcases h with h | ⟨he, hs⟩
  · exact Or.inl h
  · exact Or.inr ⟨he, lt_of_le_of_ne hs hne⟩

theorem pushEvent_cons_le {e x : Event} {xs : List Event} (h : lexLe e x) :
    pushEvent e (x :: xs) = e :: x :: xs := by
  unfold pushEvent; rw [if_pos h]

theorem pushEvent_cons_gt {e x : Event} {xs : List Event} (h : ¬ lexLe e x) :
    pushEvent e (x :: xs) = x :: pushEvent e xs := by
  conv_lhs => unfold pushEvent
  rw [if_neg h]

theorem mem_pushEvent {a e : Event} : ∀ {l : List Event},
    a ∈ pushEvent e l ↔ a = e ∨ a ∈ l := by
  intro l
  induction l with
  | nil => simp [pushEvent]
  | cons x xs ih =>
    unfold pushEvent
    by_cases h : lexLe e x <;> simp [h, ih] <;> tauto

theorem sublist_pushEvent (e : Event) : ∀ (l : List Event), l.Sublist (pushEvent e l) := by
  intro l
  induction l with
  | nil => simp [pushEvent]
  | cons x xs ih =>
    unfold pushEvent
    by_cases h : lexLe e x
    · simp [h]
    · simpa [h] using List.Sublist.cons₂ x ih

theorem countP_pushEvent (p : Event → Bool) (e : Event) : ∀ (l : List Event),
    (pushEvent e l).countP p = l.countP p + (if p e then 1 else 0) := by
  intro l
  induction l with
  | nil => simp [pushEvent, List.countP_cons]
  | cons x xs ih =>
    by_cases h : lexLe e x
    · rw [pushEvent_cons_le h, List.countP_cons, List.countP_cons]
      all_goals omega
    · rw [pushEvent_cons_gt h, List.countP_cons, List.countP_cons, ih]
      all_goals omega

theorem pairwise_pushEvent {e : Event} : ∀ {l : List Event},
    List.Pairwise lexLt l → (∀ x ∈ l, x.seq ≠ e.seq) →
    List.Pairwise lexLt (pushEvent e l) := by
  intro l
  induction l with
  | nil => intro _ _; simp [pushEvent]
  | cons x xs ih =>
    intro hp hs
    unfold pushEvent
    by_cases h : lexLe e x
    · rw [if_pos h]
      have hex : lexLt e x := lexLt_of_lexLe_of_ne h (fun hq => hs x (by simp) hq.symm)
      refine List.Pairwise.cons ?_ hp
      intro b hb
      rcases List.mem_cons.mp hb with rfl | hb
      · exact hex
      · exact lexLt_trans hex (List.rel_of_pairwise_cons hp hb)
    · rw [if_neg h]
      have hxe : lexLt x e := lexLt_of_not_lexLe h
      refine List.Pairwise.cons ?_ (ih (List.Pairwise.of_cons hp) ?_)
      · intro b hb
        rcases mem_pushEvent.mp hb with rfl | hb
        · exact hxe
        · exact List.rel_of_pairwise_cons hp hb
      · intro y hy
        exact hs y (by simp [hy])

theorem nodup_map_seq_pushEvent {e : Event} : ∀ {l : List Event},
    (l.map Event.seq).Nodup → (∀ x ∈ l, x.seq ≠ e.seq) →
    ((pushEvent e l).map Event.seq).Nodup := by
  intro l
  induction l with
  | nil => intro _ _; simp [pushEvent]
  | cons x xs ih =>
    intro hn hs
    unfold pushEvent
    by_cases h : lexLe e x
    · rw [if_pos h]
      simp only [List.map_cons, List.nodup_cons] at *
      refine ⟨?_, hn⟩
      intro hmem
      simp only [List.mem_cons, List.mem_map] at hmem
      rcases hmem with hmem | ⟨y, hy, hyseq⟩
      · exact hs x (by simp) (by rw [hmem])
      · exact hs y (by simp [hy]) (by rw [hyseq])
    · rw [if_neg h]
      simp only [List.map_cons, List.nodup_cons] at *
      refine ⟨?_, ih hn.2 (fun y hy => hs y (by simp [hy]))⟩
      intro hmem
      simp only [List.mem_map] at hmem
      rcases hmem with ⟨y, hy, hyseq⟩
      rcases mem_pushEvent.mp hy with rfl | hy
      · exact hs x (by simp) hyseq.symm
      · exact hn.1 (List.mem_map.mpr ⟨y, hy, hyseq⟩)

/-! ### The effects relation of the push-pull dispatcher -/

/-- Queue well-formedness: strictly sorted in (time, seq), all seq values
below the counter, seq values pairwise distinct. -/
def QOK (s : Sim) : Prop :=
  List.Pairwise lexLt s.event_queue ∧
    (∀ e ∈ s.event_queue, e.seq < s.seq) ∧
    (s.event_queue.map Event.seq).Nodup

/-- Everything one invocation of the dispatcher (the apply_action loop after
the speed update) can do to the state: the configuration, clock, worker pool,
repair queue, histories and rng stream are untouched; WORKING and DOWN
stations are never modified; stations that become WORKING end at a scheduled
ServiceComplete at least 0.01 in the future; only ServiceComplete and
MachineFailure events (with fresh seq values) are pushed, never popped; and no
buffer is ever pushed above its capacity. -/
structure AAE (s s' : Sim) : Prop where
  n_eq : s'.n_stations = s.n_stations
  caps_eq : s'.buffer_caps = s.buffer_caps
  means_eq : s'.proc_means = s.proc_means
  dists_eq : s'.proc_dists = s.proc_dists
  alpha_eq : s'.util_alpha = s.util_alpha
  fr_eq : s'.fail_rate = s.fail_rate
  rt_eq : s'.repair_time = s.repair_time
  wt_eq : s'.workers_total = s.workers_total
  wa_eq : s'.workers_available = s.workers_available
  rq_eq : s'.repair_queue = s.repair_queue
  time_eq : s'.time = s.time
  cs_eq : s'.current_speed = s.current_speed
  jt_eq : s'.jobs_total = s.jobs_total
  jc_eq : s'.jobs_completed = s.jobs_completed
  wh_eq : s'.wip_history = s.wip_history
  rh_eq : s'.record_history = s.record_history
  tld_eq : s'.t_last_decision = s.t_last_decision
  let_eq : s'.last_event_type = s.last_event_type
  les_eq : s'.last_event_sid = s.last_event_sid
  stream_eq : s'.rng.stream = s.rng.stream
  slen_eq : s'.stations.length = s.stations.length
  blen_eq : s'.buffers.length = s.buffers.length
  seq_le : s.seq ≤ s'.seq
  qsub : s.event_queue.Sublist s'.event_queue
  qnew : ∀ e ∈ s'.event_queue, e ∈ s.event_queue ∨
      (s.seq ≤ e.seq ∧ e.etype ≠ EventType.repairComplete ∧
        ((∀ n, 0 ≤ s.rng.stream n) → s.time ≤ e.t))
  rc_count : ∀ i, (s'.event_queue.countP fun e =>
      decide (e.etype = EventType.repairComplete ∧ e.sid = i)) =
      (s.event_queue.countP fun e => decide (e.etype = EventType.repairComplete ∧ e.sid = i))
  qok : QOK s → QOK s'
  work_frame : ∀ i, (stn s i).status = .working → stn s' i = stn s i
  down_frame : ∀ i, (stn s i).status = .down → stn s' i = stn s i
  down_back : ∀ i, (stn s' i).status = .down → stn s' i = stn s i
  rep_eq : ∀ i, (stn s' i).repairing = (stn s i).repairing
  started : ∀ i, (stn s' i).status = .working →
      ((stn s i).status = .working ∧ stn s' i = stn s i) ∨
      (∃ t', (stn s' i).end_time = some t' ∧ s.time + 1 / 100 ≤ t' ∧
        ∃ e ∈ s'.event_queue, e.etype = EventType.serviceComplete ∧ e.sid = i ∧ e.t = t')
  buf_le : ∀ i, bufAt s' i ≤ max (bufAt s i) (capAt s i)

theorem AAE.idem (s : Sim) : AAE s s where
  n_eq := rfl
  caps_eq := rfl
  means_eq := rfl
  dists_eq := rfl
  alpha_eq := rfl
  fr_eq := rfl
  rt_eq := rfl
  wt_eq := rfl
  wa_eq := rfl
  rq_eq := rfl
  time_eq := rfl
  cs_eq := rfl
  jt_eq := rfl
  jc_eq := rfl
  wh_eq := rfl
  rh_eq := rfl
  tld_eq := rfl
  let_eq := rfl
  les_eq := rfl
  stream_eq := rfl
  slen_eq := rfl
  blen_eq := rfl
  seq_le := le_refl _
  qsub := List.Sublist.refl _
  qnew := fun e he => Or.inl he
  rc_count := fun _ => rfl
  qok := id
  work_frame := fun _ _ => rfl
  down_frame := fun _ _ => rfl
  down_back := fun _ _ => rfl
  rep_eq := fun _ => rfl
  started := fun _ h => Or.inl ⟨h, rfl⟩
  buf_le := fun i => le_max_left _ _

theorem AAE.trans {s1 s2 s3 : Sim} (a : AAE s1 s2) (b : AAE s2 s3) : AAE s1 s3 where
  n_eq := b.n_eq.trans a.n_eq
  caps_eq := b.caps_eq.trans a.caps_eq
  means_eq := b.means_eq.trans a.means_eq
  dists_eq := b.dists_eq.trans a.dists_eq
  alpha_eq := b.alpha_eq.trans a.alpha_eq
  fr_eq := b.fr_eq.trans a.fr_eq
  rt_eq := b.rt_eq.trans a.rt_eq
  wt_eq := b.wt_eq.trans a.wt_eq
  wa_eq := b.wa_eq.trans a.wa_eq
  rq_eq := b.rq_eq.trans a.rq_eq
  time_eq := b.time_eq.trans a.time_eq
  cs_eq := b.cs_eq.trans a.cs_eq
  jt_eq := b.jt_eq.trans a.jt_eq
  jc_eq := b.jc_eq.trans a.jc_eq
  wh_eq := b.wh_eq.trans a.wh_eq
  rh_eq := b.rh_eq.trans a.rh_eq
  tld_eq := b.tld_eq.trans a.tld_eq
  let_eq := b.let_eq.trans a.let_eq
  les_eq := b.les_eq.trans a.les_eq
  stream_eq := b.stream_eq.trans a.stream_eq
  slen_eq := b.slen_eq.trans a.slen_eq
  blen_eq := b.blen_eq.trans a.blen_eq
  seq_le := a.seq_le.trans b.seq_le
  qsub := a.qsub.trans b.qsub
  qnew := by
    intro e he
    rcases b.qnew e he with h | ⟨hs, ht, hr⟩
    · rcases a.qnew e h with h' | ⟨hs', ht', hr'⟩
      · exact Or.inl h'
      · exact Or.inr ⟨hs', ht', hr'⟩
    · refine Or.inr ⟨a.seq_le.trans hs, ht, ?_⟩
      intro hpos
      have := hr (by rw [a.stream_eq]; exact hpos)
      rw [a.time_eq] at this
      exact this
  rc_count := fun i => (b.rc_count i).trans (a.rc_count i)
  qok := fun h => b.qok (a.qok h)
  work_frame := by
    intro i hi
    have h2 := a.work_frame i hi
    have h3 := b.work_frame i (by rw [h2]; exact hi)
    rw [h3, h2]
  down_frame := by
    intro i hi
    have h2 := a.down_frame i hi
    have h3 := b.down_frame i (by rw [h2]; exact hi)
    rw [h3, h2]
  down_back := by
    intro i hi
    have h2 := b.down_back i hi
    have hdown2 : (stn s2 i).status = .down := by rw [← h2]; exact hi
    have h3 := a.down_back i hdown2
    rw [h2, h3]
  rep_eq := fun i => (b.rep_eq i).trans (a.rep_eq i)
  started := by
    intro i hi
    rcases b.started i hi with ⟨hw2, he2⟩ | ⟨t', het, hge, e, hmem, hsc, hsid, hte⟩
    · rcases a.started i hw2 with ⟨hw1, he1⟩ | ⟨t', het, hge, e, hmem, hsc, hsid, hte⟩
      · exact Or.inl ⟨hw1, he2.trans he1⟩
      · refine Or.inr ⟨t', by rw [he2]; exact het, hge, e, b.qsub.subset hmem, hsc, hsid, hte⟩
    · refine Or.inr ⟨t', het, ?_, e, hmem, hsc, hsid, hte⟩
      rw [← a.time_eq]
      exact hge
  buf_le := by
    intro i
    have h3 := b.buf_le i
    have h2 := a.buf_le i
    have hcap : capAt s3 i = capAt s1 i := by
      unfold capAt
      rw [b.caps_eq, a.caps_eq]
    have hcap2 : capAt s2 i = capAt s1 i := by
      unfold capAt
      rw [a.caps_eq]
    rw [hcap2] at h3
    exact le_trans h3 (max_le (le_trans h2 (le_refl _)) (le_max_right _ _))

theorem getD_set_cases {α : Type} (l : List α) (i j : ℕ) (a d : α) :
    (l.set i a).getD j d = if i = j ∧ i < l.length then a else l.getD j d := by
  by_cases hij : i = j
  · subst hij
    rw [getD_set_self_of_lt]
    by_cases hl : i < l.length
    · simp [hl]
    · rw [if_neg hl, if_neg (fun hc => hl hc.2), getD_oob l i d (le_of_not_lt hl)]
  · rw [getD_set_other l a d hij, if_neg (fun hc => hij hc.1)]

/-- QOK is preserved by schedule: the pushed event carries the fresh counter
value, which is strictly above every seq already in the queue. -/
theorem QOK_schedule (s : Sim) (t : ℚ) (ty : EventType) (sid : ℕ) (h : QOK s) :
    QOK (schedule t ty sid s) := by
  obtain ⟨hp, hb, hn⟩ := h
  refine ⟨?_, ?_, ?_⟩
  · exact pairwise_pushEvent hp (fun x hx => Nat.ne_of_lt (hb x hx))
  · intro e he
    rcases mem_pushEvent.mp he with rfl | he
    · exact Nat.lt_succ_self _
    · exact Nat.lt_succ_of_lt (hb e he)
  · exact nodup_map_seq_pushEvent hn (fun x hx => Nat.ne_of_lt (hb x hx))

theorem mem_schedule {e : Event} {s : Sim} {t : ℚ} {ty : EventType} {sid : ℕ} :
    e ∈ (schedule t ty sid s).event_queue ↔
      e = { t := t, seq := s.seq, etype := ty, sid := sid } ∨ e ∈ s.event_queue :=
  mem_pushEvent

/-- Characterization of a successful sample: the state changes only by one
rng draw, and the returned duration is clamped at 0.01 or above. -/
theorem sample_spec {O : Oracle} {i : ℕ} {sp : ℚ} {s : Sim} {p : ℚ × Sim}
    (h : sample_proc_time O i sp s = some p) :
    p.2 = { s with rng := ⟨s.rng.stream, s.rng.idx + 1⟩ } ∧ 1 / 100 ≤ p.1 := by
  unfold sample_proc_time at h
  dsimp only at h
  split_ifs at h with h1 h2 h3
  all_goals simp only [Option.some.injEq] at h
  all_goals subst h
  all_goals exact ⟨rfl, le_qmax_right _ _⟩

/-- The unblock pass touches only BLOCKED stations (making them IDLE), pushes
only into buffers with spare capacity, and leaves everything else alone. -/
theorem AAE_unblockStep (s : Sim) (prog : Bool) (i : ℕ) : AAE s (unblockStep s prog i).1 := by
  unfold unblockStep
  by_cases h1 : (stn s i).status = .blocked ∧ (stn s i).has_finished_part
  · rw [if_pos h1]
    by_cases h2 : i = s.n_stations - 1
    · rw [if_pos h2]
      exact
        { n_eq := rfl, caps_eq := rfl, means_eq := rfl, dists_eq := rfl, alpha_eq := rfl,
          fr_eq := rfl, rt_eq := rfl, wt_eq := rfl, wa_eq := rfl, rq_eq := rfl,
          time_eq := rfl, cs_eq := rfl, jt_eq := rfl, jc_eq := rfl, wh_eq := rfl,
          rh_eq := rfl, tld_eq := rfl, let_eq := rfl, les_eq := rfl, stream_eq := rfl,
          slen_eq := by simp, blen_eq := rfl,
          seq_le := le_refl _, qsub := List.Sublist.refl _,
          qnew := fun e he => Or.inl he, rc_count := fun _ => rfl, qok := id,
          work_frame := by
            intro j hj
            simp only [stn] at hj ⊢
            rw [getD_set_cases]
            split_ifs with hc
            all_goals try rfl
            all_goals exfalso
            all_goals have hb := h1.1
            all_goals simp only [stn] at hb
            all_goals rw [← hc.1, hb] at hj
            all_goals simp at hj,
          down_frame := by
            intro j hj
            simp only [stn] at hj ⊢
            rw [getD_set_cases]
            split_ifs with hc
            all_goals try rfl
            all_goals exfalso
            all_goals have hb := h1.1
            all_goals simp only [stn] at hb
            all_goals rw [← hc.1, hb] at hj
            all_goals simp at hj,
          down_back := by
            intro j hj
            simp only [stn] at hj ⊢
            rw [getD_set_cases] at hj ⊢
            split_ifs at hj ⊢ with hc
            all_goals try rfl
            all_goals simp at hj,
          rep_eq := by
            intro j
            simp only [stn]
            rw [getD_set_cases]
            split_ifs with hc
            all_goals try rw [← hc.1]
            all_goals rfl,
          started := by
            intro j hj
            simp only [stn] at hj ⊢
            rw [getD_set_cases] at hj ⊢
            split_ifs at hj ⊢ with hc
            all_goals try exact Or.inl ⟨hj, rfl⟩
            all_goals simp at hj,
          buf_le := fun _ => le_max_left _ _ }
    · rw [if_neg h2]
      by_cases h3 : bufAt s i < capAt s i
      · rw [if_pos h3]
        exact
          { n_eq := rfl, caps_eq := rfl, means_eq := rfl, dists_eq := rfl, alpha_eq := rfl,
            fr_eq := rfl, rt_eq := rfl, wt_eq := rfl, wa_eq := rfl, rq_eq := rfl,
            time_eq := rfl, cs_eq := rfl, jt_eq := rfl, jc_eq := rfl, wh_eq := rfl,
            rh_eq := rfl, tld_eq := rfl, let_eq := rfl, les_eq := rfl, stream_eq := rfl,
            slen_eq := by simp, blen_eq := by simp,
            seq_le := le_refl _, qsub := List.Sublist.refl _,
            qnew := fun e he => Or.inl he, rc_count := fun _ => rfl, qok := id,
            work_frame := by
              intro j hj
              simp only [stn] at hj ⊢
              rw [getD_set_cases]
              split_ifs with hc
              all_goals try rfl
              all_goals exfalso
              all_goals have hb := h1.1
              all_goals simp only [stn] at hb
              all_goals rw [← hc.1, hb] at hj
              all_goals simp at hj,
            down_frame := by
              intro j hj
              simp only [stn] at hj ⊢
              rw [getD_set_cases]
              split_ifs with hc
              all_goals try rfl
              all_goals exfalso
              all_goals have hb := h1.1
              all_goals simp only [stn] at hb
              all_goals rw [← hc.1, hb] at hj
              all_goals simp at hj,
            down_back := by
              intro j hj
              simp only [stn] at hj ⊢
              rw [getD_set_cases] at hj ⊢
              split_ifs at hj ⊢ with hc
              all_goals try rfl
              all_goals simp at hj,
            rep_eq := by
              intro j
              simp only [stn]
              rw [getD_set_cases]
              split_ifs with hc
              all_goals try rw [← hc.1]
              all_goals rfl,
            started := by
              intro j hj
              simp only [stn] at hj ⊢
              rw [getD_set_cases] at hj ⊢
              split_ifs at hj ⊢ with hc
              all_goals try exact Or.inl ⟨hj, rfl⟩
              all_goals simp at hj,
            buf_le := by
              intro j
              simp only [bufAt, capAt]
              rw [getD_set_cases]
              split_ifs with hc
              all_goals try exact le_max_left _ _
              all_goals rw [← hc.1]
              all_goals have h3b := h3
              all_goals simp only [bufAt, capAt] at h3b
              all_goals exact le_trans (Nat.succ_le_of_lt h3b) (le_max_right _ _) }
      · rw [if_neg h3]
        exact AAE.idem s
  · rw [if_neg h1]
    exact AAE.idem s

/-- Consuming rng draws (keeping the stream) is an effect of the dispatcher. -/
theorem AAE_rng (x : Sim) (r' : Rng) (h : r'.stream = x.rng.stream) :
    AAE x { x with rng := r' } :=
  { n_eq := rfl, caps_eq := rfl, means_eq := rfl, dists_eq := rfl, alpha_eq := rfl,
    fr_eq := rfl, rt_eq := rfl, wt_eq := rfl, wa_eq := rfl, rq_eq := rfl,
    time_eq := rfl, cs_eq := rfl, jt_eq := rfl, jc_eq := rfl, wh_eq := rfl,
    rh_eq := rfl, tld_eq := rfl, let_eq := rfl, les_eq := rfl, stream_eq := h,
    slen_eq := rfl, blen_eq := rfl,
    seq_le := le_refl _, qsub := List.Sublist.refl _,
    qnew := fun e he => Or.inl he, rc_count := fun _ => rfl, qok := id,
    work_frame := fun _ _ => rfl, down_frame := fun _ _ => rfl, down_back := fun _ _ => rfl,
    rep_eq := fun _ => rfl, started := fun _ h' => Or.inl ⟨h', rfl⟩,
    buf_le := fun _ => le_max_left _ _ }

/-- Untouched除 job_queue: popping the job queue is an effect of the
dispatcher (the job queue is not constrained by the effects relation). -/
theorem AAE_jq (x : Sim) (jq : List ℕ) : AAE x { x with job_queue := jq } :=
  { n_eq := rfl, caps_eq := rfl, means_eq := rfl, dists_eq := rfl, alpha_eq := rfl,
    fr_eq := rfl, rt_eq := rfl, wt_eq := rfl, wa_eq := rfl, rq_eq := rfl,
    time_eq := rfl, cs_eq := rfl, jt_eq := rfl, jc_eq := rfl, wh_eq := rfl,
    rh_eq := rfl, tld_eq := rfl, let_eq := rfl, les_eq := rfl, stream_eq := rfl,
    slen_eq := rfl, blen_eq := rfl,
    seq_le := le_refl _, qsub := List.Sublist.refl _,
    qnew := fun e he => Or.inl he, rc_count := fun _ => rfl, qok := id,
    work_frame := fun _ _ => rfl, down_frame := fun _ _ => rfl, down_back := fun _ _ => rfl,
    rep_eq := fun _ => rfl, started := fun _ h' => Or.inl ⟨h', rfl⟩,
    buf_le := fun _ => le_max_left _ _ }

/-- Decrementing one buffer (pulling a part) is an effect of the dispatcher. -/
theorem AAE_bufdec (x : Sim) (k : ℕ) :
    AAE x { x with buffers := x.buffers.set k (bufAt x k - 1) } :=
  { n_eq := rfl, caps_eq := rfl, means_eq := rfl, dists_eq := rfl, alpha_eq := rfl,
    fr_eq := rfl, rt_eq := rfl, wt_eq := rfl, wa_eq := rfl, rq_eq := rfl,
    time_eq := rfl, cs_eq := rfl, jt_eq := rfl, jc_eq := rfl, wh_eq := rfl,
    rh_eq := rfl, tld_eq := rfl, let_eq := rfl, les_eq := rfl, stream_eq := rfl,
    slen_eq := rfl, blen_eq := by simp,
    seq_le := le_refl _, qsub := List.Sublist.refl _,
    qnew := fun e he => Or.inl he, rc_count := fun _ => rfl, qok := id,
    work_frame := fun _ _ => rfl, down_frame := fun _ _ => rfl, down_back := fun _ _ => rfl,
    rep_eq := fun _ => rfl, started := fun _ h' => Or.inl ⟨h', rfl⟩,
    buf_le := by
      intro j
      simp only [bufAt]
      rw [getD_set_cases]
      split_ifs with hc
      all_goals try exact le_max_left _ _
      all_goals rw [← hc.1]
      all_goals exact le_trans (Nat.sub_le _ _) (le_max_left _ _) }

/-- Scheduling a non-RepairComplete event at a time no earlier than the clock
is an effect of the dispatcher. -/
theorem AAE_schedule (x : Sim) (t : ℚ) (ty : EventType) (sid : ℕ)
    (hty : ty ≠ EventType.repairComplete)
    (hge : (∀ n, 0 ≤ x.rng.stream n) → x.time ≤ t) :
    AAE x (schedule t ty sid x) :=
  { n_eq := rfl, caps_eq := rfl, means_eq := rfl, dists_eq := rfl, alpha_eq := rfl,
    fr_eq := rfl, rt_eq := rfl, wt_eq := rfl, wa_eq := rfl, rq_eq := rfl,
    time_eq := rfl, cs_eq := rfl, jt_eq := rfl, jc_eq := rfl, wh_eq := rfl,
    rh_eq := rfl, tld_eq := rfl, let_eq := rfl, les_eq := rfl, stream_eq := rfl,
    slen_eq := rfl, blen_eq := rfl,
    seq_le := Nat.le_succ _,
    qsub := sublist_pushEvent _ _,
    qnew := by
      intro e he
      rcases mem_pushEvent.mp he with rfl | he
      · exact Or.inr ⟨le_refl _, hty, hge⟩
      · exact Or.inl he,
    rc_count := by
      intro j
      show (pushEvent _ _).countP _ = _
      rw [countP_pushEvent]
      simp [hty],
    qok := QOK_schedule x t ty sid,
    work_frame := fun _ _ => rfl, down_frame := fun _ _ => rfl, down_back := fun _ _ => rfl,
    rep_eq := fun _ => rfl, started := fun _ h' => Or.inl ⟨h', rfl⟩,
    buf_le := fun _ => le_max_left _ _ }

/-- Starting an IDLE station: it becomes WORKING with end_time = time + dur
(dur clamped at 0.01 or above) and has a matching ServiceComplete scheduled. -/
theorem AAE_startStation (x : Sim) (i : ℕ) (dur : ℚ) (jid : Option ℕ)
    (hidle : (stn x i).status = Status.idle) (hdur : 1 / 100 ≤ dur) :
    AAE x (schedule (x.time + dur) EventType.serviceComplete i
      { x with stations := x.stations.set i { stn x i with job_id := jid, starved := false, status := Status.working, end_time := some (x.time + dur) } }) := by
  refine
    { n_eq := rfl, caps_eq := rfl, means_eq := rfl, dists_eq := rfl, alpha_eq := rfl,
      fr_eq := rfl, rt_eq := rfl, wt_eq := rfl, wa_eq := rfl, rq_eq := rfl,
      time_eq := rfl, cs_eq := rfl, jt_eq := rfl, jc_eq := rfl, wh_eq := rfl,
      rh_eq := rfl, tld_eq := rfl, let_eq := rfl, les_eq := rfl, stream_eq := rfl,
      slen_eq := by simp [schedule], blen_eq := rfl,
      seq_le := Nat.le_succ _,
      qsub := sublist_pushEvent _ _,
      qnew := ?_, rc_count := ?_, qok := ?_,
      work_frame := ?_, down_frame := ?_, down_back := ?_, rep_eq := ?_,
      started := ?_, buf_le := fun _ => le_max_left _ _ }
  · intro e he
    rcases mem_pushEvent.mp he with rfl | he
    · refine Or.inr ⟨le_refl _, by simp, fun _ => ?_⟩
      show x.time ≤ x.time + dur
      linarith
    · exact Or.inl he
  · intro j
    show (pushEvent _ _).countP _ = _
    rw [countP_pushEvent]
    simp
  · exact QOK_schedule _ _ _ _
  · intro j hj
    simp only [stn, schedule] at hj ⊢
    rw [getD_set_cases]
    split_ifs with hc
    all_goals try rfl
    all_goals exfalso
    all_goals rw [← hc.1] at hj
    all_goals have hb := hidle
    all_goals simp only [stn] at hb
    all_goals rw [hb] at hj
    all_goals simp at hj
  · intro j hj
    simp only [stn, schedule] at hj ⊢
    rw [getD_set_cases]
    split_ifs with hc
    all_goals try rfl
    all_goals exfalso
    all_goals rw [← hc.1] at hj
    all_goals have hb := hidle
    all_goals simp only [stn] at hb
    all_goals rw [hb] at hj
    all_goals simp at hj
  · intro j hj
    simp only [stn, schedule] at hj ⊢
    rw [getD_set_cases] at hj ⊢
    split_ifs at hj ⊢ with hc
    all_goals try rfl
    all_goals simp at hj
  · intro j
    simp only [stn, schedule]
    rw [getD_set_cases]
    split_ifs with hc
    all_goals try rw [← hc.1]
    all_goals rfl
  · intro j hj
    simp only [stn, schedule] at hj ⊢
    rw [getD_set_cases] at hj ⊢
    split_ifs at hj ⊢ with hc
    · refine Or.inr ⟨x.time + dur, rfl, by linarith, ?_⟩
      refine ⟨{ t := x.time + dur, seq := x.seq, etype := EventType.serviceComplete, sid := i }, ?_, rfl, ?_, rfl⟩
      · exact mem_pushEvent.mpr (Or.inl rfl)
      · simp [hc.1]
    · exact Or.inl ⟨hj, rfl⟩

/-- Setting the starved flag of an IDLE station is an effect of the
dispatcher. -/
theorem AAE_starve (x : Sim) (i : ℕ) (hidle : (stn x i).status = Status.idle) :
    AAE x { x with stations := x.stations.set i { stn x i with starved := true } } := by
  refine
    { n_eq := rfl, caps_eq := rfl, means_eq := rfl, dists_eq := rfl, alpha_eq := rfl,
      fr_eq := rfl, rt_eq := rfl, wt_eq := rfl, wa_eq := rfl, rq_eq := rfl,
      time_eq := rfl, cs_eq := rfl, jt_eq := rfl, jc_eq := rfl, wh_eq := rfl,
      rh_eq := rfl, tld_eq := rfl, let_eq := rfl, les_eq := rfl, stream_eq := rfl,
      slen_eq := by simp, blen_eq := rfl,
      seq_le := le_refl _, qsub := List.Sublist.refl _,
      qnew := fun e he => Or.inl he, rc_count := fun _ => rfl, qok := id,
      work_frame := ?_, down_frame := ?_, down_back := ?_, rep_eq := ?_,
      started := ?_, buf_le := fun _ => le_max_left _ _ }
  · intro j hj
    simp only [stn] at hj ⊢
    rw [getD_set_cases]
    split_ifs with hc
    all_goals try rfl
    all_goals exfalso
    all_goals rw [← hc.1] at hj
    all_goals have hb := hidle
    all_goals simp only [stn] at hb
    all_goals rw [hb] at hj
    all_goals simp at hj
  · intro j hj
    simp only [stn] at hj ⊢
    rw [getD_set_cases]
    split_ifs with hc
    all_goals try rfl
    all_goals exfalso
    all_goals rw [← hc.1] at hj
    all_goals have hb := hidle
    all_goals simp only [stn] at hb
    all_goals rw [hb] at hj
    all_goals simp at hj
  · intro j hj
    simp only [stn] at hj ⊢
    rw [getD_set_cases] at hj ⊢
    split_ifs at hj ⊢ with hc
    all_goals try rfl
    all_goals exfalso
    all_goals have hb := hidle
    all_goals simp only [stn] at hb
    all_goals rw [hb] at hj
    all_goals simp at hj
  · intro j
    simp only [stn]
    rw [getD_set_cases]
    split_ifs with hc
    all_goals try rw [← hc.1]
    all_goals rfl
  · intro j hj
    simp only [stn] at hj ⊢
    rw [getD_set_cases] at hj ⊢
    split_ifs at hj ⊢ with hc
    all_goals try exact Or.inl ⟨hj, rfl⟩
    all_goals exfalso
    all_goals have hb := hidle
    all_goals simp only [stn] at hb
    all_goals rw [hb] at hj
    all_goals simp at hj

/-- One step of the start pass is an effect of the dispatcher. -/
theorem AAE_startStep (O : Oracle) (s : Sim) (prog : Bool) (i : ℕ) (r : Sim × Bool)
    (h : startStep O s prog i = some r) : AAE s r.1 := by
  unfold startStep at h
  dsimp only at h
  by_cases hne : (stn s i).status ≠ Status.idle
  · rw [if_pos hne] at h
    simp only [Option.some.injEq] at h
    subst h
    exact AAE.idem s
  · rw [if_neg hne] at h
    have hidle : (stn s i).status = Status.idle := not_not.mp hne
    by_cases hpull : (if i = 0 then !s.job_queue.isEmpty else decide (0 < bufAt s (i - 1))) = false
    · rw [if_pos hpull] at h
      simp only [Option.some.injEq] at h
      subst h
      exact AAE_starve s i hidle
    · rw [if_neg hpull] at h
      by_cases hi0 : i = 0
      · simp only [if_pos hi0] at h
        subst hi0
        split at h
        · simp at h
        · rename_i dur s2 hsm
          obtain ⟨hs2, hdur⟩ := sample_spec hsm
          dsimp only at hs2
          subst hs2
          split at h
          · rename_i hfail
            simp only [Option.some.injEq] at h
            subst h
            show AAE s (schedule (s.time + s.rng.stream (s.rng.idx + 2) * dur) EventType.machineFailure 0 { (schedule (s.time + dur) EventType.serviceComplete 0 { s with job_queue := s.job_queue.tail, rng := ⟨s.rng.stream, s.rng.idx + 1⟩, stations := s.stations.set 0 ({ stn s 0 with job_id := s.job_queue.head?, starved := false, status := Status.working, end_time := some (s.time + dur) }) }) with rng := ⟨s.rng.stream, s.rng.idx + 3⟩ })
            refine AAE.trans (AAE_jq s s.job_queue.tail) ?_
            refine AAE.trans (AAE_rng _ ⟨s.rng.stream, s.rng.idx + 1⟩ rfl) ?_
            refine AAE.trans (AAE_startStation _ 0 dur s.job_queue.head? hidle hdur) ?_
            refine AAE.trans (AAE_rng _ ⟨s.rng.stream, s.rng.idx + 3⟩ rfl) ?_
            refine AAE_schedule _ (s.time + s.rng.stream (s.rng.idx + 2) * dur)
              EventType.machineFailure 0 (by simp) ?_
            intro hpos
            have h0 : (0:ℚ) ≤ dur := by linarith
            have h2 : (0:ℚ) ≤ s.rng.stream (s.rng.idx + 2) := hpos _
            have h3 := mul_nonneg h2 h0
            show s.time ≤ s.time + s.rng.stream (s.rng.idx + 2) * dur
            linarith
          · simp only [Option.some.injEq] at h
            subst h
            show AAE s { (schedule (s.time + dur) EventType.serviceComplete 0 { s with job_queue := s.job_queue.tail, rng := ⟨s.rng.stream, s.rng.idx + 1⟩, stations := s.stations.set 0 ({ stn s 0 with job_id := s.job_queue.head?, starved := false, status := Status.working, end_time := some (s.time + dur) }) }) with rng := ⟨s.rng.stream, s.rng.idx + 2⟩ }
            refine AAE.trans (AAE_jq s s.job_queue.tail) ?_
            refine AAE.trans (AAE_rng _ ⟨s.rng.stream, s.rng.idx + 1⟩ rfl) ?_
            refine AAE.trans (AAE_startStation _ 0 dur s.job_queue.head? hidle hdur) ?_
            exact AAE_rng _ ⟨s.rng.stream, s.rng.idx + 2⟩ rfl
      · simp only [if_neg hi0] at h
        split at h
        · simp at h
        · rename_i dur s2 hsm
          obtain ⟨hs2, hdur⟩ := sample_spec hsm
          dsimp only at hs2
          subst hs2
          split at h
          · rename_i hfail
            simp only [Option.some.injEq] at h
            subst h
            show AAE s (schedule (s.time + s.rng.stream (s.rng.idx + 2) * dur) EventType.machineFailure i { (schedule (s.time + dur) EventType.serviceComplete i { s with buffers := s.buffers.set (i - 1) (bufAt s (i - 1) - 1), rng := ⟨s.rng.stream, s.rng.idx + 1⟩, stations := s.stations.set i ({ stn s i with job_id := none, starved := false, status := Status.working, end_time := some (s.time + dur) }) }) with rng := ⟨s.rng.stream, s.rng.idx + 3⟩ })
            refine AAE.trans (AAE_bufdec s (i - 1)) ?_
            refine AAE.trans (AAE_rng _ ⟨s.rng.stream, s.rng.idx + 1⟩ rfl) ?_
            refine AAE.trans (AAE_startStation _ i dur none hidle hdur) ?_
            refine AAE.trans (AAE_rng _ ⟨s.rng.stream, s.rng.idx + 3⟩ rfl) ?_
            refine AAE_schedule _ (s.time + s.rng.stream (s.rng.idx + 2) * dur)
              EventType.machineFailure i (by simp) ?_
            intro hpos
            have h0 : (0:ℚ) ≤ dur := by linarith
            have h2 : (0:ℚ) ≤ s.rng.stream (s.rng.idx + 2) := hpos _
            have h3 := mul_nonneg h2 h0
            show s.time ≤ s.time + s.rng.stream (s.rng.idx + 2) * dur
            linarith
          · simp only [Option.some.injEq] at h
            subst h
            show AAE s { (schedule (s.time + dur) EventType.serviceComplete i { s with buffers := s.buffers.set (i - 1) (bufAt s (i - 1) - 1), rng := ⟨s.rng.stream, s.rng.idx + 1⟩, stations := s.stations.set i ({ stn s i with job_id := none, starved := false, status := Status.working, end_time := some (s.time + dur) }) }) with rng := ⟨s.rng.stream, s.rng.idx + 2⟩ }
            refine AAE.trans (AAE_bufdec s (i - 1)) ?_
            refine AAE.trans (AAE_rng _ ⟨s.rng.stream, s.rng.idx + 1⟩ rfl) ?_
            refine AAE.trans (AAE_startStation _ i dur none hidle hdur) ?_
            exact AAE_rng _ ⟨s.rng.stream, s.rng.idx + 2⟩ rfl

/-- The whole unblock pass is an effect of the dispatcher. -/
theorem AAE_unblockGo (l : List ℕ) : ∀ (s : Sim) (prog : Bool), AAE s (unblockGo s prog l).1 := by
  induction l with
  | nil => intro s prog; exact AAE.idem s
  | cons i rest ih =>
    intro s prog
    unfold unblockGo
    exact AAE.trans (AAE_unblockStep s prog i) (ih _ _)

/-- The whole start pass is an effect of the dispatcher. -/
theorem AAE_startGo (O : Oracle) (l : List ℕ) :
    ∀ (s : Sim) (prog : Bool) (r : Sim × Bool), startGo O s prog l = some r → AAE s r.1 := by
  induction l with
  | nil =>
    intro s prog r h
    unfold startGo at h
    simp only [Option.some.injEq] at h
    subst h
    exact AAE.idem s
  | cons i rest ih =>
    intro s prog r h
    unfold startGo at h
    split at h
    · simp at h
    · rename_i r1 hstep
      exact AAE.trans (AAE_startStep O s prog i r1 hstep) (ih _ _ _ h)

/-- One iteration of the apply_action loop body is an effect of the
dispatcher. -/
theorem AAE_passOnce (O : Oracle) (s : Sim) (r : Sim × Bool) (h : passOnce O s = some r) :
    AAE s r.1 := by
  unfold passOnce at h
  dsimp only at h
  exact AAE.trans (AAE_unblockGo _ s false) (AAE_startGo O _ _ _ r h)

/-- The fueled apply_action loop is an effect of the dispatcher. -/
theorem AAE_dispatchLoop (O : Oracle) (fuel : ℕ) :
    ∀ (s s' : Sim), dispatchLoop O fuel s = some s' → AAE s s' := by
  induction fuel with
  | zero =>
    intro s s' h
    unfold dispatchLoop at h
    simp only [Option.some.injEq] at h
    subst h
    exact AAE.idem s
  | succ n ih =>
    intro s s' h
    unfold dispatchLoop at h
    split at h
    · simp at h
    · rename_i s1 hp
      exact AAE.trans (AAE_passOnce O s (s1, true) hp) (ih s1 s' h)
    · rename_i s1 hp
      simp only [Option.some.injEq] at h
      subst h
      exact AAE_passOnce O s (s1, false) hp

/-- apply_action with no speed update is an effect of the dispatcher. -/
theorem AAE_apply_action (O : Oracle) (s s' : Sim) (h : apply_action O none s = some s') :
    AAE s s' := by
  unfold apply_action at h
  dsimp only at h
  exact AAE_dispatchLoop O _ s s' h

/-- apply_action with a speed update: the dispatcher effects relation holds
from the speed-updated state. -/
theorem AAE_apply_action_speed (O : Oracle) (v : ℚ) (s s' : Sim)
    (h : apply_action O (some v) s = some s') : AAE { s with current_speed := v } s' := by
  unfold apply_action at h
  dsimp only at h
  exact AAE_dispatchLoop O _ _ s' h

/-! ### C1: buffer bounds at dispatcher quiescence -/

/-- C1 (amended): when an invocation of the push-pull dispatcher
(apply_action) completes, every buffer level is at most the maximum of its
level before the call and its capacity (and at least 0, the levels being
naturals): the dispatcher itself never pushes a buffer above its capacity,
but it does not resolve an overshoot created by a machine-failure return to
the upstream buffer of a DOWN station — that overshoot persists after the
dispatcher quiesces, until the station is repaired and pulls again. -/
theorem c1_apply_action_buffer_bounds (O : Oracle) (sp : Option ℚ) (s s' : Sim)
    (h : apply_action O sp s = some s') :
    ∀ i, bufAt s' i ≤ max (bufAt s i) (capAt s i) := by
  cases sp with
  | none => exact (AAE_apply_action O s s' h).buf_le
  | some v => exact (AAE_apply_action_speed O v s s' h).buf_le

/-- Witness for C1 (amended) at a concrete input. -/
theorem c1_apply_action_buffer_bounds_witness :
    bufAt ((apply_action Ocx none sim0).getD sim0) 0 ≤ max (bufAt sim0 0) (capAt sim0 0) :=
  c1_apply_action_buffer_bounds Ocx none sim0 _ rfl 0

/-- C1 counterexample: a reachable state (seeded reset then three decision
steps of scenario simC1) in which the machine-failure return has pushed the
interstage buffer to 2 with capacity 1, the failed downstream station is
DOWN, and the dispatcher invoked at the end of the handled machine-failure
event has already quiesced: the overshoot survives the dispatcher, refuting
buffers[i] ≤ buffer_caps[i] after apply_action completes. -/
theorem c1_counterexample :
    (FactorySim.new (fun _ => 0) 2 [1] [1, 1] ["uniform", "uniform"] 0 (1/2) 100 0).isOk
        = true ∧
      (runCalls Ocx entCx [Call.reset (some 0) 10, Call.step, Call.step, Call.step] simC1).map
          (fun r => (r.1.buffers, r.1.buffer_caps, (stn r.1 1).status))
        = some ([2], [1], Status.down) := by
  exact ⟨by decide, by decide⟩

/-! ### C10: speed updates do not disturb WORKING stations -/

/-- C10: apply_action with a supplied speed_mult sets current_speed to it,
leaves every station that was WORKING entirely unchanged (in particular its
end_time), and removes no event from the queue (the old queue, including the
WORKING stations' ServiceComplete and any pre-scheduled MachineFailure
events, embeds into the new one); the new speed only affects durations
sampled for later starts. -/
theorem c10_speed_frame (O : Oracle) (v : ℚ) (s s' : Sim)
    (h : apply_action O (some v) s = some s') :
    s'.current_speed = v ∧
      (∀ i, (stn s i).status = Status.working → stn s' i = stn s i) ∧
      s.event_queue.Sublist s'.event_queue := by
  have a := AAE_apply_action_speed O v s s' h
  exact ⟨a.cs_eq, fun i hi => a.work_frame i hi, a.qsub⟩

/-- Witness for C10 at a concrete input. -/
theorem c10_speed_frame_witness :
    ((apply_action Ocx (some 2) sim0).getD sim0).current_speed = 2 ∧
      (∀ i, (stn sim0 i).status = Status.working →
        stn ((apply_action Ocx (some 2) sim0).getD sim0) i = stn sim0 i) ∧
      sim0.event_queue.Sublist ((apply_action Ocx (some 2) sim0).getD sim0).event_queue :=
  c10_speed_frame Ocx 2 sim0 _ rfl
/-! ### Quiescence of the apply_action loop -/

/-- The termination measure of the loop: BLOCKED can step to IDLE, IDLE to
WORKING; WORKING and DOWN are never touched by the passes. -/
def statusRank : Status → ℕ
  | .blocked => 2
  | .idle => 1
  | _ => 0

/-- The loop measure on a station list: total rank. -/
def passMeasureL (l : List Station) : ℕ := (l.map fun st => statusRank st.status).sum

/-- The loop measure of a state. -/
def passMeasure (s : Sim) : ℕ := passMeasureL s.stations

/-- The pull condition of the start pass. -/
def canPull (s : Sim) (i : ℕ) : Bool :=
  if i = 0 then !s.job_queue.isEmpty else decide (0 < bufAt s (i - 1))

/-- The fire condition of the unblock pass. -/
def fireCond (s : Sim) (i : ℕ) : Prop :=
  (stn s i).status = Status.blocked ∧ (stn s i).has_finished_part = true ∧
    (i = s.n_stations - 1 ∨ bufAt s i < capAt s i)

instance (s : Sim) (i : ℕ) : Decidable (fireCond s i) := by unfold fireCond; infer_instance

theorem starve_self (st : Station) (h : st.starved = true) :
    { st with starved := true } = st := by
  cases st
  subst h
  rfl

theorem set_getD_id {α : Type} (d : α) : ∀ (l : List α) (i : ℕ), l.set i (l.getD i d) = l := by
  intro l
  induction l with
  | nil => intro i; rfl
  | cons x xs ih =>
    intro i
    cases i with
    | zero => rfl
    | succ j => simpa using ih j

theorem sum_map_set_add {α : Type} (f : α → ℕ) (a d : α) :
    ∀ (l : List α) (i : ℕ), i < l.length →
      ((l.set i a).map f).sum + f (l.getD i d) = (l.map f).sum + f a := by
  intro l
  induction l with
  | nil => intro i h; simp at h
  | cons x xs ih =>
    intro i h
    cases i with
    | zero => simp only [List.set, List.map_cons, List.sum_cons, List.getD_cons_zero]; omega
    | succ j =>
      have hj : j < xs.length := by simpa using h
      have hrec := ih j hj
      simp only [List.set, List.map_cons, List.sum_cons, List.getD_cons_succ]
      omega

theorem statusRank_le_two (u : Status) : statusRank u ≤ 2 := by
  cases u <;> simp [statusRank]

theorem passMeasure_le (s : Sim) : passMeasure s ≤ 2 * s.stations.length := by
  unfold passMeasure passMeasureL
  induction s.stations with
  | nil => simp
  | cons st rest ih =>
    simp only [List.map_cons, List.sum_cons, List.length_cons]
    have := statusRank_le_two st.status
    omega

/-- Measure bookkeeping of one pass step: the measure never rises, and it
strictly falls whenever the progress flag newly turns true. -/
def MStep (prog : Bool) (s : Sim) (r : Sim × Bool) : Prop :=
  passMeasure r.1 ≤ passMeasure s ∧ (r.2 = true → prog = true ∨ passMeasure r.1 < passMeasure s)

theorem MStep_trans {prog : Bool} {s : Sim} {r1 : Sim × Bool} {r2 : Sim × Bool}
    (h1 : MStep prog s r1) (h2 : MStep r1.2 r1.1 r2) : MStep prog s r2 := by
  obtain ⟨le1, st1⟩ := h1
  obtain ⟨le2, st2⟩ := h2
  refine ⟨le_trans le2 le1, ?_⟩
  intro hp2
  rcases st2 hp2 with hmid | hlt
  · rcases st1 hmid with hp | hlt
    · exact Or.inl hp
    · exact Or.inr (lt_of_le_of_lt le2 hlt)
  · exact Or.inr (lt_of_lt_of_le hlt le1)

theorem passMeasureL_set (s : Sim) (i : ℕ) (a : Station) (hi : i < s.stations.length) :
    passMeasureL (s.stations.set i a) + statusRank (stn s i).status
      = passMeasureL s.stations + statusRank a.status := by
  unfold passMeasureL
  exact sum_map_set_add (fun st => statusRank st.status) a Station.new s.stations i hi

theorem passMeasureL_set_le (s : Sim) (i : ℕ) (a : Station) (hi : i < s.stations.length)
    (h : statusRank a.status ≤ statusRank (stn s i).status) :
    passMeasureL (s.stations.set i a) ≤ passMeasureL s.stations := by
  have := passMeasureL_set s i a hi
  omega

theorem passMeasureL_set_lt (s : Sim) (i : ℕ) (a : Station) (hi : i < s.stations.length)
    (h : statusRank a.status < statusRank (stn s i).status) :
    passMeasureL (s.stations.set i a) < passMeasureL s.stations := by
  have := passMeasureL_set s i a hi
  omega

theorem startRank (s : Sim) (i : ℕ) (a : Station) (hi : i < s.stations.length)
    (hidle : (stn s i).status = Status.idle) (ha : a.status = Status.working) :
    passMeasureL (s.stations.set i a) < passMeasureL s.stations := by
  refine passMeasureL_set_lt s i a hi ?_
  rw [hidle, ha]
  decide

theorem unblockStep_measure (s : Sim) (prog : Bool) (i : ℕ) :
    MStep prog s (unblockStep s prog i) := by
  unfold unblockStep
  by_cases h1 : (stn s i).status = .blocked ∧ (stn s i).has_finished_part
  · have hi : i < s.stations.length := by
      by_contra hge
      have hnew : stn s i = Station.new := getD_oob _ _ _ (le_of_not_lt hge)
      rw [hnew] at h1
      simp [Station.new] at h1
    rw [if_pos h1]
    have hlt : passMeasureL (s.stations.set i
        { stn s i with status := Status.idle, has_finished_part := false }) < passMeasureL s.stations := by
      refine passMeasureL_set_lt s i _ hi ?_
      rw [h1.1]
      show statusRank Status.idle < statusRank Status.blocked
      decide
    by_cases h2 : i = s.n_stations - 1
    · rw [if_pos h2]
      exact ⟨le_of_lt hlt, fun _ => Or.inr hlt⟩
    · rw [if_neg h2]
      by_cases h3 : bufAt s i < capAt s i
      · rw [if_pos h3]
        exact ⟨le_of_lt hlt, fun _ => Or.inr hlt⟩
      · rw [if_neg h3]
        exact ⟨le_refl _, fun hp => Or.inl hp⟩
  · rw [if_neg h1]
    exact ⟨le_refl _, fun hp => Or.inl hp⟩
theorem startStep_measure (O : Oracle) (s : Sim) (prog : Bool) (i : ℕ) (r : Sim × Bool)
    (hi : i < s.stations.length) (h : startStep O s prog i = some r) : MStep prog s r := by
  unfold startStep at h
  dsimp only at h
  by_cases hne : (stn s i).status ≠ Status.idle
  · rw [if_pos hne] at h
    simp only [Option.some.injEq] at h
    subst h
    exact ⟨le_refl _, fun hp => Or.inl hp⟩
  · rw [if_neg hne] at h
    have hidle : (stn s i).status = Status.idle := not_not.mp hne
    by_cases hpull : (if i = 0 then !s.job_queue.isEmpty else decide (0 < bufAt s (i - 1))) = false
    · rw [if_pos hpull] at h
      simp only [Option.some.injEq] at h
      subst h
      refine ⟨?_, fun hp => Or.inl hp⟩
      refine passMeasureL_set_le s i _ hi ?_
      rw [hidle]
    · rw [if_neg hpull] at h
      by_cases hi0 : i = 0
      · simp only [if_pos hi0] at h
        subst hi0
        split at h
        · simp at h
        · rename_i dur s2 hsm
          obtain ⟨hs2, hdur⟩ := sample_spec hsm
          dsimp only at hs2
          subst hs2
          split at h
          · rename_i hfail
            simp only [Option.some.injEq] at h
            subst h
            exact ⟨le_of_lt (startRank s 0 _ hi hidle rfl), fun _ =>
              Or.inr (startRank s 0 _ hi hidle rfl)⟩
          · simp only [Option.some.injEq] at h
            subst h
            exact ⟨le_of_lt (startRank s 0 _ hi hidle rfl), fun _ =>
              Or.inr (startRank s 0 _ hi hidle rfl)⟩
      · simp only [if_neg hi0] at h
        split at h
        · simp at h
        · rename_i dur s2 hsm
          obtain ⟨hs2, hdur⟩ := sample_spec hsm
          dsimp only at hs2
          subst hs2
          split at h
          · rename_i hfail
            simp only [Option.some.injEq] at h
            subst h
            exact ⟨le_of_lt (startRank s i _ hi hidle rfl), fun _ =>
              Or.inr (startRank s i _ hi hidle rfl)⟩
          · simp only [Option.some.injEq] at h
            subst h
            exact ⟨le_of_lt (startRank s i _ hi hidle rfl), fun _ =>
              Or.inr (startRank s i _ hi hidle rfl)⟩
theorem unblockStep_mono (s : Sim) (i : ℕ) : (unblockStep s true i).2 = true := by
  unfold unblockStep
  dsimp only
  split_ifs <;> rfl

theorem unblockGo_mono (l : List ℕ) : ∀ (s : Sim), (unblockGo s true l).2 = true := by
  induction l with
  | nil => intro s; rfl
  | cons i rest ih =>
    intro s
    have he : unblockGo s true (i :: rest)
        = unblockGo (unblockStep s true i).1 (unblockStep s true i).2 rest := rfl
    rw [he, unblockStep_mono s i]
    exact ih _

theorem startStep_mono (O : Oracle) (s : Sim) (i : ℕ) (r : Sim × Bool)
    (h : startStep O s true i = some r) : r.2 = true := by
  unfold startStep at h
  dsimp only at h
  by_cases hne : (stn s i).status ≠ Status.idle
  · rw [if_pos hne] at h
    simp only [Option.some.injEq] at h
    subst h
    rfl
  · rw [if_neg hne] at h
    by_cases hpull : (if i = 0 then !s.job_queue.isEmpty else decide (0 < bufAt s (i - 1))) = false
    · rw [if_pos hpull] at h
      simp only [Option.some.injEq] at h
      subst h
      rfl
    · rw [if_neg hpull] at h
      split at h
      · simp at h
      · rename_i dur s2 hsm
        rcases ite_eq_iff.mp h with ⟨-, he⟩ | ⟨-, he⟩ <;>
          (simp only [Option.some.injEq] at he; subst he; rfl)

theorem startGo_mono (O : Oracle) (l : List ℕ) : ∀ (s : Sim) (r : Sim × Bool),
    startGo O s true l = some r → r.2 = true := by
  induction l with
  | nil =>
    intro s r h
    unfold startGo at h
    simp only [Option.some.injEq] at h
    subst h
    rfl
  | cons i rest ih =>
    intro s r h
    unfold startGo at h
    split at h
    · simp at h
    · rename_i r1 hstep
      have hm := startStep_mono O s i r1 hstep
      rw [hm] at h
      exact ih _ _ h

theorem unblockStep_false (s : Sim) (prog : Bool) (i : ℕ)
    (h : (unblockStep s prog i).2 = false) :
    (unblockStep s prog i).1 = s ∧ prog = false ∧ ¬ fireCond s i := by
  unfold unblockStep at h ⊢
  dsimp only at h ⊢
  by_cases h1 : (stn s i).status = .blocked ∧ (stn s i).has_finished_part
  · rw [if_pos h1] at h ⊢
    by_cases h2 : i = s.n_stations - 1
    · rw [if_pos h2] at h
      simp at h
    · rw [if_neg h2] at h ⊢
      by_cases h3 : bufAt s i < capAt s i
      · rw [if_pos h3] at h
        simp at h
      · rw [if_neg h3] at h ⊢
        refine ⟨rfl, h, ?_⟩
        intro hf
        rcases hf.2.2 with hc | hc
        · exact h2 hc
        · exact h3 hc
  · rw [if_neg h1] at h ⊢
    refine ⟨rfl, h, ?_⟩
    intro hf
    exact h1 ⟨hf.1, hf.2.1⟩

theorem unblockGo_false (l : List ℕ) : ∀ (s : Sim) (prog : Bool),
    (unblockGo s prog l).2 = false →
    (unblockGo s prog l).1 = s ∧ prog = false ∧ ∀ i ∈ l, ¬ fireCond s i := by
  induction l with
  | nil =>
    intro s prog h
    exact ⟨rfl, h, by simp⟩
  | cons i rest ih =>
    intro s prog h
    unfold unblockGo at h ⊢
    obtain ⟨hg1, hg2, hgf⟩ := ih (unblockStep s prog i).1 (unblockStep s prog i).2 h
    obtain ⟨hs1, hs2, hsf⟩ := unblockStep_false s prog i hg2
    rw [hs1] at hgf
    refine ⟨hg1.trans hs1, hs2, ?_⟩
    intro j hj
    rcases List.mem_cons.mp hj with hji | hjr
    · subst hji
      exact hsf
    · exact hgf j hjr

theorem unblockStep_nofire (s : Sim) (prog : Bool) (i : ℕ) (hf : ¬ fireCond s i) :
    unblockStep s prog i = (s, prog) := by
  unfold unblockStep
  by_cases h1 : (stn s i).status = .blocked ∧ (stn s i).has_finished_part
  · rw [if_pos h1]
    have h2 : i ≠ s.n_stations - 1 := fun hc => hf ⟨h1.1, h1.2, Or.inl hc⟩
    have h3 : ¬ bufAt s i < capAt s i := fun hc => hf ⟨h1.1, h1.2, Or.inr hc⟩
    rw [if_neg h2, if_neg h3]
  · rw [if_neg h1]

theorem unblockGo_nofire (l : List ℕ) : ∀ (s : Sim) (prog : Bool),
    (∀ i ∈ l, ¬ fireCond s i) → unblockGo s prog l = (s, prog) := by
  induction l with
  | nil => intro s prog _; rfl
  | cons i rest ih =>
    intro s prog hf
    unfold unblockGo
    rw [unblockStep_nofire s prog i (hf i (List.mem_cons_self i rest))]
    exact ih s prog fun j hj => hf j (List.mem_cons_of_mem i hj)
theorem canPull_congr (s s' : Sim) (i : ℕ)
    (hj : s'.job_queue = s.job_queue) (hb : s'.buffers = s.buffers) :
    canPull s' i = canPull s i := by
  unfold canPull bufAt
  rw [hj, hb]

theorem fireCond_congr (s s' : Sim) (i : ℕ)
    (hn : s'.n_stations = s.n_stations) (hb : s'.buffers = s.buffers)
    (hc : s'.buffer_caps = s.buffer_caps)
    (hst : (stn s' i).status = (stn s i).status)
    (hf : (stn s' i).has_finished_part = (stn s i).has_finished_part) :
    fireCond s' i ↔ fireCond s i := by
  unfold fireCond bufAt capAt
  rw [hn, hb, hc, hst, hf]

theorem startStep_false (O : Oracle) (s : Sim) (prog : Bool) (i : ℕ) (r : Sim × Bool)
    (h : startStep O s prog i = some r) (hf : r.2 = false) :
    prog = false ∧
      ((r.1 = s ∧ (stn s i).status ≠ Status.idle) ∨
       ((stn s i).status = Status.idle ∧ canPull s i = false ∧
         r.1 = { s with stations := s.stations.set i { stn s i with starved := true } })) := by
  unfold startStep at h
  dsimp only at h
  by_cases hne : (stn s i).status ≠ Status.idle
  · rw [if_pos hne] at h
    simp only [Option.some.injEq] at h
    subst h
    exact ⟨hf, Or.inl ⟨rfl, hne⟩⟩
  · rw [if_neg hne] at h
    have hidle : (stn s i).status = Status.idle := not_not.mp hne
    by_cases hpull : (if i = 0 then !s.job_queue.isEmpty else decide (0 < bufAt s (i - 1))) = false
    · rw [if_pos hpull] at h
      simp only [Option.some.injEq] at h
      subst h
      exact ⟨hf, Or.inr ⟨hidle, hpull, rfl⟩⟩
    · rw [if_neg hpull] at h
      split at h
      · simp at h
      · rename_i dur s2 hsm
        rcases ite_eq_iff.mp h with ⟨-, he⟩ | ⟨-, he⟩ <;>
          (simp only [Option.some.injEq] at he; subst he; simp at hf)

theorem startGo_false (O : Oracle) (l : List ℕ) : ∀ (s s1 : Sim),
    (∀ i ∈ l, i < s.stations.length) →
    startGo O s false l = some (s1, false) →
      s1 = { s with stations := s1.stations } ∧
      s1.stations.length = s.stations.length ∧
      (∀ j, (stn s1 j).status = (stn s j).status ∧
        (stn s1 j).has_finished_part = (stn s j).has_finished_part ∧
        ((stn s j).starved = true → (stn s1 j).starved = true)) ∧
      (∀ j ∈ l, (stn s1 j).status = Status.idle →
        canPull s1 j = false ∧ (stn s1 j).starved = true) := by
  induction l with
  | nil =>
    intro s s1 hl h
    unfold startGo at h
    simp only [Option.some.injEq, Prod.mk.injEq] at h
    obtain ⟨h1, -⟩ := h
    subst h1
    exact ⟨rfl, rfl, fun j => ⟨rfl, rfl, fun hs => hs⟩, by simp⟩
  | cons i rest ih =>
    intro s s1 hl h
    unfold startGo at h
    split at h
    · simp at h
    · rename_i r1 hstep
      have hr2 : r1.2 = false := by
        cases hx : r1.2
        · rfl
        · rw [hx] at h
          have := startGo_mono O rest r1.1 (s1, false) h
          simp at this
      rw [hr2] at h
      obtain ⟨-, hcase⟩ := startStep_false O s false i r1 hstep hr2
      rcases hcase with ⟨hr1, hni⟩ | ⟨hidle, hcp, hr1⟩
      · rw [hr1] at h
        obtain ⟨e1, e2, e3, e4⟩ := ih s s1 (fun j hj => hl j (List.mem_cons_of_mem i hj)) h
        refine ⟨e1, e2, e3, ?_⟩
        intro j hj hjidle
        rcases List.mem_cons.mp hj with hji | hjr
        · subst hji
          rw [(e3 j).1] at hjidle
          exact absurd hjidle hni
        · exact e4 j hjr hjidle
      · rw [hr1] at h
        have hi : i < s.stations.length := hl i (List.mem_cons_self i rest)
        have hl' : ∀ j ∈ rest,
            j < ({ s with stations := s.stations.set i { stn s i with starved := true } } : Sim).stations.length := by
          intro j hj
          have : ({ s with stations := s.stations.set i { stn s i with starved := true } } : Sim).stations.length = s.stations.length := by
            simp
          rw [this]
          exact hl j (List.mem_cons_of_mem i hj)
        obtain ⟨e1, e2, e3, e4⟩ := ih _ s1 hl' h
        have hstv : ∀ j, stn { s with stations := s.stations.set i { stn s i with starved := true } } j
            = if i = j ∧ i < s.stations.length then { stn s i with starved := true } else stn s j := by
          intro j
          simp only [stn]
          exact getD_set_cases s.stations i j _ Station.new
        have e3' : ∀ j, (stn s1 j).status = (stn s j).status ∧
            (stn s1 j).has_finished_part = (stn s j).has_finished_part ∧
            ((stn s j).starved = true → (stn s1 j).starved = true) := by
          intro j
          obtain ⟨f1, f2, f3⟩ := e3 j
          rw [hstv j] at f1 f2 f3
          by_cases hc : i = j ∧ i < s.stations.length
          · rw [if_pos hc] at f1 f2 f3
            obtain ⟨hij, -⟩ := hc
            subst hij
            exact ⟨f1, f2, fun _ => f3 rfl⟩
          · rw [if_neg hc] at f1 f2 f3
            exact ⟨f1, f2, f3⟩
        refine ⟨e1, by simpa using e2, e3', ?_⟩
        intro j hj hjidle
        rcases List.mem_cons.mp hj with hji | hjr
        · subst hji
          have hjq1 : s1.job_queue = s.job_queue := by rw [e1]
          have hb1 : s1.buffers = s.buffers := by rw [e1]
          refine ⟨?_, ?_⟩
          · rw [canPull_congr s s1 j hjq1 hb1]
            exact hcp
          · obtain ⟨-, -, f3⟩ := e3 j
            rw [hstv j, if_pos ⟨rfl, hi⟩] at f3
            exact f3 rfl
        · exact e4 j hjr hjidle
theorem startStep_quiet (O : Oracle) (s : Sim) (i : ℕ)
    (hq : (stn s i).status = Status.idle → canPull s i = false ∧ (stn s i).starved = true) :
    startStep O s false i = some (s, false) := by
  unfold startStep
  dsimp only
  by_cases hne : (stn s i).status ≠ Status.idle
  · rw [if_pos hne]
  · have hidle : (stn s i).status = Status.idle := not_not.mp hne
    obtain ⟨hcp, hstv⟩ := hq hidle
    unfold canPull at hcp
    rw [if_neg hne, if_pos hcp]
    rw [starve_self _ hstv]
    simp only [stn]
    rw [set_getD_id]

theorem startGo_quiet (O : Oracle) (l : List ℕ) : ∀ (s : Sim),
    (∀ i ∈ l, (stn s i).status = Status.idle → canPull s i = false ∧ (stn s i).starved = true) →
    startGo O s false l = some (s, false) := by
  induction l with
  | nil => intro s _; rfl
  | cons i rest ih =>
    intro s hq
    have he : startGo O s false (i :: rest)
        = match startStep O s false i with
          | none => none
          | some r => startGo O r.1 r.2 rest := rfl
    rw [he, startStep_quiet O s i (hq i (List.mem_cons_self i rest))]
    exact ih s fun j hj => hq j (List.mem_cons_of_mem i hj)

theorem unblockGo_measure (l : List ℕ) : ∀ (s : Sim) (prog : Bool),
    MStep prog s (unblockGo s prog l) := by
  induction l with
  | nil => intro s prog; exact ⟨le_refl _, fun hp => Or.inl hp⟩
  | cons i rest ih =>
    intro s prog
    exact MStep_trans (unblockStep_measure s prog i) (ih _ _)

theorem startGo_measure (O : Oracle) (l : List ℕ) : ∀ (s : Sim) (prog : Bool) (r : Sim × Bool),
    (∀ i ∈ l, i < s.stations.length) → startGo O s prog l = some r → MStep prog s r := by
  induction l with
  | nil =>
    intro s prog r hl h
    unfold startGo at h
    simp only [Option.some.injEq] at h
    subst h
    exact ⟨le_refl _, fun hp => Or.inl hp⟩
  | cons i rest ih =>
    intro s prog r hl h
    unfold startGo at h
    split at h
    · simp at h
    · rename_i r1 hstep
      have hm1 := startStep_measure O s prog i r1 (hl i (List.mem_cons_self i rest)) hstep
      have hslen : r1.1.stations.length = s.stations.length :=
        (AAE_startStep O s prog i r1 hstep).slen_eq
      refine MStep_trans hm1 (ih r1.1 r1.2 r ?_ h)
      intro j hj
      rw [hslen]
      exact hl j (List.mem_cons_of_mem i hj)

theorem passOnce_measure (O : Oracle) (s : Sim) (r : Sim × Bool)
    (hlen : s.stations.length = s.n_stations) (h : passOnce O s = some r) :
    MStep false s r := by
  unfold passOnce at h
  dsimp only at h
  have hm1 := unblockGo_measure (List.range s.n_stations) s false
  have hslen := (AAE_unblockGo (List.range s.n_stations) s false).slen_eq
  refine MStep_trans hm1 (startGo_measure O (List.range s.n_stations) _ _ r ?_ h)
  intro j hj
  rw [hslen, hlen]
  exact List.mem_range.mp hj

theorem passOnce_false (O : Oracle) (s s1 : Sim)
    (hlen : s.stations.length = s.n_stations)
    (h : passOnce O s = some (s1, false)) :
    passOnce O s1 = some (s1, false) := by
  unfold passOnce at h ⊢
  dsimp only at h ⊢
  have hu2 : (unblockGo s false (List.range s.n_stations)).2 = false := by
    cases hx : (unblockGo s false (List.range s.n_stations)).2
    · rfl
    · rw [hx] at h
      have := startGo_mono O (List.range s.n_stations) _ _ h
      simp at this
  obtain ⟨hu1, -, hnof⟩ := unblockGo_false (List.range s.n_stations) s false hu2
  rw [hu1, hu2] at h
  have hl : ∀ i ∈ List.range s.n_stations, i < s.stations.length := by
    intro i hi
    rw [hlen]
    exact List.mem_range.mp hi
  obtain ⟨hrec, hslen, hpt, hquiet⟩ := startGo_false O (List.range s.n_stations) s s1 hl h
  have hn1 : s1.n_stations = s.n_stations := by rw [hrec]
  have hb1 : s1.buffers = s.buffers := by rw [hrec]
  have hc1 : s1.buffer_caps = s.buffer_caps := by rw [hrec]
  have hnof1 : ∀ i ∈ List.range s.n_stations, ¬ fireCond s1 i := by
    intro i hi
    exact fun hfire => hnof i hi
      ((fireCond_congr s s1 i hn1 hb1 hc1 (hpt i).1 (hpt i).2.1).mp hfire)
  rw [hn1, unblockGo_nofire (List.range s.n_stations) s1 false hnof1]
  exact startGo_quiet O (List.range s.n_stations) s1 hquiet
theorem dispatchLoop_succ (O : Oracle) (fuel : ℕ) (s : Sim) :
    dispatchLoop O (fuel + 1) s
      = match passOnce O s with
        | none => none
        | some (s1, true) => dispatchLoop O fuel s1
        | some (s1, false) => some s1 := rfl

theorem dispatchLoop_post (O : Oracle) (fuel : ℕ) : ∀ (s s' : Sim),
    s.stations.length = s.n_stations → passMeasure s < fuel →
    dispatchLoop O fuel s = some s' →
    passOnce O s' = some (s', false) ∧ s'.stations.length = s'.n_stations := by
  induction fuel with
  | zero =>
    intro s s' hlen hm h
    exact absurd hm (Nat.not_lt_zero _)
  | succ fuel ih =>
    intro s s' hlen hm h
    rw [dispatchLoop_succ] at h
    split at h
    · simp at h
    · rename_i s1 hpass
      have hms := passOnce_measure O s (s1, true) hlen hpass
      have haae := AAE_passOnce O s (s1, true) hpass
      have hlen1 : s1.stations.length = s1.n_stations := by
        rw [haae.slen_eq, haae.n_eq]
        exact hlen
      have hlt : passMeasure s1 < passMeasure s := by
        rcases hms.2 rfl with hc | hc
        · exact absurd hc (by decide)
        · exact hc
      exact ih s1 s' hlen1 (by omega) h
    · rename_i s1 hpass
      simp only [Option.some.injEq] at h
      subst h
      refine ⟨passOnce_false O s s1 hlen hpass, ?_⟩
      have haae := AAE_passOnce O s (s1, false) hpass
      rw [haae.slen_eq, haae.n_eq]
      exact hlen
/-- C8: for a state whose station list has the configured length (true of
every state the constructor or any handler produces), running the dispatcher
apply_action(None) twice in immediate succession equals running it once: the
first run ends only when a whole pass reports no progress, and such a pass
leaves every component of the state unchanged, so the second run's first pass
again reports no progress and returns its input.  get_snapshot is embedded as
a pure function Sim → Snapshot (the Rust method takes &self and mutates
nothing), so snapshots cannot change the state by construction. -/
theorem c8_apply_action_idempotent (O : Oracle) (s : Sim)
    (hlen : s.stations.length = s.n_stations) :
    (apply_action O none s).bind (apply_action O none) = apply_action O none s := by
  cases hap : apply_action O none s with
  | none => rfl
  | some s1 =>
    show apply_action O none s1 = some s1
    have h1 : dispatchLoop O (2 * s.stations.length + 1) s = some s1 := hap
    have hm : passMeasure s < 2 * s.stations.length + 1 :=
      Nat.lt_succ_of_le (passMeasure_le s)
    obtain ⟨hpq, hlen1⟩ :=
      dispatchLoop_post O (2 * s.stations.length + 1) s s1 hlen hm h1
    show dispatchLoop O (2 * s1.stations.length + 1) s1 = some s1
    rw [dispatchLoop_succ, hpq]

/-- Witness for C8 at a concrete input. -/
theorem c8_apply_action_idempotent_witness :
    (apply_action Ocx none sim0).bind (apply_action Ocx none) = apply_action Ocx none sim0 :=
  c8_apply_action_idempotent Ocx sim0 (by decide)
/-! ### Determinism of seeded runs -/

/-- A call that never consumes OS entropy: every call except an unseeded
reset. -/
def seeded : Call → Prop
  | .reset none _ => False
  | _ => True

theorem applyCall_seeded (O : Oracle) (e1 e2 : ℕ → ℚ) (c : Call) (s : Sim)
    (hc : seeded c) : applyCall O e1 c s = applyCall O e2 c s := by
  cases c with
  | reset seed n =>
    cases seed with
    | none => exact hc.elim
    | some v => rfl
  | action sp => rfl
  | step => rfl
  | finish fuel => rfl
  | snapshot => rfl
  | summary => rfl

theorem runCallsAux_seeded (O : Oracle) (E1 E2 : ℕ → ℕ → ℚ) (cs : List Call) :
    (∀ c ∈ cs, seeded c) → ∀ (k1 k2 : ℕ) (s : Sim),
      runCallsAux O E1 cs k1 s = runCallsAux O E2 cs k2 s := by
  induction cs with
  | nil => intro _ k1 k2 s; rfl
  | cons c rest ih =>
    intro hs k1 k2 s
    unfold runCallsAux
    rw [applyCall_seeded O (E1 k1) (E2 k2) c s (hs c (List.mem_cons_self c rest))]
    cases happ : applyCall O (E2 k2) c s with
    | none => rfl
    | some r =>
      obtain ⟨s1, outs, tr⟩ := r
      dsimp only
      rw [ih (fun d hd => hs d (List.mem_cons_of_mem c hd)) (k1 + 1) (k2 + 1) s1]

theorem runCalls_cons_congr (O : Oracle) (E1 E2 : ℕ → ℕ → ℚ) (c : Call) (cs : List Call)
    (s s' : Sim) (hhead : applyCall O (E1 0) c s = applyCall O (E2 0) c s')
    (hrest : ∀ d ∈ cs, seeded d) :
    runCalls O E1 (c :: cs) s = runCalls O E2 (c :: cs) s' := by
  unfold runCalls runCallsAux
  rw [hhead]
  cases happ : applyCall O (E2 0) c s' with
  | none => rfl
  | some r =>
    obtain ⟨s1, outs, tr⟩ := r
    dsimp only
    rw [runCallsAux_seeded O E1 E2 cs hrest (0 + 1) (0 + 1) s1]
/-- C5: two engines constructed with identical parameters (under different
construction entropy) and driven by the same call sequence whose first call is
a seeded reset and whose every later reset is seeded produce identical
results: the same outputs (every snapshot and summary), the same popped-event
trace, and the same final state, regardless of the entropy either run would
have drawn.  An unseeded reset reads the entropy stream, so the hypothesis
excludes it. -/
theorem c5_determinism (O : Oracle) (E1 E2 : ℕ → ℕ → ℚ) (ent1 ent2 : ℕ → ℚ)
    (n : ℕ) (caps : List ℕ) (means : List ℚ) (dists : List String)
    (a fr rt : ℚ) (w : ℕ) (seed njobs : ℕ) (rest : List Call) (s1 s2 : Sim)
    (h1 : FactorySim.new ent1 n caps means dists a fr rt w = .ok s1)
    (h2 : FactorySim.new ent2 n caps means dists a fr rt w = .ok s2)
    (hrest : ∀ c ∈ rest, seeded c) :
    runCalls O E1 (Call.reset (some seed) njobs :: rest) s1
      = runCalls O E2 (Call.reset (some seed) njobs :: rest) s2 := by
  unfold FactorySim.new at h1 h2
  split_ifs at h1 h2
  all_goals try exact Except.noConfusion h1
  simp only [Except.ok.injEq] at h1 h2
  subst h1
  subst h2
  exact runCalls_cons_congr O E1 E2 (Call.reset (some seed) njobs) rest _ _ rfl hrest

/-- Witness for C5 at concrete inputs. -/
theorem c5_determinism_witness :
    runCalls Ocx entCx [Call.reset (some 0) 1, Call.step] { sim0 with rng := ⟨cxStream, 0⟩ }
      = runCalls Ocx (fun _ _ => 1 / 3) [Call.reset (some 0) 1, Call.step] sim0 :=
  c5_determinism Ocx entCx (fun _ _ => 1 / 3) cxStream (fun _ => 0) 1 [] [1] ["uniform"]
    0 0 1 0 0 1 [Call.step] _ _ rfl rfl
    (by intro c hc; rw [List.mem_singleton] at hc; subst hc; trivial)
/-! ### Worker conservation -/

/-- Number of stations currently holding a repair worker. -/
def repCountL (l : List Station) : ℕ := l.countP fun st => st.repairing

/-- Number of RepairComplete events for station i in a queue. -/
def rcAt (q : List Event) (i : ℕ) : ℕ :=
  q.countP fun e => decide (e.etype = EventType.repairComplete ∧ e.sid = i)

/-- The station list has the configured length (established by the
constructor and by reset, preserved by every operation). -/
def SL (s : Sim) : Prop := s.stations.length = s.n_stations

/-- Worker conservation. -/
def WC (s : Sim) : Prop := s.workers_available + repCountL s.stations = s.workers_total

/-- A station holding a repair worker is DOWN. -/
def RD (s : Sim) : Prop := ∀ i, (stn s i).repairing = true → (stn s i).status = Status.down

/-- Exactly one pending RepairComplete event per repairing station, none
otherwise. -/
def RCC (s : Sim) : Prop :=
  ∀ i, rcAt s.event_queue i = if (stn s i).repairing then 1 else 0

/-- The worker-conservation invariant. -/
def Inv6 (s : Sim) : Prop := SL s ∧ WC s ∧ RD s ∧ RCC s

theorem countP_set_preserve {α : Type} (p : α → Bool) (d : α) :
    ∀ (l : List α) (i : ℕ) (a : α), p a = p (l.getD i d) →
      (l.set i a).countP p = l.countP p := by
  intro l
  induction l with
  | nil => intro i a _; rfl
  | cons x xs ih =>
    intro i a h
    cases i with
    | zero =>
      simp only [List.getD_cons_zero] at h
      simp only [List.set, List.countP_cons, h]
    | succ j =>
      simp only [List.getD_cons_succ] at h
      simp only [List.set, List.countP_cons, ih j a h]

theorem repCountL_set_preserve (l : List Station) (i : ℕ) (a : Station)
    (h : a.repairing = (l.getD i Station.new).repairing) :
    repCountL (l.set i a) = repCountL l :=
  countP_set_preserve _ Station.new l i a h

theorem repCountL_set_true (l : List Station) (i : ℕ) (a : Station) (hi : i < l.length)
    (hold : (l.getD i Station.new).repairing = false) (ha : a.repairing = true) :
    repCountL (l.set i a) = repCountL l + 1 := by
  have := countP_set_add (fun st => st.repairing) a Station.new l i hi
  simp only [hold, ha] at this
  simp at this
  unfold repCountL
  omega

theorem repCountL_set_false (l : List Station) (i : ℕ) (a : Station) (hi : i < l.length)
    (hold : (l.getD i Station.new).repairing = true) (ha : a.repairing = false) :
    repCountL (l.set i a) + 1 = repCountL l := by
  have := countP_set_add (fun st => st.repairing) a Station.new l i hi
  simp only [hold, ha] at this
  simp at this
  unfold repCountL
  omega

theorem repCountL_pos (l : List Station) (i : ℕ) (hi : i < l.length)
    (h : (l.getD i Station.new).repairing = true) : 1 ≤ repCountL l := by
  have hmem : l.getD i Station.new ∈ l := by
    rw [List.getD_eq_getElem l Station.new hi]
    exact List.getElem_mem hi
  have : 0 < l.countP fun st => st.repairing :=
    List.countP_pos.mpr ⟨l.getD i Station.new, hmem, h⟩
  unfold repCountL
  omega

theorem repCountL_replicate (n : ℕ) : repCountL (List.replicate n Station.new) = 0 := by
  induction n with
  | zero => rfl
  | succ m ih =>
    unfold repCountL at ih ⊢
    rw [List.replicate_succ, List.countP_cons, ih]
    rfl

theorem getD_replicate {α : Type} (a d : α) : ∀ (n i : ℕ),
    (List.replicate n a).getD i d = if i < n then a else d := by
  intro n
  induction n with
  | zero => intro i; simp
  | succ m ih =>
    intro i
    cases i with
    | zero => simp [List.replicate_succ]
    | succ j =>
      rw [List.replicate_succ]
      simp only [List.getD_cons_succ, ih j]
      by_cases hj : j < m
      · rw [if_pos hj, if_pos (by omega)]
      · rw [if_neg hj, if_neg (by omega)]

theorem Inv6_congr (s s' : Sim) (hq : s'.event_queue = s.event_queue)
    (hwa : s'.workers_available = s.workers_available)
    (hwt : s'.workers_total = s.workers_total)
    (hn : s'.n_stations = s.n_stations)
    (hlen : s'.stations.length = s.stations.length)
    (hfr : ∀ i, (stn s' i).repairing = (stn s i).repairing ∧
      (stn s' i).status = (stn s i).status)
    (h : Inv6 s) : Inv6 s' := by
  obtain ⟨hsl, hwc, hrd, hrcc⟩ := h
  have hcnt : repCountL s'.stations = repCountL s.stations := by
    refine countP_congr_getD _ Station.new s'.stations s.stations hlen ?_
    intro i _
    exact (hfr i).1
  refine ⟨?_, ?_, ?_, ?_⟩
  · unfold SL
    rw [hlen, hn, hsl]
  · unfold WC
    rw [hwa, hwt, hcnt]
    exact hwc
  · intro i hrep
    rw [(hfr i).2]
    exact hrd i ((hfr i).1.symm.trans hrep)
  · intro i
    unfold rcAt
    rw [hq, (hfr i).1]
    exact hrcc i

theorem Inv6_AAE (s s' : Sim) (ha : AAE s s') (h : Inv6 s) : Inv6 s' := by
  obtain ⟨hsl, hwc, hrd, hrcc⟩ := h
  have hcnt : repCountL s'.stations = repCountL s.stations := by
    refine countP_congr_getD _ Station.new s'.stations s.stations ha.slen_eq ?_
    intro i _
    exact ha.rep_eq i
  refine ⟨?_, ?_, ?_, ?_⟩
  · unfold SL
    rw [ha.slen_eq, ha.n_eq, hsl]
  · unfold WC
    rw [ha.wa_eq, ha.wt_eq, hcnt]
    exact hwc
  · intro i hrep
    have h1 : (stn s i).repairing = true := (ha.rep_eq i).symm.trans hrep
    have h2 := hrd i h1
    have h3 := ha.down_frame i h2
    rw [h3]
    exact h2
  · intro i
    have := ha.rc_count i
    unfold rcAt
    rw [this, ha.rep_eq i]
    exact hrcc i
theorem getD_map_ema (g : Station → ℚ) : ∀ (l : List Station) (i : ℕ),
    ∃ u, (l.map fun st => { st with util_ema := g st }).getD i Station.new
      = { l.getD i Station.new with util_ema := u } := by
  intro l
  induction l with
  | nil => intro i; exact ⟨0, rfl⟩
  | cons x xs ih =>
    intro i
    cases i with
    | zero => exact ⟨g x, rfl⟩
    | succ j => exact ih j

theorem advance_stn (O : Oracle) (t : ℚ) (s : Sim) (i : ℕ) :
    ∃ u, stn (advance_time O t s) i = { stn s i with util_ema := u } := by
  unfold advance_time
  dsimp only
  split_ifs
  · exact ⟨(stn s i).util_ema, rfl⟩
  · exact getD_map_ema _ s.stations i
  · exact ⟨(stn s i).util_ema, rfl⟩

theorem advance_frame (O : Oracle) (t : ℚ) (s : Sim) :
    (advance_time O t s).event_queue = s.event_queue ∧
    (advance_time O t s).workers_available = s.workers_available ∧
    (advance_time O t s).workers_total = s.workers_total ∧
    (advance_time O t s).n_stations = s.n_stations ∧
    (advance_time O t s).repair_queue = s.repair_queue ∧
    (advance_time O t s).stations.length = s.stations.length ∧
    (advance_time O t s).seq = s.seq ∧
    (advance_time O t s).jobs_total = s.jobs_total ∧
    (advance_time O t s).jobs_completed = s.jobs_completed ∧
    (advance_time O t s).job_queue = s.job_queue ∧
    (advance_time O t s).buffers = s.buffers ∧
    (advance_time O t s).current_speed = s.current_speed ∧
    (advance_time O t s).fail_rate = s.fail_rate ∧
    (advance_time O t s).repair_time = s.repair_time ∧
    (advance_time O t s).rng = s.rng := by
  unfold advance_time
  dsimp only
  split_ifs <;>
    exact ⟨rfl, rfl, rfl, rfl, rfl, by simp, rfl, rfl, rfl, rfl, rfl, rfl, rfl, rfl, rfl⟩

theorem Inv6_advance (O : Oracle) (t : ℚ) (s : Sim) (h : Inv6 s) :
    Inv6 (advance_time O t s) := by
  obtain ⟨hq, hwa, hwt, hn, -, hlen, -⟩ := advance_frame O t s
  refine Inv6_congr s (advance_time O t s) hq hwa hwt hn hlen ?_ h
  intro i
  obtain ⟨u, hu⟩ := advance_stn O t s i
  rw [hu]
  exact ⟨rfl, rfl⟩

theorem schedule_stations (t : ℚ) (ty : EventType) (sid : ℕ) (x : Sim) :
    (schedule t ty sid x).stations = x.stations := rfl

theorem schedule_queue (t : ℚ) (ty : EventType) (sid : ℕ) (x : Sim) :
    (schedule t ty sid x).event_queue
      = pushEvent { t := t, seq := x.seq, etype := ty, sid := sid } x.event_queue := rfl

theorem assign_inv (s : Sim) (sid : ℕ) (h : Inv6 s) : Inv6 (assign_repair_worker s sid).1 := by
  obtain ⟨hsl, hwc, hrd, hrcc⟩ := h
  unfold assign_repair_worker
  dsimp only
  split_ifs with h1 h2
  · exact ⟨hsl, hwc, hrd, hrcc⟩
  · exact ⟨hsl, hwc, hrd, hrcc⟩
  · push_neg at h1 h2
    obtain ⟨hn, hwa⟩ := h1
    obtain ⟨hdown, hnrep⟩ := h2
    have hnrep' : (stn s sid).repairing = false := by
      cases hx : (stn s sid).repairing
      · rfl
      · exact absurd hx hnrep
    have hlt : sid < s.stations.length := by
      rw [hsl]
      omega
    refine ⟨?_, ?_, ?_, ?_⟩
    · show (s.stations.set sid { stn s sid with repairing := true, repair_eta := some (s.time + s.repair_time) }).length = s.n_stations
      rw [List.length_set]
      exact hsl
    · show s.workers_available - 1 + repCountL (s.stations.set sid { stn s sid with repairing := true, repair_eta := some (s.time + s.repair_time) }) = s.workers_total
      rw [repCountL_set_true s.stations sid _ hlt hnrep' rfl]
      unfold WC at hwc
      omega
    · intro i hrep
      simp only [stn, schedule_stations] at hrep ⊢
      rw [getD_set_cases] at hrep ⊢
      split_ifs at hrep ⊢ with hc
      · obtain ⟨hc1, -⟩ := hc
        subst hc1
        exact hdown
      · exact hrd i hrep
    · intro j
      show rcAt (pushEvent _ s.event_queue) j = _
      unfold rcAt
      rw [countP_pushEvent]
      by_cases hj : j = sid
      · subst hj
        have h0 : rcAt s.event_queue j = 0 := by
          rw [hrcc j, hnrep']
          rfl
        unfold rcAt at h0
        rw [h0]
        simp only [stn, schedule_stations]
        simp [getD_set_self_of_lt, hlt]
      · have hj' : ¬ sid = j := fun hc => hj hc.symm
        have := hrcc j
        unfold rcAt at this
        rw [this]
        simp only [stn, schedule_stations]
        simp only [getD_set_other _ _ _ hj']
        simp [hj']
theorem Inv6_set_station (s : Sim) (sid : ℕ) (a : Station) (s' : Sim)
    (hst : s'.stations = s.stations.set sid a)
    (hq : s'.event_queue = s.event_queue)
    (hwa : s'.workers_available = s.workers_available)
    (hwt : s'.workers_total = s.workers_total)
    (hn : s'.n_stations = s.n_stations)
    (ha : a.repairing = (stn s sid).repairing)
    (hds : a.repairing = true → a.status = Status.down)
    (h : Inv6 s) : Inv6 s' := by
  obtain ⟨hsl, hwc, hrd, hrcc⟩ := h
  have hrepfr : ∀ i, (stn s' i).repairing = (stn s i).repairing := by
    intro i
    simp only [stn]
    rw [hst, getD_set_cases]
    split_ifs with hc
    · obtain ⟨hc1, -⟩ := hc
      subst hc1
      exact ha
    · rfl
  refine ⟨?_, ?_, ?_, ?_⟩
  · unfold SL
    rw [hst, List.length_set, hn, hsl]
  · unfold WC
    rw [hwa, hwt, hst, repCountL_set_preserve s.stations sid a ha]
    exact hwc
  · intro i hrep
    simp only [stn] at hrep ⊢
    rw [hst, getD_set_cases] at hrep ⊢
    split_ifs at hrep ⊢ with hc
    · exact hds hrep
    · exact hrd i hrep
  · intro i
    unfold rcAt
    rw [hq, hrepfr i]
    exact hrcc i

theorem hsc_inv (s : Sim) (sid : ℕ) (h : Inv6 s) : Inv6 (handle_service_complete s sid).1 := by
  have hInv := h
  obtain ⟨hsl, hwc, hrd, hrcc⟩ := h
  unfold handle_service_complete
  dsimp only
  split_ifs with h1 h2 h3 h4
  · exact hInv
  · exact hInv
  all_goals
    (simp only [Bool.not_eq_false, Bool.and_eq_true, decide_eq_true_eq] at h2
     obtain ⟨hworking, -⟩ := h2
     have hlt : sid < s.stations.length := by
       rw [hsl]
       omega
     have hnrep : (stn s sid).repairing = false := by
       cases hx : (stn s sid).repairing
       · rfl
       · have hd := hrd sid hx
         rw [hworking] at hd
         exact Status.noConfusion hd
     have hstn1 : stn { s with stations := s.stations.set sid ({ stn s sid with status := Status.idle, end_time := some s.time, job_id := none }) } sid = { stn s sid with status := Status.idle, end_time := some s.time, job_id := none } := by
       simp only [stn]
       rw [getD_set_self_of_lt, if_pos hlt])
  · refine Inv6_set_station s sid ({ stn s sid with status := Status.idle, end_time := some s.time, job_id := none, has_finished_part := false }) _ ?_ rfl rfl rfl rfl rfl ?_ hInv
    · rw [hstn1, List.set_set]
    · intro hr
      have hz : (stn s sid).repairing = true := hr
      rw [hnrep] at hz
      exact Bool.noConfusion hz
  · refine Inv6_set_station s sid ({ stn s sid with status := Status.idle, end_time := some s.time, job_id := none, has_finished_part := false }) _ ?_ rfl rfl rfl rfl rfl ?_ hInv
    · rw [hstn1, List.set_set]
    · intro hr
      have hz : (stn s sid).repairing = true := hr
      rw [hnrep] at hz
      exact Bool.noConfusion hz
  · refine Inv6_set_station s sid (blockSt ({ stn s sid with status := Status.idle, end_time := some s.time, job_id := none })) _ ?_ rfl rfl rfl rfl rfl ?_ hInv
    · rw [hstn1, List.set_set]
    · intro hr
      have hz : (stn s sid).repairing = true := hr
      rw [hnrep] at hz
      exact Bool.noConfusion hz

theorem hmf_inv (s : Sim) (sid : ℕ) (h : Inv6 s) : Inv6 (handle_machine_failure s sid).1 := by
  have hInv := h
  obtain ⟨hsl, hwc, hrd, hrcc⟩ := h
  unfold handle_machine_failure
  dsimp only
  by_cases h1 : s.n_stations ≤ sid
  · rw [if_pos h1]
    exact hInv
  · rw [if_neg h1]
    by_cases h2 : (stn s sid).status ≠ Status.working
    · rw [if_pos h2]
      exact hInv
    · rw [if_neg h2]
      have hworking : (stn s sid).status = Status.working := not_not.mp h2
      have hlt : sid < s.stations.length := by
        rw [hsl]
        omega
      have hnrep : (stn s sid).repairing = false := by
        cases hx : (stn s sid).repairing
        · rfl
        · have hd := hrd sid hx
          rw [hworking] at hd
          exact Status.noConfusion hd
      by_cases h0 : sid = 0
      · subst h0
        rw [if_pos rfl]
        cases hjid : (stn s 0).job_id with
        | none =>
          dsimp only
          split_ifs with hw hm
          · exact assign_inv _ 0 (Inv6_set_station s 0 ({ stn s 0 with status := Status.down, starved := false, has_finished_part := false, end_time := none, repairing := false, repair_eta := none }) _ rfl rfl rfl rfl rfl hnrep.symm (fun _ => rfl) hInv)
          · exact Inv6_set_station s 0 ({ stn s 0 with status := Status.down, starved := false, has_finished_part := false, end_time := none, repairing := false, repair_eta := none }) _ rfl rfl rfl rfl rfl hnrep.symm (fun _ => rfl) hInv
          · exact Inv6_set_station s 0 ({ stn s 0 with status := Status.down, starved := false, has_finished_part := false, end_time := none, repairing := false, repair_eta := none }) _ rfl rfl rfl rfl rfl hnrep.symm (fun _ => rfl) hInv
        | some j =>
          dsimp only
          have hInv1 : Inv6 ({ s with job_queue := j :: s.job_queue, stations := s.stations.set 0 ({ stn s 0 with job_id := none }) } : Sim) :=
            Inv6_set_station s 0 ({ stn s 0 with job_id := none }) _ rfl rfl rfl rfl rfl rfl
              (fun hr => by rw [show ({ stn s 0 with job_id := none } : Station).repairing = (stn s 0).repairing from rfl, hnrep] at hr; exact Bool.noConfusion hr) hInv
          have hstn1 : stn ({ s with job_queue := j :: s.job_queue, stations := s.stations.set 0 ({ stn s 0 with job_id := none }) } : Sim) 0 = { stn s 0 with job_id := none } := by
            simp only [stn]
            rw [getD_set_self_of_lt, if_pos hlt]
          have ha1 : ({ stn ({ s with job_queue := j :: s.job_queue, stations := s.stations.set 0 ({ stn s 0 with job_id := none }) } : Sim) 0 with status := Status.down, starved := false, has_finished_part := false, end_time := none, repairing := false, repair_eta := none } : Station).repairing = (stn ({ s with job_queue := j :: s.job_queue, stations := s.stations.set 0 ({ stn s 0 with job_id := none }) } : Sim) 0).repairing := by
            rw [hstn1]
            exact hnrep.symm
          split_ifs with hw hm
          · exact assign_inv _ 0 (Inv6_set_station ({ s with job_queue := j :: s.job_queue, stations := s.stations.set 0 ({ stn s 0 with job_id := none }) } : Sim) 0 ({ stn ({ s with job_queue := j :: s.job_queue, stations := s.stations.set 0 ({ stn s 0 with job_id := none }) } : Sim) 0 with status := Status.down, starved := false, has_finished_part := false, end_time := none, repairing := false, repair_eta := none }) _ rfl rfl rfl rfl rfl ha1 (fun _ => rfl) hInv1)
          · exact Inv6_set_station ({ s with job_queue := j :: s.job_queue, stations := s.stations.set 0 ({ stn s 0 with job_id := none }) } : Sim) 0 ({ stn ({ s with job_queue := j :: s.job_queue, stations := s.stations.set 0 ({ stn s 0 with job_id := none }) } : Sim) 0 with status := Status.down, starved := false, has_finished_part := false, end_time := none, repairing := false, repair_eta := none }) _ rfl rfl rfl rfl rfl ha1 (fun _ => rfl) hInv1
          · exact Inv6_set_station ({ s with job_queue := j :: s.job_queue, stations := s.stations.set 0 ({ stn s 0 with job_id := none }) } : Sim) 0 ({ stn ({ s with job_queue := j :: s.job_queue, stations := s.stations.set 0 ({ stn s 0 with job_id := none }) } : Sim) 0 with status := Status.down, starved := false, has_finished_part := false, end_time := none, repairing := false, repair_eta := none }) _ rfl rfl rfl rfl rfl ha1 (fun _ => rfl) hInv1
      · rw [if_neg h0]
        have hInv1 : Inv6 ({ s with buffers := s.buffers.set (sid - 1) (bufAt s (sid - 1) + 1) } : Sim) := hInv
        split_ifs with hw hm
        · exact assign_inv _ sid (Inv6_set_station ({ s with buffers := s.buffers.set (sid - 1) (bufAt s (sid - 1) + 1) } : Sim) sid ({ stn ({ s with buffers := s.buffers.set (sid - 1) (bufAt s (sid - 1) + 1) } : Sim) sid with status := Status.down, starved := false, has_finished_part := false, end_time := none, repairing := false, repair_eta := none }) _ rfl rfl rfl rfl rfl hnrep.symm (fun _ => rfl) hInv1)
        · exact Inv6_set_station ({ s with buffers := s.buffers.set (sid - 1) (bufAt s (sid - 1) + 1) } : Sim) sid ({ stn ({ s with buffers := s.buffers.set (sid - 1) (bufAt s (sid - 1) + 1) } : Sim) sid with status := Status.down, starved := false, has_finished_part := false, end_time := none, repairing := false, repair_eta := none }) _ rfl rfl rfl rfl rfl hnrep.symm (fun _ => rfl) hInv1
        · exact Inv6_set_station ({ s with buffers := s.buffers.set (sid - 1) (bufAt s (sid - 1) + 1) } : Sim) sid ({ stn ({ s with buffers := s.buffers.set (sid - 1) (bufAt s (sid - 1) + 1) } : Sim) sid with status := Status.down, starved := false, has_finished_part := false, end_time := none, repairing := false, repair_eta := none }) _ rfl rfl rfl rfl rfl hnrep.symm (fun _ => rfl) hInv1

theorem hrc_inv (s : Sim) (sid : ℕ)
    (hsl : SL s) (hwc : WC s) (hrd : RD s)
    (hrep : (stn s sid).repairing = true)
    (hrcc2 : ∀ j, rcAt s.event_queue j
      = if sid = j then 0 else (if (stn s j).repairing then 1 else 0)) :
    Inv6 (handle_repair_complete s sid).1 := by
  have hsl' : s.stations.length = s.n_stations := hsl
  have hwc' : s.workers_available + repCountL s.stations = s.workers_total := hwc
  have hlt : sid < s.stations.length := by
    by_contra hge
    have hnew : stn s sid = Station.new := getD_oob _ _ _ (le_of_not_lt hge)
    rw [hnew] at hrep
    simp [Station.new] at hrep
  have hn : sid < s.n_stations := by omega
  have hdown := hrd sid hrep
  have hc1 : repCountL (s.stations.set sid ({ stn s sid with status := Status.idle, starved := false, has_finished_part := false, end_time := none, repairing := false, repair_eta := none } : Station)) + 1 = repCountL s.stations :=
    repCountL_set_false _ sid _ hlt hrep rfl
  have hge1 : 1 ≤ repCountL s.stations := repCountL_pos _ sid hlt hrep
  have hmin : nmin (s.workers_available + 1) s.workers_total = s.workers_available + 1 := by
    unfold nmin
    rw [if_pos (by omega)]
  unfold handle_repair_complete
  dsimp only
  rw [if_neg (not_le.mpr hn), if_neg (not_not_intro hdown)]
  have hInv2 : Inv6 ({ ({ s with stations := s.stations.set sid ({ stn s sid with status := Status.idle, starved := false, has_finished_part := false, end_time := none, repairing := false, repair_eta := none } : Station) } : Sim) with workers_available := nmin (s.workers_available + 1) s.workers_total } : Sim) := by
    refine ⟨?_, ?_, ?_, ?_⟩
    · show (s.stations.set sid ({ stn s sid with status := Status.idle, starved := false, has_finished_part := false, end_time := none, repairing := false, repair_eta := none } : Station)).length = s.n_stations
      rw [List.length_set]
      exact hsl'
    · show nmin (s.workers_available + 1) s.workers_total + repCountL (s.stations.set sid ({ stn s sid with status := Status.idle, starved := false, has_finished_part := false, end_time := none, repairing := false, repair_eta := none } : Station)) = s.workers_total
      rw [hmin]
      omega
    · intro i hrepi
      simp only [stn] at hrepi ⊢
      rw [getD_set_cases] at hrepi ⊢
      by_cases hcc : sid = i ∧ sid < s.stations.length
      · rw [if_pos hcc] at hrepi
        simp at hrepi
      · rw [if_neg hcc] at hrepi ⊢
        exact hrd i hrepi
    · intro j
      show rcAt s.event_queue j = _
      rw [hrcc2 j]
      simp only [stn]
      by_cases hj : sid = j
      · subst hj
        simp [getD_set_self_of_lt, hlt]
      · simp only [getD_set_other _ _ _ hj]
        simp [hj]
  cases hq : s.repair_queue with
  | nil => exact hInv2
  | cons next rest =>
    dsimp only
    split_ifs with hass
    · exact assign_inv _ next hInv2
    · exact assign_inv _ next hInv2
theorem popHandle_inv (O : Oracle) (e : Event) (rest : List Event) (s : Sim)
    (hq : s.event_queue = e :: rest) (h : Inv6 s) :
    Inv6 (handleEvent e (advance_time O e.t { s with event_queue := rest })).1 := by
  obtain ⟨hsl, hwc, hrd, hrcc⟩ := h
  unfold handleEvent
  cases he : e.etype with
  | serviceComplete =>
    have hInvPop : Inv6 { s with event_queue := rest } := by
      refine ⟨hsl, hwc, hrd, ?_⟩
      intro j
      have hj := hrcc j
      unfold rcAt at hj ⊢
      rw [hq, List.countP_cons] at hj
      have hz : (decide (e.etype = EventType.repairComplete ∧ e.sid = j)) = false := by
        simp [he]
      rw [hz] at hj
      simpa using hj
    exact hsc_inv _ _ (Inv6_advance O e.t _ hInvPop)
  | machineFailure =>
    have hInvPop : Inv6 { s with event_queue := rest } := by
      refine ⟨hsl, hwc, hrd, ?_⟩
      intro j
      have hj := hrcc j
      unfold rcAt at hj ⊢
      rw [hq, List.countP_cons] at hj
      have hz : (decide (e.etype = EventType.repairComplete ∧ e.sid = j)) = false := by
        simp [he]
      rw [hz] at hj
      simpa using hj
    exact hmf_inv _ _ (Inv6_advance O e.t _ hInvPop)
  | repairComplete =>
    have hrep : (stn s e.sid).repairing = true := by
      cases hx : (stn s e.sid).repairing
      · have hj := hrcc e.sid
        rw [hq, hx] at hj
        unfold rcAt at hj
        rw [List.countP_cons] at hj
        simp [he] at hj
      · rfl
    have hrcc2 : ∀ j, rcAt rest j
        = if e.sid = j then 0 else (if (stn s j).repairing then 1 else 0) := by
      intro j
      have hj := hrcc j
      rw [hq] at hj
      unfold rcAt at hj ⊢
      rw [List.countP_cons] at hj
      by_cases hjj : e.sid = j
      · subst hjj
        rw [if_pos rfl]
        have hp : (decide (e.etype = EventType.repairComplete ∧ e.sid = e.sid)) = true := by
          simp [he]
        rw [hp, hrep] at hj
        rw [if_pos rfl] at hj
        omega
      · rw [if_neg hjj]
        have hp : (decide (e.etype = EventType.repairComplete ∧ e.sid = j)) = false := by
          simp [he]
          omega
        rw [hp] at hj
        simpa using hj
    obtain ⟨hq', hwa', hwt', hn', -, hlen', -⟩ :=
      advance_frame O e.t { s with event_queue := rest }
    have hfr : ∀ i,
        (stn (advance_time O e.t { s with event_queue := rest }) i).repairing
          = (stn s i).repairing ∧
        (stn (advance_time O e.t { s with event_queue := rest }) i).status
          = (stn s i).status := by
      intro i
      obtain ⟨u, hu⟩ := advance_stn O e.t { s with event_queue := rest } i
      rw [hu]
      exact ⟨rfl, rfl⟩
    have hcnt : repCountL (advance_time O e.t { s with event_queue := rest }).stations
        = repCountL s.stations := by
      refine countP_congr_getD _ Station.new _ _ hlen' ?_
      intro i _
      exact (hfr i).1
    refine hrc_inv _ e.sid ?_ ?_ ?_ ?_ ?_
    · unfold SL
      rw [hlen', hn']
      exact hsl
    · unfold WC
      rw [hwa', hwt', hcnt]
      exact hwc
    · intro i hrepi
      rw [(hfr i).2]
      exact hrd i ((hfr i).1.symm.trans hrepi)
    · rw [(hfr e.sid).1]
      exact hrep
    · intro j
      unfold rcAt
      rw [hq']
      rw [(hfr j).1]
      exact hrcc2 j
theorem rundLoop_inv (O : Oracle) (fuel : ℕ) : ∀ (s s1 : Sim) (tr : List Event),
    Inv6 s → rundLoop O fuel s = some (s1, tr) → Inv6 s1 := by
  induction fuel with
  | zero =>
    intro s s1 tr h hr
    unfold rundLoop at hr
    simp only [Option.some.injEq, Prod.mk.injEq] at hr
    obtain ⟨h1, -⟩ := hr
    subst h1
    exact h
  | succ fuel ih =>
    intro s s1 tr h hr
    unfold rundLoop at hr
    split at hr
    · simp only [Option.some.injEq, Prod.mk.injEq] at hr
      obtain ⟨h1, -⟩ := hr
      subst h1
      exact h
    · rename_i e rest hq
      have hstep := popHandle_inv O e rest s hq h
      dsimp only at hr
      split at hr
      · split at hr
        · simp at hr
        · rename_i s3 happ
          simp only [Option.some.injEq, Prod.mk.injEq] at hr
          obtain ⟨h1, -⟩ := hr
          subst h1
          exact Inv6_AAE _ _ (AAE_apply_action O _ _ happ) hstep
      · split at hr
        · simp at hr
        · rename_i p hrec
          simp only [Option.some.injEq, Prod.mk.injEq] at hr
          obtain ⟨h1, -⟩ := hr
          subst h1
          exact ih _ _ _ hstep hrec

theorem rtfLoop_inv (O : Oracle) (fuel : ℕ) : ∀ (s s1 : Sim) (tr : List Event),
    Inv6 s → rtfLoop O fuel s = some (s1, tr) → Inv6 s1 := by
  induction fuel with
  | zero =>
    intro s s1 tr h hr
    unfold rtfLoop at hr
    simp only [Option.some.injEq, Prod.mk.injEq] at hr
    obtain ⟨h1, -⟩ := hr
    subst h1
    exact h
  | succ fuel ih =>
    intro s s1 tr h hr
    unfold rtfLoop at hr
    split at hr
    · split at hr
      · simp only [Option.some.injEq, Prod.mk.injEq] at hr
        obtain ⟨h1, -⟩ := hr
        subst h1
        exact h
      · rename_i e rest hq
        have hstep := popHandle_inv O e rest s hq h
        dsimp only at hr
        split at hr
        · split at hr
          · simp at hr
          · rename_i s3 happ
            split at hr
            · simp at hr
            · rename_i p hrec
              simp only [Option.some.injEq, Prod.mk.injEq] at hr
              obtain ⟨h1, -⟩ := hr
              subst h1
              have hInv2 : Inv6 s3 := by
                refine Inv6_AAE _ s3 (AAE_apply_action O _ s3 happ) ?_
                split
                · exact hstep
                · exact hstep
              exact ih _ _ _ hInv2 hrec
        · split at hr
          · simp at hr
          · rename_i p hrec
            simp only [Option.some.injEq, Prod.mk.injEq] at hr
            obtain ⟨h1, -⟩ := hr
            subst h1
            exact ih _ _ _ hstep hrec
    · simp only [Option.some.injEq, Prod.mk.injEq] at hr
      obtain ⟨h1, -⟩ := hr
      subst h1
      exact h
theorem Inv6_same (s : Sim) (s2 : Sim) (hst : s2.stations = s.stations)
    (hq : s2.event_queue = s.event_queue) (hwa : s2.workers_available = s.workers_available)
    (hwt : s2.workers_total = s.workers_total) (hn : s2.n_stations = s.n_stations)
    (h : Inv6 s) : Inv6 s2 := by
  refine Inv6_congr s s2 hq hwa hwt hn ?_ ?_ h
  · rw [hst]
  · intro i
    simp only [stn]
    rw [hst]
    exact ⟨rfl, rfl⟩

theorem reset_inv (O : Oracle) (ent : ℕ → ℚ) (seed : Option ℕ) (n_jobs : ℕ) (s : Sim)
    (sn : Snapshot) (s2 : Sim) (h : reset O ent seed n_jobs s = some (sn, s2)) : Inv6 s2 := by
  unfold reset at h
  dsimp only at h
  split at h
  · simp at h
  · rename_i s3 happ
    simp only [Option.some.injEq, Prod.mk.injEq] at h
    obtain ⟨-, h2⟩ := h
    subst h2
    refine Inv6_AAE _ _ (AAE_apply_action O _ _ happ) ?_
    refine ⟨?_, ?_, ?_, ?_⟩
    · show (List.replicate s.n_stations Station.new).length = s.n_stations
      exact List.length_replicate _ _
    · show s.workers_total + repCountL (List.replicate s.n_stations Station.new) = s.workers_total
      rw [repCountL_replicate]
      omega
    · intro i hrep
      simp only [stn, getD_replicate, ite_self] at hrep
      exact absurd hrep (by decide)
    · intro i
      show rcAt [] i = _
      unfold rcAt
      simp only [List.countP_nil, stn, getD_replicate, ite_self]
      simp [Station.new]

theorem applyCall_inv (O : Oracle) (ent : ℕ → ℚ) (c : Call) (s : Sim)
    (r : Sim × List Out × List Event) (h : applyCall O ent c s = some r)
    (hInv : Inv6 s) : Inv6 r.1 := by
  cases c with
  | reset seed n_jobs =>
    unfold applyCall at h
    dsimp only at h
    split at h
    · simp at h
    · rename_i sn s' hres
      simp only [Option.some.injEq] at h
      subst h
      exact reset_inv O ent seed n_jobs s sn s' hres
  | action sp =>
    unfold applyCall at h
    dsimp only at h
    split at h
    · simp at h
    · rename_i s' happ
      simp only [Option.some.injEq] at h
      subst h
      cases sp with
      | none => exact Inv6_AAE _ _ (AAE_apply_action O _ _ happ) hInv
      | some v => exact Inv6_AAE _ _ (AAE_apply_action_speed O v _ _ happ) hInv
  | step =>
    unfold applyCall at h
    dsimp only at h
    unfold run_until_next_decision at h
    dsimp only at h
    split at h
    · simp at h
    · rename_i sn s1 tr hrun
      simp only [Option.some.injEq] at h
      subst h
      split at hrun
      · simp at hrun
      · rename_i s2 tr2 hloop
        simp only [Option.some.injEq, Prod.mk.injEq] at hrun
        obtain ⟨-, h2, -⟩ := hrun
        rw [← h2]
        have hloop2 : rundLoop O s.event_queue.length ({ s with throughput_since_decision := 0 }) = some (s2, tr2) := hloop
        have hstart : Inv6 { s with throughput_since_decision := 0 } := hInv
        exact Inv6_same s2 _ rfl rfl rfl rfl rfl
          (rundLoop_inv O s.event_queue.length _ s2 tr2 hstart hloop2)
  | finish fuel =>
    unfold applyCall at h
    dsimp only at h
    unfold run_to_finish at h
    split at h
    · simp at h
    · rename_i sm s1 tr hrtf
      simp only [Option.some.injEq] at h
      subst h
      split at hrtf
      · simp at hrtf
      · rename_i s2 tr2 hloop
        simp only [Option.some.injEq, Prod.mk.injEq] at hrtf
        obtain ⟨-, h2, -⟩ := hrtf
        rw [← h2]
        exact Inv6_same s2 _ rfl rfl rfl rfl rfl (rtfLoop_inv O fuel s s2 tr2 hInv hloop)
  | snapshot =>
    unfold applyCall at h
    dsimp only at h
    simp only [Option.some.injEq] at h
    subst h
    exact hInv
  | summary =>
    unfold applyCall at h
    dsimp only at h
    simp only [Option.some.injEq] at h
    subst h
    exact hInv

theorem runCallsAux_inv (O : Oracle) (ent : ℕ → ℕ → ℚ) (cs : List Call) :
    ∀ (k : ℕ) (s : Sim) (r : Sim × List Out × List Event),
      Inv6 s → runCallsAux O ent cs k s = some r → Inv6 r.1 := by
  induction cs with
  | nil =>
    intro k s r h hr
    unfold runCallsAux at hr
    simp only [Option.some.injEq] at hr
    subst hr
    exact h
  | cons c rest ih =>
    intro k s r h hr
    unfold runCallsAux at hr
    split at hr
    · simp at hr
    · rename_i s1 outs1 tr1 happ
      split at hr
      · simp at hr
      · rename_i s2 outs2 tr2 hrec
        simp only [Option.some.injEq] at hr
        subst hr
        exact ih (k + 1) s1 (s2, outs2, tr2) (applyCall_inv O (ent k) c s (s1, outs1, tr1) happ h) hrec
/-- C6: worker conservation.  From any freshly constructed engine, after any
sequence of public calls that completes without a panic, workers_available
plus the number of stations with repairing = true equals workers_total.  The
cap applied when a repair completes (workers_available+1 bounded by
workers_total) never truncates: a pending RepairComplete event exists exactly
for each repairing station, so the freed worker always fits under the total. -/
theorem c6_worker_conservation (O : Oracle) (ent : ℕ → ℕ → ℚ) (ent0 : ℕ → ℚ)
    (n : ℕ) (caps : List ℕ) (means : List ℚ) (dists : List String)
    (a fr rt : ℚ) (w : ℕ) (calls : List Call) (s0 : Sim)
    (r : Sim × List Out × List Event)
    (h0 : FactorySim.new ent0 n caps means dists a fr rt w = .ok s0)
    (hr : runCalls O ent calls s0 = some r) :
    r.1.workers_available + (r.1.stations.countP fun st => st.repairing)
      = r.1.workers_total := by
  have hInv0 : Inv6 s0 := by
    unfold FactorySim.new at h0
    split_ifs at h0
    all_goals try exact Except.noConfusion h0
    simp only [Except.ok.injEq] at h0
    subst h0
    refine ⟨?_, ?_, ?_, ?_⟩
    · show (List.replicate n Station.new).length = n
      exact List.length_replicate _ _
    · show w + repCountL (List.replicate n Station.new) = w
      rw [repCountL_replicate]
      omega
    · intro i hrep
      simp only [stn, getD_replicate, ite_self] at hrep
      exact absurd hrep (by decide)
    · intro i
      show rcAt [] i = _
      unfold rcAt
      simp only [List.countP_nil, stn, getD_replicate, ite_self]
      simp [Station.new]
  have hres := runCallsAux_inv O ent calls 0 s0 r hInv0 hr
  exact hres.2.1

/-- Witness for C6 at a concrete input. -/
theorem c6_worker_conservation_witness :
    (((runCalls Ocx entCx [Call.reset (some 0) 1] sim0).getD (sim0, [], [])).1).workers_available
      + ((((runCalls Ocx entCx [Call.reset (some 0) 1] sim0).getD (sim0, [], [])).1).stations.countP
          fun st => st.repairing)
      = (((runCalls Ocx entCx [Call.reset (some 0) 1] sim0).getD (sim0, [], [])).1).workers_total :=
  c6_worker_conservation Ocx entCx (fun _ => 0) 1 [] [1] ["uniform"] 0 0 1 0
    [Call.reset (some 0) 1] sim0 _ rfl rfl
/-! ### Clock, end_time and dispatch-order invariants -/

/-- Every queued event lies at or after the clock. -/
def TimeInv (s : Sim) : Prop := ∀ e ∈ s.event_queue, s.time ≤ e.t

/-- The rng stream only produces values ≥ 0 (true of real uniform draws). -/
def RngOK (s : Sim) : Prop := ∀ k, 0 ≤ s.rng.stream k

/-- A WORKING station carries end_time = some t, t at or after the clock,
matched by a pending ServiceComplete event at exactly t. -/
def WEat (x : Sim) (i : ℕ) : Prop :=
  (stn x i).status = Status.working →
    ∃ t, (stn x i).end_time = some t ∧ x.time ≤ t ∧
      ∃ ev ∈ x.event_queue, ev.etype = EventType.serviceComplete ∧ ev.sid = i ∧ ev.t = t

def WE (x : Sim) : Prop := ∀ i, WEat x i

/-- A DOWN station has no end_time. -/
def DN (x : Sim) : Prop :=
  ∀ i, (stn x i).status = Status.down → (stn x i).end_time = none

/-- The clock/order invariant of reachable states. -/
def InvT (s : Sim) : Prop :=
  SL s ∧ QOK s ∧ TimeInv s ∧ WE s ∧ DN s ∧ RngOK s ∧ 0 ≤ s.repair_time

/-- A popped event against a later state: every queued event is strictly
after it, its seq is dead, and it lies at or before the clock. -/
def J (y : Event) (s : Sim) : Prop :=
  (∀ e' ∈ s.event_queue, lexLt y e' ∧ y.seq ≠ e'.seq) ∧ y.seq < s.seq ∧ y.t ≤ s.time

theorem qabs_self_sub (t : ℚ) : qabs (t - t) ≤ 1 / 1000000000 := by
  rw [sub_self]
  unfold qabs
  norm_num

theorem InvT_AAE (s s' : Sim) (ha : AAE s s') (h : InvT s) : InvT s' := by
  obtain ⟨hsl, hqok, ht, hwe, hdn, hrng, hrt⟩ := h
  refine ⟨?_, ha.qok hqok, ?_, ?_, ?_, ?_, ?_⟩
  · unfold SL
    rw [ha.slen_eq, ha.n_eq, hsl]
  · intro e he
    rcases ha.qnew e he with hold | ⟨-, -, hnew⟩
    · rw [ha.time_eq]
      exact ht e hold
    · rw [ha.time_eq]
      exact hnew hrng
  · intro i hw
    rcases ha.started i hw with ⟨hws, heq⟩ | ⟨t', het, hge, ev, hev, hty, hsid, hevt⟩
    · obtain ⟨t, h1, h2, ev, hev, h3⟩ := hwe i hws
      rw [heq, ha.time_eq]
      exact ⟨t, h1, h2, ev, ha.qsub.subset hev, h3⟩
    · refine ⟨t', het, ?_, ev, hev, hty, hsid, hevt⟩
      rw [ha.time_eq]
      linarith
  · intro i hd
    rw [ha.down_back i hd]
    have hd' : (stn s i).status = Status.down := by
      rw [← ha.down_back i hd]
      exact hd
    exact hdn i hd'
  · intro k
    rw [ha.stream_eq]
    exact hrng k
  · rw [ha.rt_eq]
    exact hrt

theorem J_AAE (x x' : Sim) (y : Event) (ha : AAE x x') (hrng : RngOK x) (h : J y x) :
    J y x' := by
  obtain ⟨hq, hseq, ht⟩ := h
  refine ⟨?_, lt_of_lt_of_le hseq ha.seq_le, le_trans ht (le_of_eq ha.time_eq.symm)⟩
  intro e' he'
  rcases ha.qnew e' he' with hold | ⟨hs, -, hnew⟩
  · exact hq e' hold
  · have htn : x.time ≤ e'.t := hnew hrng
    have hlt : lexLt y e' := by
      unfold lexLt
      rcases lt_or_eq_of_le (le_trans ht htn) with hlt | heq
      · exact Or.inl hlt
      · exact Or.inr ⟨heq, by omega⟩
    exact ⟨hlt, by omega⟩

theorem advance_clock (O : Oracle) (t : ℚ) (x : Sim) (hle : x.time ≤ t) :
    (advance_time O t x).time = t := by
  unfold advance_time
  dsimp only
  split_ifs with h1 h2
  · exact absurd h1 (not_lt.mpr hle)
  · rfl
  · rfl

theorem assign_spec (x : Sim) (sid : ℕ)
    (hsl : SL x) (hQ : QOK x) (hT : TimeInv x) (hW : WE x) (hD : DN x)
    (hRT : 0 ≤ x.repair_time) :
    SL (assign_repair_worker x sid).1 ∧ QOK (assign_repair_worker x sid).1 ∧
    TimeInv (assign_repair_worker x sid).1 ∧ WE (assign_repair_worker x sid).1 ∧
    DN (assign_repair_worker x sid).1 ∧
    (assign_repair_worker x sid).1.time = x.time ∧
    x.seq ≤ (assign_repair_worker x sid).1.seq ∧
    (assign_repair_worker x sid).1.rng = x.rng ∧
    (assign_repair_worker x sid).1.repair_time = x.repair_time ∧
    (∀ e' ∈ (assign_repair_worker x sid).1.event_queue,
      e' ∈ x.event_queue ∨ (x.seq ≤ e'.seq ∧ x.time ≤ e'.t)) := by
  unfold assign_repair_worker
  dsimp only
  split_ifs with h1 h2
  · exact ⟨hsl, hQ, hT, hW, hD, rfl, le_refl _, rfl, rfl, fun e' he' => Or.inl he'⟩
  · exact ⟨hsl, hQ, hT, hW, hD, rfl, le_refl _, rfl, rfl, fun e' he' => Or.inl he'⟩
  · push_neg at h1 h2
    obtain ⟨hn, -⟩ := h1
    obtain ⟨hdown, -⟩ := h2
    have hsl' : x.stations.length = x.n_stations := hsl
    have hlt : sid < x.stations.length := by omega
    refine ⟨?_, ?_, ?_, ?_, ?_, rfl, Nat.le_succ _, rfl, rfl, ?_⟩
    · show (x.stations.set sid ({ stn x sid with repairing := true, repair_eta := some (x.time + x.repair_time) } : Station)).length = x.n_stations
      rw [List.length_set]
      exact hsl'
    · exact QOK_schedule _ _ _ _ hQ
    · intro e' he'
      rcases mem_schedule.mp he' with rfl | hold
      · show x.time ≤ x.time + x.repair_time
        linarith
      · exact hT e' hold
    · intro i hw
      simp only [stn, schedule_stations] at hw ⊢
      rw [getD_set_cases] at hw ⊢
      by_cases hc : sid = i ∧ sid < x.stations.length
      · rw [if_pos hc] at hw
        have hw' : (stn x sid).status = Status.working := hw
        rw [hdown] at hw'
        exact Status.noConfusion hw'
      · rw [if_neg hc] at hw ⊢
        obtain ⟨t, he1, he2, ev, hev, he3⟩ := hW i hw
        exact ⟨t, he1, he2, ev, mem_schedule.mpr (Or.inr hev), he3⟩
    · intro i hd
      simp only [stn, schedule_stations] at hd ⊢
      rw [getD_set_cases] at hd ⊢
      by_cases hc : sid = i ∧ sid < x.stations.length
      · rw [if_pos hc]
        exact hD sid hdown
      · rw [if_neg hc] at hd ⊢
        exact hD i hd
    · intro e' he'
      rcases mem_schedule.mp he' with rfl | hold
      · refine Or.inr ⟨le_refl _, ?_⟩
        show x.time ≤ x.time + x.repair_time
        linarith
      · exact Or.inl hold

/-- Frame of one event handler run at state x: invariants survive, clock and
rng untouched, the queue only grows by events at or after the clock carrying
fresh seq values. -/
def HPost (x : Sim) (r : Sim) : Prop :=
  SL r ∧ QOK r ∧ TimeInv r ∧ WE r ∧ DN r ∧
  r.time = x.time ∧ x.seq ≤ r.seq ∧ r.rng = x.rng ∧ r.repair_time = x.repair_time ∧
  (∀ e' ∈ r.event_queue, e' ∈ x.event_queue ∨ (x.seq ≤ e'.seq ∧ x.time ≤ e'.t))

theorem HPost_trans (x y r : Sim) (h1 : HPost x y) (h2 : HPost y r) : HPost x r := by
  obtain ⟨-, -, -, -, -, ht1, hs1, hr1, hp1, hg1⟩ := h1
  obtain ⟨a2, b2, c2, d2, e2, ht2, hs2, hr2, hp2, hg2⟩ := h2
  refine ⟨a2, b2, c2, d2, e2, ht2.trans ht1, le_trans hs1 hs2, hr2.trans hr1,
    hp2.trans hp1, ?_⟩
  intro e' he'
  rcases hg2 e' he' with hin | ⟨hse, hte⟩
  · exact hg1 e' hin
  · refine Or.inr ⟨le_trans hs1 hse, ?_⟩
    rw [ht1] at hte
    exact hte

theorem J_HPost (x r : Sim) (y : Event) (hp : HPost x r) (h : J y x) : J y r := by
  obtain ⟨-, -, -, -, -, ht, hs, -, -, hg⟩ := hp
  obtain ⟨hq, hseq, hyt⟩ := h
  refine ⟨?_, by omega, by rw [ht]; exact hyt⟩
  intro e' he'
  rcases hg e' he' with hin | ⟨hse, hte⟩
  · exact hq e' hin
  · have hlt : lexLt y e' := by
      unfold lexLt
      rcases lt_or_eq_of_le (le_trans hyt hte) with hl | he
      · exact Or.inl hl
      · exact Or.inr ⟨he, by omega⟩
    exact ⟨hlt, by omega⟩

theorem lexLt_t_le {a b : Event} (h : lexLt a b) : a.t ≤ b.t := by
  rcases h with h | ⟨h, -⟩
  · exact le_of_lt h
  · exact le_of_eq h

theorem WE_DN_set (x : Sim) (sid : ℕ) (a : Station) (r : Sim)
    (hlt : sid < x.stations.length)
    (hst : r.stations = x.stations.set sid a)
    (hq : r.event_queue = x.event_queue) (htime : r.time = x.time)
    (hWEo : ∀ i, i ≠ sid → WEat x i) (hDo : DN x)
    (haw : a.status ≠ Status.working)
    (had : a.status = Status.down → a.end_time = none) :
    WE r ∧ DN r := by
  constructor
  · intro i hw
    simp only [stn] at hw ⊢
    rw [hst, getD_set_cases] at hw ⊢
    by_cases hc : sid = i ∧ sid < x.stations.length
    · rw [if_pos hc] at hw
      exact absurd hw haw
    · rw [if_neg hc] at hw ⊢
      have hi : i ≠ sid := fun he => hc ⟨he.symm, hlt⟩
      obtain ⟨t, h1, h2, ev, hev, h3⟩ := hWEo i hi hw
      rw [htime, hq]
      exact ⟨t, h1, h2, ev, hev, h3⟩
  · intro i hd
    simp only [stn] at hd ⊢
    rw [hst, getD_set_cases] at hd ⊢
    by_cases hc : sid = i ∧ sid < x.stations.length
    · rw [if_pos hc] at hd ⊢
      exact had hd
    · rw [if_neg hc] at hd ⊢
      exact hDo i hd

theorem QOK_carry (x r : Sim) (hq : r.event_queue = x.event_queue) (hs : r.seq = x.seq)
    (h : QOK x) : QOK r := by
  unfold QOK
  rw [hq, hs]
  exact h

theorem HPost_set (x : Sim) (sid : ℕ) (a : Station) (hsl : SL x) (hQ : QOK x)
    (hT : TimeInv x) (hD : DN x) (hlt : sid < x.stations.length)
    (hWEo : ∀ i, i ≠ sid → WEat x i)
    (haw : a.status ≠ Status.working)
    (had : a.status = Status.down → a.end_time = none) :
    ∀ r : Sim, r.stations = x.stations.set sid a → r.event_queue = x.event_queue →
      r.time = x.time → r.seq = x.seq → r.rng = x.rng → r.repair_time = x.repair_time →
      r.n_stations = x.n_stations → HPost x r := by
  intro r hst hq htime hseq hrng hrt hn
  obtain ⟨hwe, hdn⟩ := WE_DN_set x sid a r hlt hst hq htime hWEo hD haw had
  refine ⟨?_, QOK_carry x r hq hseq hQ, ?_, hwe, hdn, htime, le_of_eq hseq.symm, hrng, hrt, ?_⟩
  · unfold SL
    rw [hst, List.length_set, hn]
    exact hsl
  · intro e he
    rw [hq] at he
    rw [htime]
    exact hT e he
  · intro e' he'
    rw [hq] at he'
    exact Or.inl he'

theorem hsc_spec (x : Sim) (sid : ℕ)
    (hsl : SL x) (hQ : QOK x) (hT : TimeInv x) (hD : DN x) (hRT : 0 ≤ x.repair_time)
    (hWE : ∀ i, i ≠ sid → WEat x i)
    (hsid : (stn x sid).status = Status.working →
      ∃ t, (stn x sid).end_time = some t ∧ x.time ≤ t ∧
        ((∃ ev ∈ x.event_queue, ev.etype = EventType.serviceComplete ∧ ev.sid = sid ∧ ev.t = t)
          ∨ t = x.time)) :
    HPost x (handle_service_complete x sid).1 := by
  have hsl' : x.stations.length = x.n_stations := hsl
  unfold handle_service_complete
  dsimp only
  by_cases h1 : x.n_stations ≤ sid
  · rw [if_pos h1]
    have hwx : WE x := by
      intro i
      by_cases hi : i = sid
      · subst hi
        intro hw
        exfalso
        have hib : i < x.stations.length := by
          by_contra hge
          have hnew : stn x i = Station.new := getD_oob _ _ _ (le_of_not_lt hge)
          rw [hnew] at hw
          exact Status.noConfusion hw
        omega
      · exact hWE i hi
    exact ⟨hsl, hQ, hT, hwx, hD, rfl, le_refl _, rfl, rfl, fun e' he' => Or.inl he'⟩
  · rw [if_neg h1]
    have hlt : sid < x.stations.length := by omega
    by_cases hv : (decide ((stn x sid).status = Status.working) && (match (stn x sid).end_time with | some et => decide (qabs (et - x.time) ≤ 1 / 1000000000) | none => false)) = false
    · rw [if_pos hv]
      have hwx : WE x := by
        intro i
        by_cases hi : i = sid
        · subst hi
          intro hw
          obtain ⟨t, het, hge, htie⟩ := hsid hw
          rcases htie with ⟨ev, hev, h3⟩ | htt
          · exact ⟨t, het, hge, ev, hev, h3⟩
          · exfalso
            have hm : (match (stn x i).end_time with | some et => decide (qabs (et - x.time) ≤ 1 / 1000000000) | none => false) = decide (qabs (t - x.time) ≤ 1 / 1000000000) := by
              rw [het]
            have hvt : (decide ((stn x i).status = Status.working) && (match (stn x i).end_time with | some et => decide (qabs (et - x.time) ≤ 1 / 1000000000) | none => false)) = true := by
              rw [Bool.and_eq_true, hm]
              refine ⟨decide_eq_true hw, decide_eq_true ?_⟩
              rw [htt]
              exact qabs_self_sub x.time
            rw [hvt] at hv
            exact Bool.noConfusion hv
        · exact hWE i hi
      exact ⟨hsl, hQ, hT, hwx, hD, rfl, le_refl _, rfl, rfl, fun e' he' => Or.inl he'⟩
    · rw [if_neg hv]
      have hstn1 : stn { x with stations := x.stations.set sid ({ stn x sid with status := Status.idle, end_time := some x.time, job_id := none } : Station) } sid = ({ stn x sid with status := Status.idle, end_time := some x.time, job_id := none } : Station) := by
        simp only [stn]
        rw [getD_set_self_of_lt, if_pos hlt]
      by_cases h3 : sid = x.n_stations - 1
      · rw [if_pos h3]
        exact HPost_set x sid ({ stn x sid with status := Status.idle, end_time := some x.time, job_id := none, has_finished_part := false } : Station) hsl hQ hT hD hlt hWE
          (fun hcon => Status.noConfusion hcon) (fun hcon => Status.noConfusion hcon)
          _ (by rw [hstn1, List.set_set]) rfl rfl rfl rfl rfl rfl
      · rw [if_neg h3]
        by_cases h4 : bufAt { x with stations := x.stations.set sid ({ stn x sid with status := Status.idle, end_time := some x.time, job_id := none } : Station) } sid < capAt { x with stations := x.stations.set sid ({ stn x sid with status := Status.idle, end_time := some x.time, job_id := none } : Station) } sid
        · rw [if_pos h4]
          exact HPost_set x sid ({ stn x sid with status := Status.idle, end_time := some x.time, job_id := none, has_finished_part := false } : Station) hsl hQ hT hD hlt hWE
            (fun hcon => Status.noConfusion hcon) (fun hcon => Status.noConfusion hcon)
            _ (by rw [hstn1, List.set_set]) rfl rfl rfl rfl rfl rfl
        · rw [if_neg h4]
          exact HPost_set x sid (blockSt ({ stn x sid with status := Status.idle, end_time := some x.time, job_id := none })) hsl hQ hT hD hlt hWE
            (fun hcon => Status.noConfusion hcon) (fun hcon => Status.noConfusion hcon)
            _ (by rw [hstn1, List.set_set]) rfl rfl rfl rfl rfl rfl

theorem hmf_spec (x : Sim) (sid : ℕ)
    (hsl : SL x) (hQ : QOK x) (hT : TimeInv x) (hW : WE x) (hD : DN x)
    (hRT : 0 ≤ x.repair_time) :
    HPost x (handle_machine_failure x sid).1 := by
  have hsl' : x.stations.length = x.n_stations := hsl
  unfold handle_machine_failure
  dsimp only
  by_cases h1 : x.n_stations ≤ sid
  · rw [if_pos h1]
    exact ⟨hsl, hQ, hT, hW, hD, rfl, le_refl _, rfl, rfl, fun e' he' => Or.inl he'⟩
  · rw [if_neg h1]
    by_cases h2 : (stn x sid).status ≠ Status.working
    · rw [if_pos h2]
      exact ⟨hsl, hQ, hT, hW, hD, rfl, le_refl _, rfl, rfl, fun e' he' => Or.inl he'⟩
    · rw [if_neg h2]
      have hlt : sid < x.stations.length := by omega
      by_cases h0 : sid = 0
      · subst h0
        rw [if_pos rfl]
        cases hjid : (stn x 0).job_id with
        | none =>
          dsimp only
          have hp2 : HPost x ({ x with stations := x.stations.set 0 ({ stn x 0 with status := Status.down, starved := false, has_finished_part := false, end_time := none, repairing := false, repair_eta := none } : Station) } : Sim) :=
            HPost_set x 0 ({ stn x 0 with status := Status.down, starved := false, has_finished_part := false, end_time := none, repairing := false, repair_eta := none } : Station) hsl hQ hT hD hlt (fun i hi => hW i)
              (fun hcon => Status.noConfusion hcon) (fun hcon => rfl)
              ({ x with stations := x.stations.set 0 ({ stn x 0 with status := Status.down, starved := false, has_finished_part := false, end_time := none, repairing := false, repair_eta := none } : Station) } : Sim) rfl rfl rfl rfl rfl rfl rfl
          obtain ⟨c1, c2, c3, c4, c5, -, -, -, crt, -⟩ := hp2
          have hp2b : HPost x ({ x with stations := x.stations.set 0 ({ stn x 0 with status := Status.down, starved := false, has_finished_part := false, end_time := none, repairing := false, repair_eta := none } : Station) } : Sim) :=
            HPost_set x 0 ({ stn x 0 with status := Status.down, starved := false, has_finished_part := false, end_time := none, repairing := false, repair_eta := none } : Station) hsl hQ hT hD hlt (fun i hi => hW i)
              (fun hcon => Status.noConfusion hcon) (fun hcon => rfl)
              ({ x with stations := x.stations.set 0 ({ stn x 0 with status := Status.down, starved := false, has_finished_part := false, end_time := none, repairing := false, repair_eta := none } : Station) } : Sim) rfl rfl rfl rfl rfl rfl rfl
          have hrt2 : 0 ≤ (({ x with stations := x.stations.set 0 ({ stn x 0 with status := Status.down, starved := false, has_finished_part := false, end_time := none, repairing := false, repair_eta := none } : Station) } : Sim)).repair_time := by
            rw [crt]
            exact hRT
          split_ifs with hw hm
          · exact HPost_trans x _ _ hp2b (assign_spec _ 0 c1 c2 c3 c4 c5 hrt2)
          · exact hp2b
          · exact hp2b
        | some j =>
          dsimp only
          have hstn1 : stn ({ x with job_queue := j :: x.job_queue, stations := x.stations.set 0 ({ stn x 0 with job_id := none }) } : Sim) 0 = ({ stn x 0 with job_id := none } : Station) := by
            simp only [stn]
            rw [getD_set_self_of_lt, if_pos hlt]
          have hp2 : HPost x ({ ({ x with job_queue := j :: x.job_queue, stations := x.stations.set 0 ({ stn x 0 with job_id := none }) } : Sim) with stations := (({ x with job_queue := j :: x.job_queue, stations := x.stations.set 0 ({ stn x 0 with job_id := none }) } : Sim)).stations.set 0 ({ stn ({ x with job_queue := j :: x.job_queue, stations := x.stations.set 0 ({ stn x 0 with job_id := none }) } : Sim) 0 with status := Status.down, starved := false, has_finished_part := false, end_time := none, repairing := false, repair_eta := none }) } : Sim) :=
            HPost_set x 0 ({ stn x 0 with status := Status.down, starved := false, has_finished_part := false, end_time := none, repairing := false, repair_eta := none, job_id := none } : Station) hsl hQ hT hD hlt (fun i hi => hW i)
              (fun hcon => Status.noConfusion hcon) (fun hcon => rfl)
              ({ ({ x with job_queue := j :: x.job_queue, stations := x.stations.set 0 ({ stn x 0 with job_id := none }) } : Sim) with stations := (({ x with job_queue := j :: x.job_queue, stations := x.stations.set 0 ({ stn x 0 with job_id := none }) } : Sim)).stations.set 0 ({ stn ({ x with job_queue := j :: x.job_queue, stations := x.stations.set 0 ({ stn x 0 with job_id := none }) } : Sim) 0 with status := Status.down, starved := false, has_finished_part := false, end_time := none, repairing := false, repair_eta := none }) } : Sim) (by rw [hstn1, List.set_set]) rfl rfl rfl rfl rfl rfl
          obtain ⟨c1, c2, c3, c4, c5, -, -, -, crt, -⟩ := hp2
          have hp2b : HPost x ({ ({ x with job_queue := j :: x.job_queue, stations := x.stations.set 0 ({ stn x 0 with job_id := none }) } : Sim) with stations := (({ x with job_queue := j :: x.job_queue, stations := x.stations.set 0 ({ stn x 0 with job_id := none }) } : Sim)).stations.set 0 ({ stn ({ x with job_queue := j :: x.job_queue, stations := x.stations.set 0 ({ stn x 0 with job_id := none }) } : Sim) 0 with status := Status.down, starved := false, has_finished_part := false, end_time := none, repairing := false, repair_eta := none }) } : Sim) :=
            HPost_set x 0 ({ stn x 0 with status := Status.down, starved := false, has_finished_part := false, end_time := none, repairing := false, repair_eta := none, job_id := none } : Station) hsl hQ hT hD hlt (fun i hi => hW i)
              (fun hcon => Status.noConfusion hcon) (fun hcon => rfl)
              ({ ({ x with job_queue := j :: x.job_queue, stations := x.stations.set 0 ({ stn x 0 with job_id := none }) } : Sim) with stations := (({ x with job_queue := j :: x.job_queue, stations := x.stations.set 0 ({ stn x 0 with job_id := none }) } : Sim)).stations.set 0 ({ stn ({ x with job_queue := j :: x.job_queue, stations := x.stations.set 0 ({ stn x 0 with job_id := none }) } : Sim) 0 with status := Status.down, starved := false, has_finished_part := false, end_time := none, repairing := false, repair_eta := none }) } : Sim) (by rw [hstn1, List.set_set]) rfl rfl rfl rfl rfl rfl
          have hrt2 : 0 ≤ (({ ({ x with job_queue := j :: x.job_queue, stations := x.stations.set 0 ({ stn x 0 with job_id := none }) } : Sim) with stations := (({ x with job_queue := j :: x.job_queue, stations := x.stations.set 0 ({ stn x 0 with job_id := none }) } : Sim)).stations.set 0 ({ stn ({ x with job_queue := j :: x.job_queue, stations := x.stations.set 0 ({ stn x 0 with job_id := none }) } : Sim) 0 with status := Status.down, starved := false, has_finished_part := false, end_time := none, repairing := false, repair_eta := none }) } : Sim)).repair_time := by
            rw [crt]
            exact hRT
          split_ifs with hw hm
          · exact HPost_trans x _ _ hp2b (assign_spec _ 0 c1 c2 c3 c4 c5 hrt2)
          · exact hp2b
          · exact hp2b
      · rw [if_neg h0]
        have hp2 : HPost x ({ ({ x with buffers := x.buffers.set (sid - 1) (bufAt x (sid - 1) + 1) } : Sim) with stations := (({ x with buffers := x.buffers.set (sid - 1) (bufAt x (sid - 1) + 1) } : Sim)).stations.set sid ({ stn ({ x with buffers := x.buffers.set (sid - 1) (bufAt x (sid - 1) + 1) } : Sim) sid with status := Status.down, starved := false, has_finished_part := false, end_time := none, repairing := false, repair_eta := none }) } : Sim) :=
          HPost_set x sid ({ stn x sid with status := Status.down, starved := false, has_finished_part := false, end_time := none, repairing := false, repair_eta := none } : Station) hsl hQ hT hD hlt (fun i hi => hW i)
            (fun hcon => Status.noConfusion hcon) (fun hcon => rfl)
            ({ ({ x with buffers := x.buffers.set (sid - 1) (bufAt x (sid - 1) + 1) } : Sim) with stations := (({ x with buffers := x.buffers.set (sid - 1) (bufAt x (sid - 1) + 1) } : Sim)).stations.set sid ({ stn ({ x with buffers := x.buffers.set (sid - 1) (bufAt x (sid - 1) + 1) } : Sim) sid with status := Status.down, starved := false, has_finished_part := false, end_time := none, repairing := false, repair_eta := none }) } : Sim) rfl rfl rfl rfl rfl rfl rfl
        obtain ⟨c1, c2, c3, c4, c5, -, -, -, crt, -⟩ := hp2
        have hp2b : HPost x ({ ({ x with buffers := x.buffers.set (sid - 1) (bufAt x (sid - 1) + 1) } : Sim) with stations := (({ x with buffers := x.buffers.set (sid - 1) (bufAt x (sid - 1) + 1) } : Sim)).stations.set sid ({ stn ({ x with buffers := x.buffers.set (sid - 1) (bufAt x (sid - 1) + 1) } : Sim) sid with status := Status.down, starved := false, has_finished_part := false, end_time := none, repairing := false, repair_eta := none }) } : Sim) :=
          HPost_set x sid ({ stn x sid with status := Status.down, starved := false, has_finished_part := false, end_time := none, repairing := false, repair_eta := none } : Station) hsl hQ hT hD hlt (fun i hi => hW i)
            (fun hcon => Status.noConfusion hcon) (fun hcon => rfl)
            ({ ({ x with buffers := x.buffers.set (sid - 1) (bufAt x (sid - 1) + 1) } : Sim) with stations := (({ x with buffers := x.buffers.set (sid - 1) (bufAt x (sid - 1) + 1) } : Sim)).stations.set sid ({ stn ({ x with buffers := x.buffers.set (sid - 1) (bufAt x (sid - 1) + 1) } : Sim) sid with status := Status.down, starved := false, has_finished_part := false, end_time := none, repairing := false, repair_eta := none }) } : Sim) rfl rfl rfl rfl rfl rfl rfl
        have hrt2 : 0 ≤ (({ ({ x with buffers := x.buffers.set (sid - 1) (bufAt x (sid - 1) + 1) } : Sim) with stations := (({ x with buffers := x.buffers.set (sid - 1) (bufAt x (sid - 1) + 1) } : Sim)).stations.set sid ({ stn ({ x with buffers := x.buffers.set (sid - 1) (bufAt x (sid - 1) + 1) } : Sim) sid with status := Status.down, starved := false, has_finished_part := false, end_time := none, repairing := false, repair_eta := none }) } : Sim)).repair_time := by
          rw [crt]
          exact hRT
        split_ifs with hw hm
        · exact HPost_trans x _ _ hp2b (assign_spec _ sid c1 c2 c3 c4 c5 hrt2)
        · exact hp2b
        · exact hp2b

theorem hrc_spec (x : Sim) (sid : ℕ)
    (hsl : SL x) (hQ : QOK x) (hT : TimeInv x) (hW : WE x) (hD : DN x)
    (hRT : 0 ≤ x.repair_time) :
    HPost x (handle_repair_complete x sid).1 := by
  have hsl' : x.stations.length = x.n_stations := hsl
  unfold handle_repair_complete
  dsimp only
  by_cases h1 : x.n_stations ≤ sid
  · rw [if_pos h1]
    exact ⟨hsl, hQ, hT, hW, hD, rfl, le_refl _, rfl, rfl, fun e' he' => Or.inl he'⟩
  · rw [if_neg h1]
    by_cases h2 : (stn x sid).status ≠ Status.down
    · rw [if_pos h2]
      exact ⟨hsl, hQ, hT, hW, hD, rfl, le_refl _, rfl, rfl, fun e' he' => Or.inl he'⟩
    · rw [if_neg h2]
      have hlt : sid < x.stations.length := by omega
      have hp2 : HPost x ({ x with stations := x.stations.set sid ({ stn x sid with status := Status.idle, starved := false, has_finished_part := false, end_time := none, repairing := false, repair_eta := none } : Station), workers_available := nmin (x.workers_available + 1) x.workers_total } : Sim) :=
        HPost_set x sid ({ stn x sid with status := Status.idle, starved := false, has_finished_part := false, end_time := none, repairing := false, repair_eta := none } : Station) hsl hQ hT hD hlt (fun i hi => hW i)
          (fun hcon => Status.noConfusion hcon) (fun hcon => Status.noConfusion hcon)
          ({ x with stations := x.stations.set sid ({ stn x sid with status := Status.idle, starved := false, has_finished_part := false, end_time := none, repairing := false, repair_eta := none } : Station), workers_available := nmin (x.workers_available + 1) x.workers_total } : Sim) rfl rfl rfl rfl rfl rfl rfl
      obtain ⟨c1, c2, c3, c4, c5, -, -, -, crt, -⟩ := hp2
      have hp2b : HPost x ({ x with stations := x.stations.set sid ({ stn x sid with status := Status.idle, starved := false, has_finished_part := false, end_time := none, repairing := false, repair_eta := none } : Station), workers_available := nmin (x.workers_available + 1) x.workers_total } : Sim) :=
        HPost_set x sid ({ stn x sid with status := Status.idle, starved := false, has_finished_part := false, end_time := none, repairing := false, repair_eta := none } : Station) hsl hQ hT hD hlt (fun i hi => hW i)
          (fun hcon => Status.noConfusion hcon) (fun hcon => Status.noConfusion hcon)
          ({ x with stations := x.stations.set sid ({ stn x sid with status := Status.idle, starved := false, has_finished_part := false, end_time := none, repairing := false, repair_eta := none } : Station), workers_available := nmin (x.workers_available + 1) x.workers_total } : Sim) rfl rfl rfl rfl rfl rfl rfl
      have hrt2 : 0 ≤ (({ x with stations := x.stations.set sid ({ stn x sid with status := Status.idle, starved := false, has_finished_part := false, end_time := none, repairing := false, repair_eta := none } : Station), workers_available := nmin (x.workers_available + 1) x.workers_total } : Sim)).repair_time := by
        rw [crt]
        exact hRT
      cases hq : x.repair_queue with
      | nil => exact hp2b
      | cons next rest =>
        dsimp only
        split_ifs with hass
        · exact HPost_trans x _ _ hp2b (assign_spec _ next c1 c2 c3 c4 c5 hrt2)
        · exact HPost_trans x _ _ hp2b (assign_spec _ next c1 c2 c3 c4 c5 hrt2)

theorem popCore (e : Event) (rest : List Event) (s xA : Sim)
    (hq : s.event_queue = e :: rest) (hI : InvT s)
    (hAq : xA.event_queue = rest) (hAt : xA.time = e.t) (hAseq : xA.seq = s.seq)
    (hAlen : xA.stations.length = s.stations.length) (hAn : xA.n_stations = s.n_stations)
    (hArng : xA.rng = s.rng) (hArt : xA.repair_time = s.repair_time)
    (hAstn : ∀ i, ∃ u, stn xA i = { stn s i with util_ema := u }) :
    InvT (handleEvent e xA).1 ∧ J e (handleEvent e xA).1 ∧
    (∀ y, J y s → J y (handleEvent e xA).1) ∧
    s.seq ≤ (handleEvent e xA).1.seq ∧ s.time ≤ (handleEvent e xA).1.time := by
  obtain ⟨hsl, hQ, hT, hW, hD, hR, hRT⟩ := hI
  obtain ⟨hpw, hbound, hnodup⟩ := hQ
  rw [hq] at hpw hbound hnodup
  have hte : s.time ≤ e.t := hT e (by rw [hq]; exact List.mem_cons_self e rest)
  have hrestlt : ∀ ev ∈ rest, lexLt e ev := fun ev hev => List.rel_of_pairwise_cons hpw hev
  have hrt_t : ∀ ev ∈ rest, e.t ≤ ev.t := fun ev hev => lexLt_t_le (hrestlt ev hev)
  have hseq_e : e.seq < s.seq := hbound e (List.mem_cons_self e rest)
  have hne_seq : ∀ ev ∈ rest, e.seq ≠ ev.seq := by
    intro ev hev heq
    rw [List.map_cons, List.nodup_cons] at hnodup
    exact hnodup.1 (heq ▸ List.mem_map_of_mem Event.seq hev)
  have hslA : SL xA := by
    unfold SL
    rw [hAlen, hAn]
    exact hsl
  have hQA : QOK xA := by
    refine ⟨?_, ?_, ?_⟩
    · rw [hAq]
      exact hpw.of_cons
    · intro ev hev
      rw [hAq] at hev
      rw [hAseq]
      exact hbound ev (List.mem_cons_of_mem e hev)
    · rw [hAq]
      rw [List.map_cons, List.nodup_cons] at hnodup
      exact hnodup.2
  have hTA : TimeInv xA := by
    intro ev hev
    rw [hAq] at hev
    rw [hAt]
    exact hrt_t ev hev
  have hDA : DN xA := by
    intro i hdi
    obtain ⟨u, hu⟩ := hAstn i
    rw [hu] at hdi ⊢
    exact hD i hdi
  have hRA : RngOK xA := by
    intro k
    rw [hArng]
    exact hR k
  have hRTA : 0 ≤ xA.repair_time := by
    rw [hArt]
    exact hRT
  have hWEoA : ∀ i, i ≠ e.sid → WEat xA i := by
    intro i hi hw
    obtain ⟨u, hu⟩ := hAstn i
    rw [hu] at hw
    obtain ⟨t, h1, h2, ev, hev, h3, h4, h5⟩ := hW i hw
    rw [hq] at hev
    rcases List.mem_cons.mp hev with rfl | hev2
    · exact absurd h4.symm hi
    · refine ⟨t, ?_, ?_, ev, ?_, h3, h4, h5⟩
      · rw [hu]
        exact h1
      · rw [hAt, ← h5]
        exact hrt_t ev hev2
      · rw [hAq]
        exact hev2
  have hsidA : (stn xA e.sid).status = Status.working →
      ∃ t, (stn xA e.sid).end_time = some t ∧ xA.time ≤ t ∧
        ((∃ ev ∈ xA.event_queue, ev.etype = EventType.serviceComplete ∧ ev.sid = e.sid ∧ ev.t = t)
          ∨ t = xA.time) := by
    intro hw
    obtain ⟨u, hu⟩ := hAstn e.sid
    rw [hu] at hw
    obtain ⟨t, h1, h2, ev, hev, h3, h4, h5⟩ := hW e.sid hw
    rw [hq] at hev
    rcases List.mem_cons.mp hev with rfl | hev2
    · refine ⟨t, ?_, ?_, Or.inr ?_⟩
      · rw [hu]
        exact h1
      · rw [hAt, ← h5]
      · rw [hAt, ← h5]
    · refine ⟨t, ?_, ?_, Or.inl ⟨ev, ?_, h3, h4, h5⟩⟩
      · rw [hu]
        exact h1
      · rw [hAt, ← h5]
        exact hrt_t ev hev2
      · rw [hAq]
        exact hev2
  have hWA_ne : e.etype ≠ EventType.serviceComplete → WE xA := by
    intro hnsc i
    by_cases hi : i = e.sid
    · subst hi
      intro hw
      obtain ⟨u, hu⟩ := hAstn e.sid
      rw [hu] at hw
      obtain ⟨t, h1, h2, ev, hev, h3, h4, h5⟩ := hW e.sid hw
      rw [hq] at hev
      rcases List.mem_cons.mp hev with rfl | hev2
      · exact absurd h3 hnsc
      · refine ⟨t, ?_, ?_, ev, ?_, h3, h4, h5⟩
        · rw [hu]
          exact h1
        · rw [hAt, ← h5]
          exact hrt_t ev hev2
        · rw [hAq]
          exact hev2
    · exact hWEoA i hi
  have hHP : HPost xA (handleEvent e xA).1 := by
    unfold handleEvent
    cases he : e.etype with
    | serviceComplete => exact hsc_spec xA e.sid hslA hQA hTA hDA hRTA hWEoA hsidA
    | machineFailure =>
      exact hmf_spec xA e.sid hslA hQA hTA
        (hWA_ne (by rw [he]; intro hc; exact EventType.noConfusion hc)) hDA hRTA
    | repairComplete =>
      exact hrc_spec xA e.sid hslA hQA hTA
        (hWA_ne (by rw [he]; intro hc; exact EventType.noConfusion hc)) hDA hRTA
  have hHPc := hHP
  obtain ⟨hsl1, hQ1, hT1, hW1, hD1, ht1, hs1, hr1, hp1, hg1⟩ := hHPc
  refine ⟨⟨hsl1, hQ1, hT1, hW1, hD1, ?_, ?_⟩, ⟨?_, ?_, ?_⟩, ?_, ?_, ?_⟩
  · intro k
    rw [hr1, hArng]
    exact hR k
  · rw [hp1, hArt]
    exact hRT
  · intro e' he'
    rcases hg1 e' he' with hin | ⟨hse, hte'⟩
    · rw [hAq] at hin
      exact ⟨hrestlt e' hin, hne_seq e' hin⟩
    · rw [hAseq] at hse
      rw [hAt] at hte'
      have hlt : lexLt e e' := by
        unfold lexLt
        rcases lt_or_eq_of_le hte' with hl | hl
        · exact Or.inl hl
        · exact Or.inr ⟨hl, by omega⟩
      exact ⟨hlt, by omega⟩
  · rw [hAseq] at hs1
    omega
  · rw [ht1, hAt]
  · intro y hy
    have hyA : J y xA := by
      obtain ⟨hyq, hys, hyt⟩ := hy
      refine ⟨?_, by rw [hAseq]; exact hys, by rw [hAt]; exact le_trans hyt hte⟩
      intro e' he'
      rw [hAq] at he'
      exact hyq e' (by rw [hq]; exact List.mem_cons_of_mem e he')
    exact J_HPost xA _ y hHP hyA
  · rw [hAseq] at hs1
    exact hs1
  · rw [ht1, hAt]
    exact hte

theorem popStep_spec (O : Oracle) (e : Event) (rest : List Event) (s : Sim)
    (hq : s.event_queue = e :: rest) (hI : InvT s) :
    InvT (handleEvent e (advance_time O e.t { s with event_queue := rest })).1 ∧
    J e (handleEvent e (advance_time O e.t { s with event_queue := rest })).1 ∧
    (∀ y, J y s → J y (handleEvent e (advance_time O e.t { s with event_queue := rest })).1) ∧
    s.seq ≤ (handleEvent e (advance_time O e.t { s with event_queue := rest })).1.seq ∧
    s.time ≤ (handleEvent e (advance_time O e.t { s with event_queue := rest })).1.time := by
  have hte : s.time ≤ e.t := hI.2.2.1 e (by rw [hq]; exact List.mem_cons_self e rest)
  obtain ⟨fq, fwa, fwt, fn, frq, flen, fseq, -, -, -, -, -, -, frt, frng⟩ :=
    advance_frame O e.t { s with event_queue := rest }
  refine popCore e rest s _ hq hI fq ?_ fseq flen fn frng frt ?_
  · exact advance_clock O e.t _ hte
  · intro i
    obtain ⟨u, hu⟩ := advance_stn O e.t { s with event_queue := rest } i
    exact ⟨u, hu⟩

theorem popStep_disp (O : Oracle) (e : Event) (s S s3 : Sim) (hI : InvT s)
    (hSI : InvT S) (hSJ : J e S) (hStr : ∀ y, J y s → J y S)
    (hSseq : s.seq ≤ S.seq) (hStime : s.time ≤ S.time)
    (happ : apply_action O none S = some s3) :
    InvT s3 ∧ J e s3 ∧ (∀ y, J y s → J y s3) ∧ s.seq ≤ s3.seq ∧ s.time ≤ s3.time := by
  have hA := AAE_apply_action O S s3 happ
  have hR : RngOK S := hSI.2.2.2.2.2.1
  exact ⟨InvT_AAE S s3 hA hSI, J_AAE S s3 e hA hR hSJ,
    fun y hy => J_AAE S s3 y hA hR (hStr y hy), le_trans hSseq hA.seq_le,
    le_trans hStime (le_of_eq hA.time_eq.symm)⟩

theorem traceCons (s x s4 : Sim) (e : Event) (tr2 : List Event)
    (h1 : InvT x ∧ J e x ∧ (∀ y, J y s → J y x) ∧ s.seq ≤ x.seq ∧ s.time ≤ x.time)
    (h2 : InvT s4 ∧ x.seq ≤ s4.seq ∧ x.time ≤ s4.time ∧
      (∀ y, J y x → J y s4 ∧ ∀ e2 ∈ tr2, lexLt y e2 ∧ y.seq ≠ e2.seq) ∧
      List.Pairwise lexLt tr2 ∧ List.Pairwise (fun a b => a.seq ≠ b.seq) tr2 ∧
      (∀ e2 ∈ tr2, J e2 s4))
    (hes : ∀ y, J y s → lexLt y e ∧ y.seq ≠ e.seq) :
    InvT s4 ∧ s.seq ≤ s4.seq ∧ s.time ≤ s4.time ∧
    (∀ y, J y s → J y s4 ∧ ∀ e2 ∈ e :: tr2, lexLt y e2 ∧ y.seq ≠ e2.seq) ∧
    List.Pairwise lexLt (e :: tr2) ∧ List.Pairwise (fun a b => a.seq ≠ b.seq) (e :: tr2) ∧
    (∀ e2 ∈ e :: tr2, J e2 s4) := by
  obtain ⟨hxI, hxe, hxtr, hxseq, hxtime⟩ := h1
  obtain ⟨h4I, h4seq, h4time, h4tr, h4pw, h4pw2, h4J⟩ := h2
  refine ⟨h4I, le_trans hxseq h4seq, le_trans hxtime h4time, ?_, ?_, ?_, ?_⟩
  · intro y hy
    obtain ⟨hyx, hytr⟩ := h4tr y (hxtr y hy)
    refine ⟨hyx, ?_⟩
    intro e2 he2
    rcases List.mem_cons.mp he2 with rfl | he2b
    · exact hes y hy
    · exact hytr e2 he2b
  · refine List.Pairwise.cons ?_ h4pw
    intro e2 he2
    exact ((h4tr e hxe).2 e2 he2).1
  · refine List.Pairwise.cons ?_ h4pw2
    intro e2 he2
    exact ((h4tr e hxe).2 e2 he2).2
  · intro e2 he2
    rcases List.mem_cons.mp he2 with rfl | he2b
    · exact (h4tr e2 hxe).1
    · exact h4J e2 he2b

/-- The invariant-and-trace contract of one event-popping loop. -/
def LSpec (s s1 : Sim) (tr : List Event) : Prop :=
  InvT s1 ∧ s.seq ≤ s1.seq ∧ s.time ≤ s1.time ∧
  (∀ y, J y s → J y s1 ∧ ∀ e2 ∈ tr, lexLt y e2 ∧ y.seq ≠ e2.seq) ∧
  List.Pairwise lexLt tr ∧ List.Pairwise (fun a b => a.seq ≠ b.seq) tr ∧
  (∀ e2 ∈ tr, J e2 s1)

theorem LSpec_nil (s : Sim) (h : InvT s) : LSpec s s [] :=
  ⟨h, le_refl _, le_refl _, fun y hy => ⟨hy, by simp⟩, List.Pairwise.nil,
    List.Pairwise.nil, by simp⟩

theorem rundLoop_spec (O : Oracle) (fuel : ℕ) : ∀ (s s1 : Sim) (tr : List Event),
    InvT s → rundLoop O fuel s = some (s1, tr) → LSpec s s1 tr := by
  induction fuel with
  | zero =>
    intro s s1 tr h hr
    unfold rundLoop at hr
    simp only [Option.some.injEq, Prod.mk.injEq] at hr
    obtain ⟨h1, h2⟩ := hr
    subst h1
    subst h2
    exact LSpec_nil s h
  | succ fuel ih =>
    intro s s1 tr h hr
    unfold rundLoop at hr
    split at hr
    · simp only [Option.some.injEq, Prod.mk.injEq] at hr
      obtain ⟨h1, h2⟩ := hr
      subst h1
      subst h2
      exact LSpec_nil s h
    · rename_i e rest hq
      obtain ⟨hInv1, hJe1, hJtr1, hseq1, htime1⟩ := popStep_spec O e rest s hq h
      have hes : ∀ y, J y s → lexLt y e ∧ y.seq ≠ e.seq := by
        intro y hy
        exact hy.1 e (by rw [hq]; exact List.mem_cons_self e rest)
      dsimp only at hr
      split at hr
      · split at hr
        · simp at hr
        · rename_i s3 happ
          simp only [Option.some.injEq, Prod.mk.injEq] at hr
          obtain ⟨h1, h2⟩ := hr
          subst h1
          subst h2
          obtain ⟨dI, dJ, dtr, dseq, dtime⟩ :=
            popStep_disp O e s ({ (handleEvent e (advance_time O e.t { s with event_queue := rest })).1 with last_event_type := some e.etype, last_event_sid := some e.sid } : Sim) s3 h hInv1 hJe1 hJtr1 hseq1 htime1 happ
          refine ⟨dI, dseq, dtime, ?_, ?_, ?_, ?_⟩
          · intro y hy
            refine ⟨dtr y hy, ?_⟩
            intro e2 he2
            rw [List.mem_singleton] at he2
            subst he2
            exact hes y hy
          · simp
          · simp
          · intro e2 he2
            rw [List.mem_singleton] at he2
            subst he2
            exact dJ
      · split at hr
        · simp at hr
        · rename_i s3 tr2 hrec
          simp only [Option.some.injEq, Prod.mk.injEq] at hr
          obtain ⟨h1, h2⟩ := hr
          subst h1
          subst h2
          exact traceCons s _ s3 e tr2 ⟨hInv1, hJe1, hJtr1, hseq1, htime1⟩
            (ih _ s3 tr2 hInv1 hrec) hes

theorem rtfLoop_spec (O : Oracle) (fuel : ℕ) : ∀ (s s1 : Sim) (tr : List Event),
    InvT s → rtfLoop O fuel s = some (s1, tr) → LSpec s s1 tr := by
  induction fuel with
  | zero =>
    intro s s1 tr h hr
    unfold rtfLoop at hr
    simp only [Option.some.injEq, Prod.mk.injEq] at hr
    obtain ⟨h1, h2⟩ := hr
    subst h1
    subst h2
    exact LSpec_nil s h
  | succ fuel ih =>
    intro s s1 tr h hr
    unfold rtfLoop at hr
    split at hr
    · split at hr
      · simp only [Option.some.injEq, Prod.mk.injEq] at hr
        obtain ⟨h1, h2⟩ := hr
        subst h1
        subst h2
        exact LSpec_nil s h
      · rename_i e rest hq
        obtain ⟨hInv1, hJe1, hJtr1, hseq1, htime1⟩ := popStep_spec O e rest s hq h
        have hes : ∀ y, J y s → lexLt y e ∧ y.seq ≠ e.seq := by
          intro y hy
          exact hy.1 e (by rw [hq]; exact List.mem_cons_self e rest)
        dsimp only at hr
        split at hr
        · split at hr
          · simp at hr
          · rename_i s3 happ
            split at hr
            · simp at hr
            · rename_i s4 tr2 hrec
              simp only [Option.some.injEq, Prod.mk.injEq] at hr
              obtain ⟨h1, h2⟩ := hr
              subst h1
              subst h2
              split at happ
              · have hd := popStep_disp O e s ({ (handleEvent e (advance_time O e.t { s with event_queue := rest })).1 with wip_history := ((handleEvent e (advance_time O e.t { s with event_queue := rest })).1).wip_history ++ [historyWip (handleEvent e (advance_time O e.t { s with event_queue := rest })).1] } : Sim) s3 h hInv1 hJe1 hJtr1 hseq1 htime1 happ
                exact traceCons s s3 s4 e tr2 ⟨hd.1, hd.2.1, hd.2.2.1, hd.2.2.2.1, hd.2.2.2.2⟩
                  (ih s3 s4 tr2 hd.1 hrec) hes
              · have hd := popStep_disp O e s _ s3 h hInv1 hJe1 hJtr1 hseq1 htime1 happ
                exact traceCons s s3 s4 e tr2 ⟨hd.1, hd.2.1, hd.2.2.1, hd.2.2.2.1, hd.2.2.2.2⟩
                  (ih s3 s4 tr2 hd.1 hrec) hes
        · split at hr
          · simp at hr
          · rename_i s4 tr2 hrec
            simp only [Option.some.injEq, Prod.mk.injEq] at hr
            obtain ⟨h1, h2⟩ := hr
            subst h1
            subst h2
            exact traceCons s _ s4 e tr2 ⟨hInv1, hJe1, hJtr1, hseq1, htime1⟩
              (ih _ s4 tr2 hInv1 hrec) hes
    · simp only [Option.some.injEq, Prod.mk.injEq] at hr
      obtain ⟨h1, h2⟩ := hr
      subst h1
      subst h2
      exact LSpec_nil s h

/-- Calls that are not a reset. -/
def NotReset : Call → Prop
  | .reset _ _ => False
  | _ => True

theorem reset_invT (O : Oracle) (ent : ℕ → ℚ) (seed : Option ℕ) (n_jobs : ℕ) (s : Sim)
    (sn : Snapshot) (s2 : Sim)
    (hsd : ∀ v k, 0 ≤ O.seedStream v k) (hent : ∀ k, 0 ≤ ent k)
    (hrt : 0 ≤ s.repair_time)
    (h : reset O ent seed n_jobs s = some (sn, s2)) : InvT s2 := by
  unfold reset at h
  dsimp only at h
  split at h
  · simp at h
  · rename_i s3 happ
    simp only [Option.some.injEq, Prod.mk.injEq] at h
    obtain ⟨-, h2⟩ := h
    subst h2
    refine InvT_AAE _ _ (AAE_apply_action O _ _ happ) ?_
    refine ⟨?_, ⟨List.Pairwise.nil, by simp, by simp⟩, ?_, ?_, ?_, ?_, ?_⟩
    · show (List.replicate s.n_stations Station.new).length = s.n_stations
      exact List.length_replicate _ _
    · intro e he
      simp at he
    · intro i hw
      simp only [stn, getD_replicate, ite_self] at hw
      exact absurd hw (by decide)
    · intro i hd
      simp only [stn, getD_replicate, ite_self] at hd
      exact absurd hd (by decide)
    · intro k
      cases seed with
      | some v => exact hsd v k
      | none => exact hent k
    · exact hrt

theorem applyCall_trace (O : Oracle) (ent : ℕ → ℚ) (c : Call) (s : Sim)
    (r : Sim × List Out × List Event) (hc : NotReset c) (hI : InvT s)
    (h : applyCall O ent c s = some r) : LSpec s r.1 r.2.2 := by
  cases c with
  | reset seed n_jobs => exact hc.elim
  | action sp =>
    unfold applyCall at h
    dsimp only at h
    split at h
    · simp at h
    · rename_i s2 happ
      simp only [Option.some.injEq] at h
      subst h
      cases sp with
      | none =>
        have hA := AAE_apply_action O s s2 happ
        have hR : RngOK s := hI.2.2.2.2.2.1
        exact ⟨InvT_AAE s s2 hA hI, hA.seq_le, le_of_eq hA.time_eq.symm,
          fun y hy => ⟨J_AAE s s2 y hA hR hy, by simp⟩, List.Pairwise.nil,
          List.Pairwise.nil, by simp⟩
      | some v =>
        have hA := AAE_apply_action_speed O v s s2 happ
        have hR : RngOK s := hI.2.2.2.2.2.1
        exact ⟨InvT_AAE _ s2 hA hI, hA.seq_le, le_of_eq hA.time_eq.symm,
          fun y hy => ⟨J_AAE _ s2 y hA hR hy, by simp⟩, List.Pairwise.nil,
          List.Pairwise.nil, by simp⟩
  | step =>
    unfold applyCall at h
    dsimp only at h
    unfold run_until_next_decision at h
    dsimp only at h
    split at h
    · simp at h
    · rename_i sn s1 tr hrun
      simp only [Option.some.injEq] at h
      subst h
      split at hrun
      · simp at hrun
      · rename_i s2 tr2 hloop
        simp only [Option.some.injEq, Prod.mk.injEq] at hrun
        obtain ⟨-, h2, h3⟩ := hrun
        have hls := rundLoop_spec O s.event_queue.length
          { s with throughput_since_decision := 0 } s2 tr2 hI hloop
        rw [← h2, ← h3]
        exact hls
  | finish fuel =>
    unfold applyCall at h
    dsimp only at h
    unfold run_to_finish at h
    split at h
    · simp at h
    · rename_i sm s1 tr hrtf
      simp only [Option.some.injEq] at h
      subst h
      split at hrtf
      · simp at hrtf
      · rename_i s2 tr2 hloop
        simp only [Option.some.injEq, Prod.mk.injEq] at hrtf
        obtain ⟨-, h2, h3⟩ := hrtf
        have hls := rtfLoop_spec O fuel s s2 tr2 hI hloop
        rw [← h2, ← h3]
        exact hls
  | snapshot =>
    unfold applyCall at h
    dsimp only at h
    simp only [Option.some.injEq] at h
    subst h
    exact LSpec_nil s hI
  | summary =>
    unfold applyCall at h
    dsimp only at h
    simp only [Option.some.injEq] at h
    subst h
    exact LSpec_nil s hI

theorem applyCall_invT (O : Oracle) (ent : ℕ → ℚ) (c : Call) (s : Sim)
    (r : Sim × List Out × List Event)
    (hsd : ∀ v k, 0 ≤ O.seedStream v k) (hent : ∀ k, 0 ≤ ent k)
    (hI : InvT s) (h : applyCall O ent c s = some r) : InvT r.1 := by
  cases c with
  | reset seed n_jobs =>
    unfold applyCall at h
    dsimp only at h
    split at h
    · simp at h
    · rename_i sn s2 hres
      simp only [Option.some.injEq] at h
      subst h
      exact reset_invT O ent seed n_jobs s sn s2 hsd hent hI.2.2.2.2.2.2 hres
  | action sp => exact (applyCall_trace O ent (Call.action sp) s r trivial hI h).1
  | step => exact (applyCall_trace O ent Call.step s r trivial hI h).1
  | finish fuel => exact (applyCall_trace O ent (Call.finish fuel) s r trivial hI h).1
  | snapshot => exact (applyCall_trace O ent Call.snapshot s r trivial hI h).1
  | summary => exact (applyCall_trace O ent Call.summary s r trivial hI h).1

theorem LSpec_append (s x s4 : Sim) (tr1 tr2 : List Event)
    (h1 : LSpec s x tr1) (h2 : LSpec x s4 tr2) : LSpec s s4 (tr1 ++ tr2) := by
  obtain ⟨h1I, h1seq, h1time, h1tr, h1pw, h1pw2, h1J⟩ := h1
  obtain ⟨h2I, h2seq, h2time, h2tr, h2pw, h2pw2, h2J⟩ := h2
  refine ⟨h2I, le_trans h1seq h2seq, le_trans h1time h2time, ?_, ?_, ?_, ?_⟩
  · intro y hy
    obtain ⟨hyx, hytr1⟩ := h1tr y hy
    obtain ⟨hy4, hytr2⟩ := h2tr y hyx
    refine ⟨hy4, ?_⟩
    intro e2 he2
    rcases List.mem_append.mp he2 with hm | hm
    · exact hytr1 e2 hm
    · exact hytr2 e2 hm
  · rw [List.pairwise_append]
    refine ⟨h1pw, h2pw, ?_⟩
    intro a ha b hb
    exact ((h2tr a (h1J a ha)).2 b hb).1
  · rw [List.pairwise_append]
    refine ⟨h1pw2, h2pw2, ?_⟩
    intro a ha b hb
    exact ((h2tr a (h1J a ha)).2 b hb).2
  · intro e2 he2
    rcases List.mem_append.mp he2 with hm | hm
    · exact (h2tr e2 (h1J e2 hm)).1
    · exact h2J e2 hm

theorem runCallsAux_invT (O : Oracle) (ent : ℕ → ℕ → ℚ) (cs : List Call)
    (hsd : ∀ v k, 0 ≤ O.seedStream v k) (hent : ∀ j k, 0 ≤ ent j k) :
    ∀ (k : ℕ) (s : Sim) (r : Sim × List Out × List Event),
      InvT s → runCallsAux O ent cs k s = some r → InvT r.1 := by
  induction cs with
  | nil =>
    intro k s r h hr
    unfold runCallsAux at hr
    simp only [Option.some.injEq] at hr
    subst hr
    exact h
  | cons c rest ih =>
    intro k s r h hr
    unfold runCallsAux at hr
    split at hr
    · simp at hr
    · rename_i s1 outs1 tr1 happ
      split at hr
      · simp at hr
      · rename_i s2 outs2 tr2 hrec
        simp only [Option.some.injEq] at hr
        subst hr
        exact ih (k + 1) s1 (s2, outs2, tr2)
          (applyCall_invT O (ent k) c s (s1, outs1, tr1) hsd (hent k) h happ) hrec

theorem runCallsAux_trace (O : Oracle) (ent : ℕ → ℕ → ℚ) (cs : List Call)
    (hns : ∀ c ∈ cs, NotReset c) :
    ∀ (k : ℕ) (s : Sim) (r : Sim × List Out × List Event),
      InvT s → runCallsAux O ent cs k s = some r → LSpec s r.1 r.2.2 := by
  induction cs with
  | nil =>
    intro k s r h hr
    unfold runCallsAux at hr
    simp only [Option.some.injEq] at hr
    subst hr
    exact LSpec_nil s h
  | cons c rest ih =>
    intro k s r h hr
    unfold runCallsAux at hr
    split at hr
    · simp at hr
    · rename_i s1 outs1 tr1 happ
      split at hr
      · simp at hr
      · rename_i s2 outs2 tr2 hrec
        simp only [Option.some.injEq] at hr
        subst hr
        have h1 := applyCall_trace O (ent k) c s (s1, outs1, tr1)
          (hns c (List.mem_cons_self c rest)) h happ
        have h2 := ih (fun d hd => hns d (List.mem_cons_of_mem c hd)) (k + 1) s1
          (s2, outs2, tr2) h1.1 hrec
        exact LSpec_append s s1 s2 tr1 tr2 h1 h2

theorem cxStream_nonneg : ∀ k, 0 ≤ cxStream k := by
  intro k
  unfold cxStream
  rcases k with _|_|_|_|_|_|_|_|_|k
  all_goals try decide
  show (0:ℚ) ≤ List.getD _ _ _
  rw [List.getD_eq_default]
  · decide
  · simp

theorem new_invT (ent0 : ℕ → ℚ) (n : ℕ) (caps : List ℕ) (means : List ℚ)
    (dists : List String) (a fr rt : ℚ) (w : ℕ) (s0 : Sim)
    (hent0 : ∀ k, 0 ≤ ent0 k) (hrt : 0 ≤ rt)
    (h0 : FactorySim.new ent0 n caps means dists a fr rt w = .ok s0) : InvT s0 := by
  unfold FactorySim.new at h0
  split_ifs at h0
  all_goals try exact Except.noConfusion h0
  simp only [Except.ok.injEq] at h0
  subst h0
  refine ⟨?_, ⟨List.Pairwise.nil, by simp, by simp⟩, ?_, ?_, ?_, ?_, ?_⟩
  · show (List.replicate n Station.new).length = n
    exact List.length_replicate _ _
  · intro e he
    simp at he
  · intro i hw
    simp only [stn, getD_replicate, ite_self] at hw
    exact absurd hw (by decide)
  · intro i hd
    simp only [stn, getD_replicate, ite_self] at hd
    exact absurd hd (by decide)
  · intro k
    exact hent0 k
  · exact hrt

/-- C7: in every run (a freshly constructed engine, a seeded or unseeded reset,
then any sequence of non-reset public calls), the events popped from the event
queue form a strictly increasing (time, seq) lexicographic chain — dispatch
times are non-decreasing, events with equal times are dispatched in insertion
(seq) order — and the seq values of the popped events are pairwise distinct. -/
theorem c7_dispatch_order (O : Oracle) (ent : ℕ → ℕ → ℚ) (ent0 : ℕ → ℚ)
    (seed : Option ℕ) (n_jobs : ℕ) (n : ℕ) (caps : List ℕ) (means : List ℚ)
    (dists : List String) (a fr rt : ℚ) (w : ℕ) (rest : List Call) (s0 : Sim)
    (r : Sim × List Out × List Event)
    (hsd : ∀ v k, 0 ≤ O.seedStream v k) (hent : ∀ j k, 0 ≤ ent j k)
    (hent0 : ∀ k, 0 ≤ ent0 k) (hrt : 0 ≤ rt)
    (hns : ∀ c ∈ rest, NotReset c)
    (h0 : FactorySim.new ent0 n caps means dists a fr rt w = .ok s0)
    (hr : runCalls O ent (Call.reset seed n_jobs :: rest) s0 = some r) :
    List.Pairwise lexLt r.2.2 ∧ (r.2.2.map Event.seq).Nodup := by
  unfold runCalls runCallsAux at hr
  split at hr
  · exact Option.noConfusion hr
  · rename_i s1 outs1 tr1 happ
    split at hr
    · exact Option.noConfusion hr
    · rename_i s2 outs2 tr2 hrec
      simp only [Option.some.injEq] at hr
      subst hr
      unfold applyCall at happ
      dsimp only at happ
      split at happ
      · exact Option.noConfusion happ
      · rename_i sn s1b hres
        simp only [Option.some.injEq, Prod.mk.injEq] at happ
        obtain ⟨h1, -, h3⟩ := happ
        subst h1
        subst h3
        have hI0 : InvT s0 := new_invT ent0 n caps means dists a fr rt w s0 hent0 hrt h0
        have hI1 : InvT s1b :=
          reset_invT O (ent 0) seed n_jobs s0 sn s1b hsd (fun k => hent 0 k)
            hI0.2.2.2.2.2.2 hres
        have hls := runCallsAux_trace O ent rest hns (0 + 1) s1b (s2, outs2, tr2) hI1 hrec
        constructor
        · simp only [List.nil_append]
          exact hls.2.2.2.2.1
        · simp only [List.nil_append]
          unfold List.Nodup
          rw [List.pairwise_map]
          exact hls.2.2.2.2.2.1

/-- Witness for C7 at a concrete input: a one-station, one-job engine, seeded
reset, one step. -/
theorem c7_dispatch_order_witness :
    List.Pairwise lexLt
        (((runCalls Ocx entCx [Call.reset (some 0) 1, Call.step] sim0).getD
          (sim0, [], [])).2.2) ∧
      ((((runCalls Ocx entCx [Call.reset (some 0) 1, Call.step] sim0).getD
          (sim0, [], [])).2.2).map Event.seq).Nodup :=
  c7_dispatch_order Ocx entCx (fun _ => 0) (some 0) 1 1 [] [1] ["uniform"] 0 0 1 0
    [Call.step] sim0 _ (fun v k => cxStream_nonneg k) (fun j k => le_refl 0)
    (fun k => le_refl 0) (by norm_num)
    (by intro c hc; obtain rfl := List.mem_singleton.mp hc; trivial) rfl rfl

/-- C4 counterexample: on a one-station, one-job line, after a seeded reset
and one step the station has status IDLE yet end_time = Some(1/2): the
service-complete handler sets end_time to the event time when it completes a
job and never clears it, so a non-WORKING station can carry Some(t) after the
public call returns, contradicting the claim. -/
theorem c4_counterexample :
    (runCalls Ocx entCx [Call.reset (some 0) 1, Call.step] simC4).map
        (fun r => ((stn r.1 0).status, (stn r.1 0).end_time)) =
      some (Status.idle, some (1/2)) := by
  decide

/-- C4 (corrected): before and after every public call, every station with
status = WORKING has end_time = Some(t) with t >= the current clock time, and
every DOWN station has end_time = None; an IDLE or BLOCKED station, however,
may retain a stale Some(t) — the service-complete handler sets end_time to the
completion time and no code path clears it afterwards. -/
theorem c4_end_time_invariant (O : Oracle) (ent : ℕ → ℕ → ℚ) (ent0 : ℕ → ℚ)
    (n : ℕ) (caps : List ℕ) (means : List ℚ) (dists : List String)
    (a fr rt : ℚ) (w : ℕ) (calls : List Call) (s0 : Sim)
    (r : Sim × List Out × List Event)
    (hsd : ∀ v k, 0 ≤ O.seedStream v k) (hent : ∀ j k, 0 ≤ ent j k)
    (hent0 : ∀ k, 0 ≤ ent0 k) (hrt : 0 ≤ rt)
    (h0 : FactorySim.new ent0 n caps means dists a fr rt w = .ok s0)
    (hr : runCalls O ent calls s0 = some r) :
    ∀ i, ((stn r.1 i).status = Status.working →
        ∃ t, (stn r.1 i).end_time = some t ∧ r.1.time ≤ t) ∧
      ((stn r.1 i).status = Status.down → (stn r.1 i).end_time = none) := by
  have hI0 : InvT s0 := new_invT ent0 n caps means dists a fr rt w s0 hent0 hrt h0
  have hIr := runCallsAux_invT O ent calls hsd hent 0 s0 r hI0 hr
  intro i
  constructor
  · intro hw
    obtain ⟨t, h1, h2, -⟩ := hIr.2.2.2.1 i hw
    exact ⟨t, h1, h2⟩
  · exact hIr.2.2.2.2.1 i

/-- Witness for the corrected C4 at a concrete input (station 0). -/
theorem c4_end_time_invariant_witness :
    ((stn (((runCalls Ocx entCx [Call.reset (some 0) 1] sim0).getD
            (sim0, [], [])).1) 0).status = Status.working →
      ∃ t, (stn (((runCalls Ocx entCx [Call.reset (some 0) 1] sim0).getD
            (sim0, [], [])).1) 0).end_time = some t ∧
        (((runCalls Ocx entCx [Call.reset (some 0) 1] sim0).getD
            (sim0, [], [])).1).time ≤ t) ∧
    ((stn (((runCalls Ocx entCx [Call.reset (some 0) 1] sim0).getD
            (sim0, [], [])).1) 0).status = Status.down →
      (stn (((runCalls Ocx entCx [Call.reset (some 0) 1] sim0).getD
            (sim0, [], [])).1) 0).end_time = none) :=
  c4_end_time_invariant Ocx entCx (fun _ => 0) 1 [] [1] ["uniform"] 0 0 1 0
    [Call.reset (some 0) 1] sim0 _ (fun v k => cxStream_nonneg k)
    (fun j k => le_refl 0) (fun k => le_refl 0) (by norm_num) rfl rfl 0
